import Mathlib

/-!
# VaultOS encrypted relational storage engine — verification development

A shallow embedding, in Lean 4, of the storage-engine core of VaultOS
(`vaultos-rs`): the order-64 B-tree index (`kernel/src/db/btree.rs`), the
Encrypt-then-MAC record pipeline (`kernel/src/db/database.rs`), the record
page writer (`kernel/src/storage/page_io.rs`) and the SQL-subset query
engine (`kernel/src/db/query.rs`), together with proofs of the specified
properties.

Modelling conventions:
* machine integers become `Nat` with explicit `% 2 ^ 64` where u64
  wrap-around matters; byte buffers become `List Nat`;
* raw pointers that may be null become `Option`; the in-place mutation of
  the Rust code becomes functional state passing;
* the components of the repository that are not part of the given sources
  (the AES/HMAC primitives, the record codec, the block allocator, shared
  constants) are modelled from the specification; each such definition says
  so in its doc comment.
-/

namespace VaultOS

/-! ## Size lemmas used by the termination arguments of the recursive
definitions below (they must precede those definitions). -/

theorem one_le_sizeOf_list {α : Type} [SizeOf α] (l : List α) : 1 ≤ sizeOf l := by
  cases l with
  | nil => simp
  | cons a t => simp only [List.cons.sizeOf_spec]; omega

theorem sizeOf_take_le {α : Type} [SizeOf α] (l : List α) (n : Nat) :
    sizeOf (l.take n) ≤ sizeOf l := by
  induction l generalizing n with
  | nil => simp
  | cons a t ih =>
    cases n with
    | zero =>
      simp only [List.take_zero, List.nil.sizeOf_spec, List.cons.sizeOf_spec]
      have h1 := one_le_sizeOf_list t
      omega
    | succ m =>
      simp only [List.take_succ_cons, List.cons.sizeOf_spec]
      have := ih m
      omega

theorem sizeOf_drop_le {α : Type} [SizeOf α] (l : List α) (n : Nat) :
    sizeOf (l.drop n) ≤ sizeOf l := by
  induction l generalizing n with
  | nil => simp
  | cons a t ih =>
    cases n with
    | zero => simp
    | succ m =>
      simp only [List.drop_succ_cons, List.cons.sizeOf_spec]
      have := ih m
      omega

theorem sizeOf_bool_eq (b : Bool) : sizeOf b = 1 := by cases b <;> rfl

/-! ## B-tree (`kernel/src/db/btree.rs`)

`BTREE_ORDER = 64`, `BTREE_MAX_KEYS = 63`.  A `BtreeNode` holds parallel
arrays `keys`, `values` (nullable record pointers) and `value_lbas`, of
which the first `num_keys` are live; we model the live prefix of the three
arrays as one list of `BEntry`.  The `children`/`child_lbas` arrays are
modelled by the lists `children`/`childLbas` (live prefix of length
`num_keys + 1` for internal nodes; leaves keep the empty list, matching
the all-null arrays of a fresh leaf). -/

def BTREE_MAX_KEYS : Nat := 63

/-- One key slot of a node: `keys[i]`, `values[i]` (`none` = null pointer),
`value_lbas[i]`. -/
structure BEntry (V : Type) where
  key : Nat
  val : Option V
  vlba : Nat
  deriving Repr, DecidableEq

/-- `struct BtreeNode` — entry list plus children, `is_leaf`, `disk_lba`,
`dirty`. -/
inductive BNode (V : Type) : Type where
  | mk (entries : List (BEntry V)) (children : List (BNode V)) (childLbas : List Nat)
       (isLeaf : Bool) (diskLba : Nat) (dirty : Bool) : BNode V
  deriving Repr

def BNode.entries {V : Type} : BNode V → List (BEntry V)
  | .mk es _ _ _ _ _ => es

def BNode.children {V : Type} : BNode V → List (BNode V)
  | .mk _ cs _ _ _ _ => cs

def BNode.childLbas {V : Type} : BNode V → List Nat
  | .mk _ _ ls _ _ _ => ls

def BNode.isLeaf {V : Type} : BNode V → Bool
  | .mk _ _ _ lf _ _ => lf

def BNode.diskLba {V : Type} : BNode V → Nat
  | .mk _ _ _ _ d _ => d

def BNode.dirty {V : Type} : BNode V → Bool
  | .mk _ _ _ _ _ dt => dt

/-- `BtreeNode::new(is_leaf)`: fresh node, no keys, null children, `dirty`. -/
def BNode.fresh {V : Type} (isLeaf : Bool) : BNode V :=
  .mk [] [] [] isLeaf 0 true

/-- Default entry used to read an array slot beyond `num_keys` (the Rust
arrays are zero-initialised there: key 0, null value). -/
def noEnt {V : Type} : BEntry V := ⟨0, none, 0⟩

/-- `struct Btree`. -/
structure Btree (V : Type) where
  root : BNode V
  count : Nat
  tableId : Nat

/-- `btree_init`. -/
def btree_init {V : Type} (tableId : Nat) : Btree V :=
  { root := BNode.fresh true, count := 0, tableId := tableId }

/-- The index the scan `while i < num_keys && key > keys[i] { i += 1 }`
stops at: the first entry whose key is `≥ key` (`num_keys` if none). -/
def entIdx {V : Type} (key : Nat) (es : List (BEntry V)) : Nat :=
  es.findIdx (fun e => key ≤ e.key)

/-- `btree_search_node`: linear scan, follow child `i` when not found in
this node (a null child — index beyond the live children — returns null). -/
def searchNode {V : Type} : BNode V → Nat → Option V
  | .mk es cs _ isLf _ _, key =>
    if entIdx key es < es.length ∧ key = (es.getD (entIdx key es) noEnt).key then
      (es.getD (entIdx key es) noEnt).val
    else if isLf then none
    else if h : entIdx key es < cs.length then searchNode cs[entIdx key es] key
    else none
termination_by n _ => sizeOf n
decreasing_by
  have := List.sizeOf_lt_of_mem (List.getElem_mem h)
  simp only [BNode.mk.sizeOf_spec]
  omega

/-- `btree_search`. -/
def btree_search {V : Type} (tree : Btree V) (key : Nat) : Option V :=
  searchNode tree.root key

/-- `btree_split_child(parent, index)`: split the full child at `index`
(63 keys) around the median index 31.  The guard returns the parent
unchanged when it is already full; an out-of-range `index` or a child that
is not full are never passed by the callers (the model returns the parent
unchanged there). -/
def splitChild {V : Type} (p : BNode V) (index : Nat) : BNode V :=
  match p with
  | .mk es cs clbas lf d _ =>
    if 63 ≤ es.length then p
    else if h : index < cs.length then
      let child := cs[index]
      if 32 ≤ child.entries.length then
        let me := child.entries.getD 31 noEnt
        let childLow : BNode V :=
          .mk (child.entries.take 31) (child.children.take 32)
              (child.childLbas.take 32) child.isLeaf child.diskLba true
        let nn : BNode V :=
          .mk (child.entries.drop 32)
              (if child.isLeaf then [] else child.children.drop 32)
              (if child.isLeaf then [] else child.childLbas.drop 32)
              child.isLeaf 0 true
        .mk (es.take index ++ me :: es.drop index)
            (cs.take index ++ childLow :: nn :: cs.drop (index + 1))
            (clbas.take (index + 1) ++ 0 :: clbas.drop (index + 1))
            lf d true
      else p
    else p

/-- The right-to-left scan of `btree_insert_nonfull` on a leaf
(`while i >= 0 && key < keys[i]` shift, then update-in-place on a
duplicate or insert), acting on the reversed entry list. -/
def leafInsRev {V : Type} (k : Nat) (v : V) : List (BEntry V) → List (BEntry V)
  | [] => [⟨k, some v, 0⟩]
  | e :: rest =>
    if k < e.key then e :: leafInsRev k v rest
    else if e.key = k then ⟨e.key, some v, 0⟩ :: rest
    else ⟨k, some v, 0⟩ :: e :: rest

/-- The right-to-left scan of `btree_insert_nonfull` on an internal node,
acting on the reversed entry list: `.inl` returns the updated (reversed)
entries on a duplicate key, `.inr c` the child index to descend into. -/
def probeRev {V : Type} (k : Nat) (v : V) : List (BEntry V) → List (BEntry V) ⊕ Nat
  | [] => .inr 0
  | e :: rest =>
    if k < e.key then
      match probeRev k v rest with
      | .inl upd => .inl (e :: upd)
      | .inr c => .inr c
    else if e.key = k then .inl (⟨e.key, some v, 0⟩ :: rest)
    else .inr (rest.length + 1)

theorem splitLow_sizeOf_le {V : Type} (ch : BNode V) :
    sizeOf (BNode.mk (ch.entries.take 31) (ch.children.take 32) (ch.childLbas.take 32)
      ch.isLeaf ch.diskLba true) ≤ sizeOf ch := by
  cases ch with
  | mk a b c f g j =>
    simp only [BNode.mk.sizeOf_spec, BNode.entries, BNode.children, BNode.childLbas,
      BNode.isLeaf, BNode.diskLba]
    have h1 := sizeOf_take_le a 31
    have h2 := sizeOf_take_le b 32
    have h3 := sizeOf_take_le c 32
    have hb1 := sizeOf_bool_eq j
    have hb2 := sizeOf_bool_eq true
    simp only [sizeOf_nat]
    omega

theorem splitHigh_sizeOf_le {V : Type} (ch : BNode V) :
    sizeOf (BNode.mk (ch.entries.drop 32)
      (if ch.isLeaf then [] else ch.children.drop 32)
      (if ch.isLeaf then [] else ch.childLbas.drop 32)
      ch.isLeaf 0 true) ≤ sizeOf ch := by
  cases ch with
  | mk a b c f g j =>
    simp only [BNode.mk.sizeOf_spec, BNode.entries, BNode.children, BNode.childLbas,
      BNode.isLeaf, BNode.diskLba]
    have h1 := sizeOf_drop_le a 32
    have h2 := sizeOf_drop_le b 32
    have h3 := sizeOf_drop_le c 32
    have h4 := one_le_sizeOf_list b
    have h5 := one_le_sizeOf_list c
    have hb1 := sizeOf_bool_eq j
    have hb2 := sizeOf_bool_eq true
    have hb3 := sizeOf_bool_eq false
    have hn : sizeOf ([] : List (BNode V)) = 1 := by simp
    have hn2 : sizeOf ([] : List Nat) = 1 := by simp
    cases f <;>
      simp only [if_true, if_false, Bool.false_eq_true, ite_true, ite_false, sizeOf_nat] <;>
      omega

theorem sizeOf_children_le {V : Type} (es : List (BEntry V)) (cs : List (BNode V))
    (clbas : List Nat) (lf : Bool) (d : Nat) (dt : Bool) :
    sizeOf cs ≤ sizeOf (BNode.mk es cs clbas lf d dt) := by
  simp only [BNode.mk.sizeOf_spec]
  omega

/-- `btree_insert_nonfull`.  The `btree_split_child(node, i)` call on a
full child is inlined (same construction as `splitChild`), so that the
recursion visibly descends into a piece of the original child; the guard
case of `split_child` (parent already full — impossible, `insert_nonfull`
is only invoked on non-full nodes) degenerates to descending into the
unsplit child, which is what the source does for an in-range index. -/
def insertNonfull {V : Type} : BNode V → Nat → V → BNode V
  | .mk es cs clbas true d _, k, v =>
    .mk (leafInsRev k v es.reverse).reverse cs clbas true d true
  | .mk es cs clbas false d dt, k, v =>
    match probeRev k v es.reverse with
    | .inl updRev => .mk updRev.reverse cs clbas false d true
    | .inr c =>
      if hc : c < cs.length then
        if hfull : cs[c].entries.length = 63 ∧ es.length < 63 then
          let child := cs[c]
          let me := child.entries.getD 31 noEnt
          let childLow : BNode V :=
            .mk (child.entries.take 31) (child.children.take 32)
                (child.childLbas.take 32) child.isLeaf child.diskLba true
          let nn : BNode V :=
            .mk (child.entries.drop 32)
                (if child.isLeaf then [] else child.children.drop 32)
                (if child.isLeaf then [] else child.childLbas.drop 32)
                child.isLeaf 0 true
          let es' := es.take c ++ me :: es.drop c
          let cs' := cs.take c ++ childLow :: nn :: cs.drop (c + 1)
          let clbas' := clbas.take (c + 1) ++ 0 :: clbas.drop (c + 1)
          let i := if me.key < k then c + 1 else c
          if (es'.getD i noEnt).key = k then
            .mk (es'.set i ⟨k, some v, 0⟩) cs' clbas' false d true
          else
            let target := if i = c then childLow else nn
            .mk es' (cs'.set i (insertNonfull target k v)) clbas' false d true
        else
          .mk es (cs.set c (insertNonfull cs[c] k v)) clbas false d dt
      else
        .mk es cs clbas false d dt
termination_by n _ _ => sizeOf n
decreasing_by
  all_goals
    have hmem := List.sizeOf_lt_of_mem (List.getElem_mem hc)
    have hnode := sizeOf_children_le es cs clbas false d dt
    first
    | exact lt_of_lt_of_le hmem hnode
    | (split
       · rw [dif_neg (by omega)]
         exact lt_of_le_of_lt (splitHigh_sizeOf_le (cs[c])) (lt_of_lt_of_le hmem hnode)
       · rw [dif_pos rfl]
         exact lt_of_le_of_lt (splitLow_sizeOf_le (cs[c])) (lt_of_lt_of_le hmem hnode))

/-- `btree_insert`: split a full root first (new internal root with the
old root as child 0), then insert into the non-full root.  `tree.count`
is incremented unconditionally (u64 arithmetic) and 0 is returned. -/
def btree_insert {V : Type} (tree : Btree V) (key : Nat) (value : V) : Btree V × Int :=
  let root := tree.root
  let newRoot :=
    if root.entries.length = 63 then
      let nr0 : BNode V := .mk [] [root] [root.diskLba] false 0 true
      let nr1 := splitChild nr0 0
      let e0 := nr1.entries.getD 0 noEnt
      if key = e0.key then
        .mk (nr1.entries.set 0 ⟨e0.key, some value, e0.vlba⟩) nr1.children nr1.childLbas
            nr1.isLeaf nr1.diskLba nr1.dirty
      else
        let i := if e0.key < key then 1 else 0
        if h : i < nr1.children.length then
          .mk nr1.entries (nr1.children.set i (insertNonfull nr1.children[i] key value))
              nr1.childLbas nr1.isLeaf nr1.diskLba nr1.dirty
        else nr1
    else insertNonfull root key value
  ({ root := newRoot, count := (tree.count + 1) % 2 ^ 64, tableId := tree.tableId }, 0)

/-- The iterative walk of `btree_delete`, as a recursion that rebuilds the
path: on a hit in a leaf the entry is shifted out; on a hit in an internal
node the value slot is nulled (tombstone) and the key is kept.  Returns
the new node and whether the key was found. -/
def deleteNode {V : Type} : BNode V → Nat → BNode V × Bool
  | .mk es cs clbas isLf d dt, key =>
    if entIdx key es < es.length ∧ key = (es.getD (entIdx key es) noEnt).key then
      if isLf then
        (.mk (es.take (entIdx key es) ++ es.drop (entIdx key es + 1)) cs clbas isLf d true, true)
      else
        (.mk (es.set (entIdx key es) ⟨key, none, 0⟩) cs clbas isLf d true, true)
    else if isLf then (.mk es cs clbas isLf d dt, false)
    else if h : entIdx key es < cs.length then
      let r := deleteNode cs[entIdx key es] key
      (.mk es (cs.set (entIdx key es) r.1) clbas isLf d dt, r.2)
    else (.mk es cs clbas isLf d dt, false)
termination_by n _ => sizeOf n
decreasing_by
  have := List.sizeOf_lt_of_mem (List.getElem_mem h)
  simp only [BNode.mk.sizeOf_spec]
  omega

/-- `btree_delete`: returns 0 and decrements `tree.count` (u64 arithmetic)
exactly when the walk found the key, else −1. -/
def btree_delete {V : Type} (tree : Btree V) (key : Nat) : Btree V × Int :=
  let r := deleteNode tree.root key
  if r.2 then
    ({ root := r.1, count := (tree.count + (2 ^ 64 - 1)) % 2 ^ 64, tableId := tree.tableId }, 0)
  else
    ({ root := r.1, count := tree.count, tableId := tree.tableId }, -1)

/-- Interleave per-child in-order lists with the entry list, in the order
of `btree_scan_node`: child 0, entry 0, child 1, entry 1, …, last child.
A missing child (null pointer) contributes nothing; children beyond
`num_keys + 1` are never visited. -/
def weave {V : Type} : List (List (Nat × Option V)) → List (BEntry V) → List (Nat × Option V)
  | [], [] => []
  | p :: _, [] => p
  | [], e :: es => (e.key, e.val) :: weave [] es
  | p :: ps, e :: es => p ++ (e.key, e.val) :: weave ps es

/-- In-order list of all (key, value-slot) pairs of a node, nulls
included: the traversal order of `btree_scan_node` before its
non-null-value filter. -/
def toPairs {V : Type} : BNode V → List (Nat × Option V)
  | .mk es cs _ isLf _ _ =>
    if isLf then es.map (fun e => (e.key, e.val))
    else weave (cs.attach.map (fun c => toPairs c.1)) es
termination_by n => sizeOf n
decreasing_by
  have := List.sizeOf_lt_of_mem c.2
  simp only [BNode.mk.sizeOf_spec]
  omega

/-- `btree_scan_node` as the list of callback invocations it performs:
the in-order pairs whose value slot is non-null. -/
def scanList {V : Type} (n : BNode V) : List (Nat × V) :=
  (toPairs n).filterMap (fun p => p.2.map (fun v => (p.1, v)))

/-- `btree_scan(tree, callback, ctx)`: fold the callback (with its context
threaded through) over the in-order non-null pairs.  The tree itself is
only read. -/
def btree_scan {V σ : Type} (tree : Btree V) (callback : Nat → V → σ → σ) (ctx : σ) : σ :=
  (scanList tree.root).foldl (fun acc p => callback p.1 p.2 acc) ctx


/-! ## Crypto primitives (spec §4.1)

`kernel/src/crypto/{aes,hmac,random}.rs` are not part of the given
sources; the definitions of this section are modelled from the spec.  The
AES-128 block cipher itself and HMAC-SHA256 are treated as parameters: a
keyed block permutation `Ec`/`Dc` (with `Dc key` a left inverse of
`Ec key` on 16-byte blocks) and a keyed MAC function `Hm`. -/

/-- `AES_BLOCK_SIZE`. -/
def AES_BLOCK_SIZE : Nat := 16

/-- Modelled from the spec: `aes_padded_size` — the PKCS#7 padded length
`plain_len + k` with `k = 16 − (plain_len mod 16)` (always at least one
byte of padding). -/
def aes_padded_size (n : Nat) : Nat := n + (16 - n % 16)

/-- Modelled from the spec: `aes_pkcs7_pad` appends `k` copies of the byte
`k` where `k = 16 − (plain_len mod 16)`. -/
def aes_pkcs7_pad (l : List Nat) : List Nat :=
  l ++ List.replicate (16 - l.length % 16) (16 - l.length % 16)

/-- Modelled from the spec: `aes_pkcs7_unpad` returns the plaintext length,
or 0 (failure) if the last byte is 0 or above 16 or the padding bytes
disagree. -/
def aes_pkcs7_unpad (l : List Nat) : Nat :=
  match l.getLast? with
  | none => 0
  | some k =>
    if k = 0 ∨ 16 < k then 0
    else if (l.drop (l.length - k)).all (fun b => b = k) then l.length - k
    else 0

/-- Byte-wise xor of two buffers (the CBC chaining step). -/
def xorBytes (a b : List Nat) : List Nat := a.zipWith (fun x y => x ^^^ y) b

/-- Modelled from the spec: `aes_cbc_encrypt` over an abstract 16-byte
block permutation `E`: each plaintext block is xored with the previous
ciphertext block (the IV first) and enciphered. -/
def cbcEnc (E : List Nat → List Nat) (prev pt : List Nat) : List Nat :=
  if pt = [] then []
  else
    let c := E (xorBytes (pt.take 16) prev)
    c ++ cbcEnc E c (pt.drop 16)
termination_by pt.length
decreasing_by
  have : pt.length ≠ 0 := fun h => by simp_all [List.length_eq_zero]
  simp [List.length_drop]
  omega

/-- Modelled from the spec: `aes_cbc_decrypt` over the inverse block
permutation `D`. -/
def cbcDec (D : List Nat → List Nat) (prev ct : List Nat) : List Nat :=
  if ct = [] then []
  else
    xorBytes (D (ct.take 16)) prev ++ cbcDec D (ct.take 16) (ct.drop 16)
termination_by ct.length
decreasing_by
  have : ct.length ≠ 0 := fun h => by simp_all [List.length_eq_zero]
  simp [List.length_drop]
  omega

/-- `hmac_verify(a, b, 32)` — the spec requires constant-time equality of
the two 32-byte MACs; its value is equality of the buffers. -/
def hmac_verify (a b : List Nat) : Bool := a == b

/-! ## Record codec (spec §4.2, `kernel/src/db/{record,record_serde}.rs`,
not part of the given sources — modelled from the spec) -/

/-- Modelled from the spec: `MAX_COLUMNS` (the spec fixes no value; the
system tables need at least 7 columns). -/
def MAX_COLUMNS : Nat := 16

/-- Modelled from the spec: `MAX_STR_LEN` (string literals and `Str`
fields are truncated to this many bytes; the spec fixes no value). -/
def MAX_STR_LEN : Nat := 255

/-- Modelled from the spec: `MAX_RECORD_SIZE`, the size of the shared
serialisation scratch buffer (the spec fixes no value). -/
def MAX_RECORD_SIZE : Nat := 4096

/-- Little-endian encoding of `v` on `w` bytes. -/
def leBytes (w v : Nat) : List Nat :=
  (List.range w).map (fun i => v / 256 ^ i % 256)

/-- Little-endian decoding. -/
def leDec (bs : List Nat) : Nat :=
  bs.foldr (fun b acc => b + 256 * acc) 0

/-- Modelled from the spec: a typed field value
(`{U8, U32, U64, I64, Bool, Str, Blob}`).  `Str`/`Blob` carry their byte
payload. -/
inductive FieldValue : Type where
  | u8 (v : Nat)
  | u32 (v : Nat)
  | u64 (v : Nat)
  | i64 (v : Int)
  | bool (v : Bool)
  | str (s : List Nat)
  | blob (b : List Nat)
  deriving Repr, DecidableEq

/-- The serialisation tag of each field type, in the spec's order. -/
def FieldValue.tag : FieldValue → Nat
  | .u8 _ => 0 | .u32 _ => 1 | .u64 _ => 2 | .i64 _ => 3
  | .bool _ => 4 | .str _ => 5 | .blob _ => 6

/-- Modelled from the spec: the payload of one field
(`U8 → u8 | U32 → u32-le | U64 → u64-le | I64 → i64-le | Bool → u8 |
Str → len:u16-le ++ bytes | Blob → len:u32-le ++ bytes`). -/
def FieldValue.payload : FieldValue → List Nat
  | .u8 v => [v % 256]
  | .u32 v => leBytes 4 v
  | .u64 v => leBytes 8 v
  | .i64 v => leBytes 8 (v % (2 ^ 64 : Int)).toNat
  | .bool v => [if v then 1 else 0]
  | .str s => leBytes 2 s.length ++ s
  | .blob b => leBytes 4 b.length ++ b

/-- `field := tag:u8 | payload`. -/
def encField (f : FieldValue) : List Nat := f.tag :: f.payload

/-- Modelled from the spec: decode one field, returning the value and the
rest of the input. -/
def decField : List Nat → Option (FieldValue × List Nat)
  | [] => none
  | t :: rest =>
    if t = 0 then
      match rest with
      | b :: r => some (.u8 b, r)
      | [] => none
    else if t = 1 then
      if 4 ≤ rest.length then some (.u32 (leDec (rest.take 4)), rest.drop 4) else none
    else if t = 2 then
      if 8 ≤ rest.length then some (.u64 (leDec (rest.take 8)), rest.drop 8) else none
    else if t = 3 then
      if 8 ≤ rest.length then
        let n := leDec (rest.take 8)
        some (.i64 (if n < 2 ^ 63 then (n : Int) else (n : Int) - 2 ^ 64), rest.drop 8)
      else none
    else if t = 4 then
      match rest with
      | b :: r => some (.bool (b ≠ 0), r)
      | [] => none
    else if t = 5 then
      if 2 ≤ rest.length then
        let n := leDec (rest.take 2)
        if n ≤ (rest.drop 2).length then some (.str ((rest.drop 2).take n), (rest.drop 2).drop n)
        else none
      else none
    else if t = 6 then
      if 4 ≤ rest.length then
        let n := leDec (rest.take 4)
        if n ≤ (rest.drop 4).length then some (.blob ((rest.drop 4).take n), (rest.drop 4).drop n)
        else none
      else none
    else none

/-- Modelled from the spec: a record — `row_id`, `table_id`,
`field_count` and `MAX_COLUMNS` optional field slots. -/
structure Record : Type where
  row_id : Nat
  table_id : Nat
  field_count : Nat
  fields : List (Option FieldValue)
  deriving Repr, DecidableEq

/-- `Record::new(table_id)`: all field slots empty. -/
def Record.new (tableId : Nat) : Record :=
  { row_id := 0, table_id := tableId, field_count := 0,
    fields := List.replicate MAX_COLUMNS none }

def Record.setField (r : Record) (i : Nat) (f : FieldValue) : Record :=
  { r with fields := r.fields.set i (some f) }

/-- `rec.set_u64(i, v)`. -/
def Record.set_u64 (r : Record) (i : Nat) (v : Nat) : Record :=
  r.setField i (.u64 (v % 2 ^ 64))

/-- `rec.set_u32(i, v)`. -/
def Record.set_u32 (r : Record) (i : Nat) (v : Nat) : Record :=
  r.setField i (.u32 (v % 2 ^ 32))

/-- `rec.set_str(i, s)` (truncated to `MAX_STR_LEN`). -/
def Record.set_str (r : Record) (i : Nat) (s : List Nat) : Record :=
  r.setField i (.str (s.take MAX_STR_LEN))

/-- A well-formed field value: the numeric payload fits its width, byte
payloads are bytes, strings respect `MAX_STR_LEN`. -/
def FieldValue.Valid : FieldValue → Prop
  | .u8 v => v < 2 ^ 8
  | .u32 v => v < 2 ^ 32
  | .u64 v => v < 2 ^ 64
  | .i64 v => -(2 ^ 63) ≤ v ∧ v < 2 ^ 63
  | .bool _ => True
  | .str s => s.length ≤ MAX_STR_LEN ∧ ∀ b ∈ s, b < 256
  | .blob b => b.length < 2 ^ 32 ∧ ∀ x ∈ b, x < 256

/-- A well-formed record: its ids fit their widths, the first
`field_count` slots are present and valid and the remaining slots empty. -/
def Record.Valid (r : Record) : Prop :=
  r.row_id < 2 ^ 64 ∧ r.table_id < 2 ^ 32 ∧ r.field_count < 2 ^ 32 ∧
  r.fields.length = MAX_COLUMNS ∧ r.field_count ≤ MAX_COLUMNS ∧
  (∀ i < r.field_count, ∃ v, r.fields.getD i none = some v ∧ v.Valid) ∧
  (∀ i, r.field_count ≤ i → r.fields.getD i none = none)

/-- Modelled from the spec: `record_serialize` —
`row_id:u64-le | table_id:u32-le | field_count:u32-le | field*`; `none`
(overflow of the shared buffer, or an absent field slot among the first
`field_count`) models the 0 return. -/
def record_serialize (r : Record) : Option (List Nat) :=
  let fs := (r.fields.take r.field_count).reduceOption
  if fs.length = r.field_count then
    let bytes := leBytes 8 r.row_id ++ leBytes 4 r.table_id ++ leBytes 4 r.field_count ++
      (fs.map encField).join
    if bytes.length ≤ MAX_RECORD_SIZE then some bytes else none
  else none

/-- Decode `n` fields in sequence. -/
def decFields : Nat → List Nat → Option (List FieldValue × List Nat)
  | 0, bs => some ([], bs)
  | n + 1, bs => do
    let (f, rest) ← decField bs
    let (fs, rest2) ← decFields n rest
    pure (f :: fs, rest2)

/-- Modelled from the spec: `record_deserialize` — parse the header and
`field_count` fields, returning the record and the bytes consumed. -/
def record_deserialize (bs : List Nat) : Option (Record × Nat) :=
  if 16 ≤ bs.length then
    let rowId := leDec (bs.take 8)
    let tableId := leDec ((bs.drop 8).take 4)
    let fieldCount := leDec ((bs.drop 12).take 4)
    if fieldCount ≤ MAX_COLUMNS then
      match decFields fieldCount (bs.drop 16) with
      | some (fs, rest) =>
        some ({ row_id := rowId, table_id := tableId, field_count := fieldCount,
                fields := fs.map some ++ List.replicate (MAX_COLUMNS - fieldCount) none },
              bs.length - rest.length)
      | none => none
    else none
  else none



/-! ## Schemas (`kernel/src/db/schema.rs` is not part of the given
sources; the shapes are modelled from the spec §3) and shared constants. -/

/-- Modelled from the spec: the column type set. -/
inductive ColumnType : Type where
  | u8 | u32 | u64 | i64 | bool | str | blob
  deriving Repr, DecidableEq

/-- Modelled from the spec: `MAX_COLUMN_NAME` (column name buffer size;
the spec fixes no value — names are looked up after truncation to
`MAX_COLUMN_NAME − 1` bytes). -/
def MAX_COLUMN_NAME : Nat := 64

/-- Modelled from the spec: a column definition. -/
structure ColumnDef : Type where
  name : List Nat
  colType : ColumnType
  primaryKey : Bool
  notNull : Bool
  deriving Repr, DecidableEq

/-- Modelled from the spec: a table schema (name as bytes, dense id,
flags, `column_count` live columns). -/
structure TableSchema : Type where
  name : List Nat
  tableId : Nat
  encrypted : Bool
  systemTable : Bool
  columnCount : Nat
  columns : List ColumnDef
  deriving Repr, DecidableEq

/-- ASCII bytes of a string literal (all literals used here are ASCII). -/
def bytesOf (s : String) : List Nat := s.data.map Char.toNat

/-- Lower-case an ASCII byte, as `str_eq_ignore_case` does. -/
def lowerByte (c : Nat) : Nat := if 65 ≤ c ∧ c ≤ 90 then c + 32 else c

/-- `str_eq_ignore_case`: byte-wise case-insensitive equality. -/
def str_eq_ignore_case (a b : List Nat) : Bool :=
  a.length == b.length && (a.zip b).all (fun p => lowerByte p.1 == lowerByte p.2)

/-- `find_column_index`: first column (among the `column_count` live ones)
whose name matches case-insensitively, else −1. -/
def find_column_index (schema : TableSchema) (name : List Nat) : Int :=
  match (schema.columns.take schema.columnCount).findIdx?
      (fun c => str_eq_ignore_case c.name name) with
  | some i => (i : Int)
  | none => -1

/-! ## Error codes (`vaultos_shared::error_codes` is not part of the given
sources; modelled from the spec §6.2 — a stable set of distinct values,
`VOS_OK = 0`). -/

def VOS_OK : Int := 0
def VOS_ERR_INVAL : Int := -1
def VOS_ERR_NOTFOUND : Int := -2
def VOS_ERR_SYNTAX : Int := -3
def VOS_ERR_FULL : Int := -4
def VOS_ERR_IO : Int := -5

/-! ## Engine core (`kernel/src/db/database.rs`)

The engine's `static mut` state becomes an explicit `DbState` value; the
two abstract crypto parameters `Ec`/`Dc` (the AES-128-CBC block
permutation of a key schedule, and its inverse) and `Hm` (HMAC-SHA256)
stand for the primitives whose sources are not given.  `random_bytes` is
modelled by the `rng` stream of the state. -/

/-- `struct EncryptedRecord`. -/
structure EncRec : Type where
  row_id : Nat
  table_id : Nat
  iv : List Nat
  mac : List Nat
  ciphertext : List Nat
  ciphertext_len : Nat
  deriving Repr, DecidableEq

/-- The engine's global state: schema registry, per-table indexes and key
material, the row-id counter, and the modelled RNG stream and tick
counter. -/
structure DbState : Type where
  tableCount : Nat
  schemas : List TableSchema
  trees : List (Btree EncRec)
  aesKeys : List (List Nat)
  macKeys : List (List Nat)
  globalRowId : Nat
  masterKey : List Nat
  rng : List (List Nat)
  ticks : Nat

/-- The two derived keys of `derive_table_key`, and the derivation buffer
as it stands when the function returns (zeroed). -/
structure DerivedKeys : Type where
  aesKey : List Nat
  macKey : List Nat
  scratch : List Nat
  deriving Repr, DecidableEq

/-- `derive_table_key(table_id)`:
`aes_key = first 16 bytes of HMAC-SHA256(K, "AES" || t_le32)`,
`mac_key = HMAC-SHA256(K, "MAC" || t_le32)`; the domain buffer is built
byte-wise with shifts as in the source, and the 32-byte derivation buffer
is zeroed before returning. -/
def derive_table_key (Hm : List Nat → List Nat → List Nat)
    (masterKey : List Nat) (tableId : Nat) : DerivedKeys :=
  let tidBytes := [(tableId >>> 0) &&& 0xFF, (tableId >>> 8) &&& 0xFF,
                   (tableId >>> 16) &&& 0xFF, (tableId >>> 24) &&& 0xFF]
  let derivedA := Hm masterKey ([65, 69, 83] ++ tidBytes)
  let aesKey := derivedA.take 16
  let derivedM := Hm masterKey ([77, 65, 67] ++ tidBytes)
  { aesKey := aesKey, macKey := derivedM, scratch := List.replicate 32 0 }

/-- `db_next_row_id`. -/
def db_next_row_id (st : DbState) : Nat × DbState :=
  (st.globalRowId, { st with globalRowId := (st.globalRowId + 1) % 2 ^ 64 })

/-- `db_insert_record(table_id, rec)`: serialise → PKCS#7-pad → fresh IV →
AES-CBC-encrypt → HMAC(iv ‖ ciphertext) → `btree_insert`.  Returns the
error code and the new state. -/
def db_insert_record (Ec : List Nat → List Nat → List Nat)
    (Hm : List Nat → List Nat → List Nat)
    (st : DbState) (tableId : Nat) (r : Record) : Int × DbState :=
  if st.tableCount ≤ tableId then (VOS_ERR_INVAL, st) else
  match record_serialize r with
  | none => (VOS_ERR_INVAL, st)
  | some plain =>
    let paddedLen := aes_padded_size plain.length
    if MAX_RECORD_SIZE + 16 < paddedLen then (VOS_ERR_INVAL, st) else
    let padded := aes_pkcs7_pad plain
    let iv := st.rng.headD (List.replicate 16 0)
    let st1 := { st with rng := st.rng.tail }
    match st1.aesKeys[tableId]? with
    | none => (VOS_ERR_INVAL, st1)
    | some aesKey =>
      let ct := cbcEnc (Ec aesKey) iv padded
      match st1.macKeys[tableId]? with
      | none => (VOS_ERR_INVAL, st1)
      | some macKey =>
        let mac := Hm macKey (iv ++ ct)
        let enc : EncRec :=
          { row_id := r.row_id, table_id := tableId, iv := iv, mac := mac,
            ciphertext := ct, ciphertext_len := paddedLen }
        match st1.trees[tableId]? with
        | none => (VOS_ERR_INVAL, st1)
        | some tree =>
          let tree2 := (btree_insert tree r.row_id enc).1
          (VOS_OK, { st1 with trees := st1.trees.set tableId tree2 })

/-- `db_decrypt_record(table_id, encrypted_value)`: verify the MAC
(constant-time compare), then AES-CBC-decrypt, PKCS#7-unpad and
deserialise.  Returns the record (or `none` on any failure) together with
the computed-MAC scratch buffer as it stands at return. -/
def db_decrypt_record (Dc : List Nat → List Nat → List Nat)
    (Hm : List Nat → List Nat → List Nat)
    (st : DbState) (tableId : Nat) (encPtr : Option EncRec) :
    Option Record × List Nat :=
  match encPtr with
  | none => (none, List.replicate 32 0)
  | some enc =>
    if st.tableCount ≤ tableId then (none, List.replicate 32 0) else
    match st.macKeys[tableId]? with
    | none => (none, List.replicate 32 0)
    | some macKey =>
      let ctl := enc.ciphertext_len
      let computed := Hm macKey (enc.iv ++ enc.ciphertext.take ctl)
      if ¬ hmac_verify enc.mac computed then
        -- "MAC verification failed!" — the row is not returned and the
        -- computed-MAC scratch is zeroed before returning.
        (none, List.replicate 32 0)
      else
        if MAX_RECORD_SIZE + 16 < ctl then (none, List.replicate 32 0) else
        match st.aesKeys[tableId]? with
        | none => (none, List.replicate 32 0)
        | some aesKey =>
          let padded := cbcDec (Dc aesKey) enc.iv (enc.ciphertext.take ctl)
          let plainLen := aes_pkcs7_unpad padded
          if plainLen = 0 then (none, List.replicate 32 0)
          else
            match record_deserialize (padded.take plainLen) with
            | some (rec, _) => (some rec, List.replicate 32 0)
            | none => (none, List.replicate 32 0)

/-- `db_get_record(table_id, row_id)`: `btree_search`, then
verify-then-decrypt. -/
def db_get_record (Dc Hm : List Nat → List Nat → List Nat)
    (st : DbState) (tableId rowId : Nat) : Option Record :=
  if st.tableCount ≤ tableId then none else
  match st.trees[tableId]? with
  | none => none
  | some tree =>
    match btree_search tree rowId with
    | none => none
    | some enc => (db_decrypt_record Dc Hm st tableId (some enc)).1

/-- `db_delete_record(table_id, row_id)`. -/
def db_delete_record (st : DbState) (tableId rowId : Nat) : Int × DbState :=
  if st.tableCount ≤ tableId then (VOS_ERR_INVAL, st) else
  match st.trees[tableId]? with
  | none => (VOS_ERR_INVAL, st)
  | some tree =>
    match btree_search tree rowId with
    | none => (VOS_ERR_NOTFOUND, st)
    | some _ =>
      let tree2 := (btree_delete tree rowId).1
      (VOS_OK, { st with trees := st.trees.set tableId tree2 })

/-- `db_update_encrypted(table_id, row_id, modified)`: delete the old
record then insert the modified one (fresh IV) at the same row id. -/
def db_update_encrypted (Ec Hm : List Nat → List Nat → List Nat)
    (st : DbState) (tableId rowId : Nat) (modified : Record) : Int × DbState :=
  if st.tableCount ≤ tableId then (VOS_ERR_INVAL, st) else
  let d := db_delete_record st tableId rowId
  if d.1 ≠ VOS_OK then d
  else
    db_insert_record Ec Hm d.2 tableId
      { modified with row_id := rowId, table_id := tableId }

/-- `struct QueryResult`: rows, error code, message bytes, rendering
schema. -/
structure QueryResult : Type where
  rows : List Record
  errorCode : Int
  errorMsg : List Nat
  schema : Option TableSchema

/-- `db_result_create`. -/
def db_result_create : QueryResult :=
  { rows := [], errorCode := VOS_OK, errorMsg := [], schema := none }

/-- `db_result_add_row`: append a copy of the record. -/
def db_result_add_row (res : QueryResult) (row : Record) : QueryResult :=
  { res with rows := res.rows ++
      [{ row_id := row.row_id, table_id := row.table_id,
         field_count := row.field_count, fields := row.fields }] }

/-- `db_result_error(code, msg)`. -/
def db_result_error (code : Int) (msg : List Nat) : QueryResult :=
  { rows := [], errorCode := code, errorMsg := msg.take 255, schema := none }



/-! ## Block allocator and page writer (`kernel/src/storage/page_io.rs`;
the allocator `kernel/src/storage/disk_alloc.rs` is not part of the given
sources and is modelled from the spec §4.4: first-fit allocation that may
return 0 when full, free marks the bitmap, block writes may fail with an
IO error). -/

def RECORD_PAGE_PAYLOAD : Nat := 4080
def RECORD_PAYLOAD_HDR : Nat := 64

/-- A record page (`magic = "RECD"` is implicit: `mem` holds exactly the
blocks that carry a record page; reading any other block yields a page
whose magic does not match). -/
structure RecPage : Type where
  payload_len : Nat
  next_block : Nat
  payload : List Nat
  deriving Repr, DecidableEq

/-- Modelled from the spec: the disk as seen through
`disk_alloc_block` / `disk_free_block` / `disk_write_block` /
`disk_read_block`: `allocs` is the stream of block numbers the allocator
will hand out (0 = device full), `failWrites` the blocks on which a write
fails with an IO error, `live` the allocated (bitmap = 1) blocks, `mem`
the record-page contents on disk (contents persist when a block is
freed). -/
structure DiskSt : Type where
  allocs : List Nat
  failWrites : List Nat
  live : List Nat
  mem : List (Nat × RecPage)
  deriving Repr, DecidableEq

/-- Modelled from the spec: `disk_alloc_block() → blk | 0`. -/
def disk_alloc_block (d : DiskSt) : Nat × DiskSt :=
  match d.allocs with
  | [] => (0, d)
  | b :: rest =>
    if b = 0 then (0, { d with allocs := rest })
    else (b, { d with allocs := rest, live := d.live ++ [b] })

/-- Modelled from the spec: `disk_free_block(blk)` clears the bitmap
bit. -/
def disk_free_block (d : DiskSt) (b : Nat) : DiskSt :=
  { d with live := d.live.filter (fun x => x ≠ b) }

/-- Modelled from the spec: `disk_write_block(blk, buf)`. -/
def disk_write_block (d : DiskSt) (b : Nat) (pg : RecPage) : Int × DiskSt :=
  if b ∈ d.failWrites then ( VOS_ERR_IO, d)
  else (VOS_OK, { d with mem := (b, pg) :: d.mem.filter (fun x => x.1 ≠ b) })

/-- Reading block `b` as a record page: `some` when a record page is
stored there (magic matches), `none` otherwise. -/
def disk_read_rec (d : DiskSt) (b : Nat) : Option RecPage :=
  (d.mem.find? (fun x => x.1 == b)).map (fun x => x.2)

/-- The chain walk of `page_free_record_blocks`, with fuel for totality
(the chains the writer creates are acyclic, so the fuel the wrapper
passes is never exhausted on reachable states). -/
def pageFreeChain (d : DiskSt) : Nat → Nat → DiskSt
  | _, 0 => d
  | cur, fuel + 1 =>
    if cur = 0 then d
    else
      let next := match disk_read_rec d cur with
        | some pg => pg.next_block
        | none => 0
      pageFreeChain (disk_free_block d cur) next fuel

/-- `page_free_record_blocks(block)`: free every block of the chain,
following `next_block` while the page read succeeds with a record
magic. -/
def page_free_record_blocks (d : DiskSt) (b : Nat) : DiskSt :=
  pageFreeChain d b (d.mem.length + 1)

/-- Pad or truncate a buffer to exactly `n` bytes (the fixed-size header
fields of the record payload). -/
def padTo (n : Nat) (l : List Nat) : List Nat :=
  (l ++ List.replicate n 0).take n

/-- The write loop of `page_write_record`: allocate a block per chunk,
back-patch and write the previous page when the next block is known,
write the final page after the loop.  On an allocation failure the chain
written so far is freed; on a write failure only the just-allocated block
(chained-write case) or nothing (final-write case) is freed, exactly as
in the source. -/
def pwrGo (d : DiskSt) (remaining : List Nat) (firstBlock prevBlock : Nat)
    (prevPg : Option RecPage) : Nat × DiskSt :=
  if hrem : remaining = [] then
    -- write last page
    match prevPg with
    | some pg =>
      let w := disk_write_block d prevBlock pg
      if w.1 ≠ VOS_OK then (0, w.2) else (firstBlock, w.2)
    | none => (firstBlock, d)
  else
    let a := disk_alloc_block d
    let block := a.1
    let d1 := a.2
    if block = 0 then
      (0, if firstBlock ≠ 0 then page_free_record_blocks d1 firstBlock else d1)
    else
      let chunk := min remaining.length RECORD_PAGE_PAYLOAD
      let pg : RecPage := { payload_len := chunk, next_block := 0,
                            payload := remaining.take chunk }
      match prevPg with
      | some prev =>
        let w := disk_write_block d1 prevBlock { prev with next_block := block }
        if w.1 ≠ VOS_OK then (0, disk_free_block w.2 block)
        else pwrGo w.2 (remaining.drop chunk)
          (if firstBlock = 0 then block else firstBlock) block (some pg)
      | none =>
        pwrGo d1 (remaining.drop chunk)
          (if firstBlock = 0 then block else firstBlock) block (some pg)
termination_by remaining.length
decreasing_by
  all_goals
    have hlen : remaining.length ≠ 0 := fun hz => hrem (List.length_eq_zero.mp hz)
    simp only [List.length_drop, RECORD_PAGE_PAYLOAD]
    omega

/-- `page_write_record(enc)`: build the logical payload
`row_id ‖ table_id ‖ ciphertext_len ‖ iv ‖ mac ‖ ciphertext` and write it
as a chain of record pages.  Returns the first block (0 on failure) and
the disk state. -/
def page_write_record (d : DiskSt) (enc : EncRec) : Nat × DiskSt :=
  let payload := leBytes 8 enc.row_id ++ leBytes 4 enc.table_id ++
    leBytes 4 enc.ciphertext_len ++ padTo 16 enc.iv ++ padTo 32 enc.mac ++
    enc.ciphertext.take enc.ciphertext_len
  pwrGo d payload 0 0 none



/-! ## Query engine (`kernel/src/db/query.rs`): lexer, recursive-descent
parser, executors.  The bounded loop counters `MAX_WHERE_CONDS` and
`MAX_INSERT_VALS` come from `vaultos_shared` (not among the given
sources; the spec fixes no values) and the unbounded token loops carry an
input-length fuel that cannot run out (every non-EOF token consumes at
least one input byte). -/

/-- Modelled from the spec: `MAX_WHERE_CONDS`. -/
def MAX_WHERE_CONDS : Nat := 8

/-- Modelled from the spec: `MAX_INSERT_VALS`. -/
def MAX_INSERT_VALS : Nat := 16

/-- `enum TokenType`. -/
inductive TokenType : Type where
  | Select | Insert | Into | Delete | Update
  | From | Where | And | Set | Values
  | Show | Tables | Describe
  | Grant | Revoke | On | To
  | Read | Write | All
  | Star | Comma | LParen | RParen
  | Eq | Neq | Lt | Gt | Le | Ge
  | Ident | StringLit | Number
  | Eof | Error
  deriving Repr, DecidableEq, BEq

/-- `struct Token` (the value buffer only matters for `Ident`,
`StringLit`, `Number` and `Star`). -/
structure Token : Type where
  ttype : TokenType
  value : List Nat
  deriving Repr, DecidableEq

def is_space (c : Nat) : Bool := c == 32 || c == 9 || c == 10 || c == 13
def is_digit (c : Nat) : Bool := decide (48 ≤ c ∧ c ≤ 57)
def is_alpha (c : Nat) : Bool := decide ((97 ≤ c ∧ c ≤ 122) ∨ (65 ≤ c ∧ c ≤ 90))
def is_alnum (c : Nat) : Bool := is_alpha c || is_digit c

/-- `check_keyword` (case-insensitive). -/
def check_keyword (w : List Nat) : TokenType :=
  if str_eq_ignore_case w (bytesOf "SELECT") then .Select
  else if str_eq_ignore_case w (bytesOf "INSERT") then .Insert
  else if str_eq_ignore_case w (bytesOf "INTO") then .Into
  else if str_eq_ignore_case w (bytesOf "DELETE") then .Delete
  else if str_eq_ignore_case w (bytesOf "UPDATE") then .Update
  else if str_eq_ignore_case w (bytesOf "FROM") then .From
  else if str_eq_ignore_case w (bytesOf "WHERE") then .Where
  else if str_eq_ignore_case w (bytesOf "AND") then .And
  else if str_eq_ignore_case w (bytesOf "SET") then .Set
  else if str_eq_ignore_case w (bytesOf "VALUES") then .Values
  else if str_eq_ignore_case w (bytesOf "SHOW") then .Show
  else if str_eq_ignore_case w (bytesOf "TABLES") then .Tables
  else if str_eq_ignore_case w (bytesOf "DESCRIBE") then .Describe
  else if str_eq_ignore_case w (bytesOf "GRANT") then .Grant
  else if str_eq_ignore_case w (bytesOf "REVOKE") then .Revoke
  else if str_eq_ignore_case w (bytesOf "ON") then .On
  else if str_eq_ignore_case w (bytesOf "TO") then .To
  else if str_eq_ignore_case w (bytesOf "READ") then .Read
  else if str_eq_ignore_case w (bytesOf "WRITE") then .Write
  else if str_eq_ignore_case w (bytesOf "ALL") then .All
  else .Ident

/-- `parse_u64`: decimal digits with wrapping u64 arithmetic, stopping at
the first non-digit. -/
def parse_u64_go : List Nat → Nat → Nat
  | [], v => v
  | b :: rest, v =>
    if b < 48 ∨ 57 < b then v
    else parse_u64_go rest ((v * 10 + (b - 48)) % 2 ^ 64)

def parse_u64 (s : List Nat) : Nat := parse_u64_go s 0

/-- Skip whitespace. -/
def skipWs : List Nat → List Nat
  | [] => []
  | c :: rest => if is_space c then skipWs rest else c :: rest

/-- Take bytes while `p` holds, bounded by `budget` (the `i < bound`
checks of the scanning loops). -/
def scanWhile (p : Nat → Bool) : Nat → List Nat → List Nat × List Nat
  | _, [] => ([], [])
  | 0, c :: rest => ([], c :: rest)
  | budget + 1, c :: rest =>
    if p c then
      let r := scanWhile p budget rest
      (c :: r.1, r.2)
    else ([], c :: rest)

/-- `next_token`: the lexer, returning the token and the rest of the
input. -/
def next_token (input : List Nat) : Token × List Nat :=
  match skipWs input with
  | [] => ({ ttype := .Eof, value := [] }, [])
  | c :: rest =>
    if c = 42 then ({ ttype := .Star, value := [42] }, rest)
    else if c = 44 then ({ ttype := .Comma, value := [] }, rest)
    else if c = 40 then ({ ttype := .LParen, value := [] }, rest)
    else if c = 41 then ({ ttype := .RParen, value := [] }, rest)
    else if c = 61 then ({ ttype := .Eq, value := [] }, rest)
    else if c = 33 ∧ rest.headD 0 = 61 ∧ rest ≠ [] then ({ ttype := .Neq, value := [] }, rest.tail)
    else if c = 60 ∧ rest.headD 0 = 61 ∧ rest ≠ [] then ({ ttype := .Le, value := [] }, rest.tail)
    else if c = 62 ∧ rest.headD 0 = 61 ∧ rest ≠ [] then ({ ttype := .Ge, value := [] }, rest.tail)
    else if c = 60 then ({ ttype := .Lt, value := [] }, rest)
    else if c = 62 then ({ ttype := .Gt, value := [] }, rest)
    else if c = 39 then
      -- string literal: up to MAX_STR_LEN bytes until the closing quote,
      -- which is consumed when present
      let r := scanWhile (fun b => b ≠ 39) MAX_STR_LEN rest
      let rest2 := if r.2.headD 0 = 39 ∧ r.2 ≠ [] then r.2.tail else r.2
      ({ ttype := .StringLit, value := r.1 }, rest2)
    else if is_digit c then
      let r := scanWhile is_digit 20 (c :: rest)
      ({ ttype := .Number, value := r.1 }, r.2)
    else if is_alpha c ∨ c = 95 then
      let r := scanWhile (fun b => is_alnum b || b == 95) MAX_STR_LEN (c :: rest)
      ({ ttype := check_keyword r.1, value := r.1 }, r.2)
    else ({ ttype := .Error, value := [] }, rest)

/-- `struct Parser`: the current token and the unread input. -/
structure PState : Type where
  cur : Token
  rest : List Nat
  deriving Repr, DecidableEq

/-- `Parser::new`. -/
def pInit (input : List Nat) : PState :=
  let r := next_token input
  { cur := r.1, rest := r.2 }

/-- `p.next_token()`. -/
def pAdv (p : PState) : PState :=
  let r := next_token p.rest
  { cur := r.1, rest := r.2 }

/-- `p.expect(ttype)`. -/
def pExpect (p : PState) (tt : TokenType) : Bool × PState :=
  if p.cur.ttype = tt then (true, pAdv p) else (false, p)

/-- Modelled from the spec: `CmpOp` (`vaultos_shared`). -/
inductive CmpOp : Type where
  | eq | neq | lt | gt | le | ge
  deriving Repr, DecidableEq

/-- `enum WhereValue`. -/
inductive WhereValue : Type where
  | Str (s : List Nat)
  | U64 (v : Nat)
  deriving Repr, DecidableEq

/-- `struct WhereCond`. -/
structure WhereCond : Type where
  column : List Nat
  op : CmpOp
  value : WhereValue
  deriving Repr, DecidableEq

/-- `parse_op` (defaults to `=` and always advances). -/
def parse_op (p : PState) : CmpOp × PState :=
  let op : CmpOp :=
    match p.cur.ttype with
    | .Eq => .eq | .Neq => .neq | .Lt => .lt | .Gt => .gt | .Le => .le | .Ge => .ge
    | _ => .eq
  (op, pAdv p)

/-- `StrField::from_str` (`kernel/src/db/record.rs` is not among the
given sources): modelled from the spec as truncation to `MAX_STR_LEN`. -/
def strFieldOf (s : List Nat) : List Nat := s.take MAX_STR_LEN

/-- The loop of `parse_where`: while fewer than `MAX_WHERE_CONDS`
conditions have been collected, read `IDENT op value`; a value that is
neither a string literal nor a number stops the loop silently, dropping
the partial condition. -/
def parse_where_go : Nat → PState → List WhereCond → List WhereCond × PState
  | 0, p, conds => (conds, p)
  | fuel + 1, p, conds =>
    if p.cur.ttype ≠ .Ident then (conds, p)
    else
      let col := p.cur.value.take (MAX_COLUMN_NAME - 1)
      let r := parse_op (pAdv p)
      let p2 := r.2
      if p2.cur.ttype = .StringLit then
        let conds2 := conds ++ [⟨col, r.1, .Str (strFieldOf p2.cur.value)⟩]
        let p3 := pAdv p2
        if p3.cur.ttype = .And then parse_where_go fuel (pAdv p3) conds2 else (conds2, p3)
      else if p2.cur.ttype = .Number then
        let conds2 := conds ++ [⟨col, r.1, .U64 (parse_u64 p2.cur.value)⟩]
        let p3 := pAdv p2
        if p3.cur.ttype = .And then parse_where_go fuel (pAdv p3) conds2 else (conds2, p3)
      else (conds, p2)

/-- `parse_where`: empty list when the current token is not `WHERE`. -/
def parse_where (p : PState) : List WhereCond × PState :=
  if p.cur.ttype ≠ .Where then ([], p)
  else parse_where_go MAX_WHERE_CONDS (pAdv p) []

/-- `str_compare`: lexicographic byte compare, then length. -/
def str_compare : List Nat → List Nat → Int
  | [], [] => 0
  | [], _ :: _ => -1
  | _ :: _, [] => 1
  | x :: xs, y :: ys =>
    if x < y then -1 else if y < x then 1 else str_compare xs ys

/-- `match_field`: the operator/type matrix of the spec §4.8. -/
def match_field (field : FieldValue) (op : CmpOp) (condVal : WhereValue) : Bool :=
  match field, condVal with
  | .str fs, .Str cs =>
    let cmp := str_compare fs cs
    (match op with
     | .eq => cmp = 0 | .neq => cmp ≠ 0 | .lt => cmp < 0
     | .gt => cmp > 0 | .le => cmp ≤ 0 | .ge => cmp ≥ 0)
  | .u64 fv, .U64 cv =>
    (match op with
     | .eq => fv = cv | .neq => fv ≠ cv | .lt => fv < cv
     | .gt => fv > cv | .le => fv ≤ cv | .ge => fv ≥ cv)
  | .u32 fv, .U64 cv =>
    (match op with
     | .eq => fv = cv | .neq => fv ≠ cv | .lt => fv < cv
     | .gt => fv > cv | .le => fv ≤ cv | .ge => fv ≥ cv)
  | .bool fv, .U64 cv =>
    let fb := if fv then 1 else 0
    (match op with
     | .eq => fb = cv | .neq => fb ≠ cv | _ => false)
  | .bool fv, .Str sv =>
    let bval := str_eq_ignore_case sv (bytesOf "true") || sv == bytesOf "1"
    (match op with
     | .eq => fv = bval | .neq => fv ≠ bval | _ => false)
  | .u64 fv, .Str sv =>
    let cv := parse_u64 sv
    (match op with
     | .eq => fv = cv | .neq => fv ≠ cv | _ => false)
  | _, _ => false

/-- `record_matches`: every condition is a conjunct; an unknown column or
a missing field filters the row out. -/
def record_matches (rec : Record) (schema : TableSchema) (conds : List WhereCond) : Bool :=
  conds.all (fun cond =>
    match find_column_index schema cond.column with
    | .negSucc _ => false
    | .ofNat ci =>
      match rec.fields.getD ci none with
      | none => false
      | some f => match_field f cond.op cond.value)

/-- `db_get_schema_by_name` (case-insensitive, over the registered
tables). -/
def db_get_schema_by_name (st : DbState) (nm : List Nat) : Option TableSchema :=
  (st.schemas.take st.tableCount).find? (fun s => str_eq_ignore_case s.name nm)

/-- The full-table scan shared by SELECT/DELETE/UPDATE
(`btree_scan(index, select_scan_callback, ctx)`): decrypt each non-null
record in tree order and collect the rows the predicate accepts. -/
def scan_collect (Dc Hm : List Nat → List Nat → List Nat) (st : DbState)
    (schema : TableSchema) (conds : List WhereCond) (tree : Btree EncRec)
    (res0 : QueryResult) : QueryResult :=
  btree_scan tree
    (fun _key enc res =>
      match (db_decrypt_record Dc Hm st schema.tableId (some enc)).1 with
      | none => res
      | some rec =>
        if record_matches rec schema conds then db_result_add_row res rec else res)
    res0

/-- `write_u64_to_buf` (also `write_u32_to_buf`): decimal digits. -/
def decDigits : Nat → List Nat
  | 0 => []
  | n + 1 => decDigits ((n + 1) / 10) ++ [48 + (n + 1) % 10]
decreasing_by exact Nat.div_lt_self (Nat.succ_pos n) (by omega)

def write_u64 (v : Nat) : List Nat := if v = 0 then [48] else decDigits v

/-- `write_hex_to_buf`: lowercase hex digits. -/
def hexDigitsGo : Nat → List Nat
  | 0 => []
  | n + 1 =>
    hexDigitsGo ((n + 1) / 16) ++
      [if (n + 1) % 16 < 10 then 48 + (n + 1) % 16 else 87 + (n + 1) % 16]
decreasing_by exact Nat.div_lt_self (Nat.succ_pos n) (by omega)

def write_hex (v : Nat) : List Nat := if v = 0 then [48] else hexDigitsGo v

/-- `set_result_msg_count`. -/
def countMsg (pre : List Nat) (count : Nat) : List Nat :=
  pre.take 200 ++ write_u64 count

/-- `set_result_msg_insert`: `"1 row inserted (row_id=N)"`. -/
def insertMsg (rowId : Nat) : List Nat :=
  bytesOf "1 row inserted (row_id=" ++ write_u64 rowId ++ [41]



/-- `db_get_index(table_id)`. -/
def db_get_index (st : DbState) (tableId : Nat) : Option (Btree EncRec) :=
  if st.tableCount ≤ tableId then none else st.trees[tableId]?

/-- The static `SHOW_SCHEMA` ("Tables": id, table_name, columns). -/
def get_show_schema : TableSchema :=
  { name := bytesOf "Tables", tableId := 0, encrypted := false, systemTable := false,
    columnCount := 3,
    columns :=
      [⟨bytesOf "id", .u64, false, false⟩,
       ⟨bytesOf "table_name", .str, false, false⟩,
       ⟨bytesOf "columns", .u64, false, false⟩] }

/-- The static `DESC_SCHEMA` ("Columns": name, type, pk, not_null). -/
def get_desc_schema : TableSchema :=
  { name := bytesOf "Columns", tableId := 0, encrypted := false, systemTable := false,
    columnCount := 4,
    columns :=
      [⟨bytesOf "name", .str, false, false⟩,
       ⟨bytesOf "type", .str, false, false⟩,
       ⟨bytesOf "pk", .str, false, false⟩,
       ⟨bytesOf "not_null", .str, false, false⟩] }

/-- `exec_show_tables`. -/
def exec_show_tables (st : DbState) : QueryResult × DbState :=
  let res := (List.range st.tableCount).foldl
    (fun res i =>
      match st.schemas[i]? with
      | none => res
      | some s =>
        let row := { Record.new i with row_id := i, field_count := 3 }
        let row := ((row.set_u64 0 i).set_str 1 s.name).set_u64 2 s.columnCount
        db_result_add_row res row)
    db_result_create
  ({ res with schema := some get_show_schema }, st)

/-- The type name `DESCRIBE` prints for a column type. -/
def colTypeName : ColumnType → List Nat
  | .u64 => bytesOf "U64"
  | .i64 => bytesOf "I64"
  | .str => bytesOf "STR"
  | .blob => bytesOf "BLOB"
  | .bool => bytesOf "BOOL"
  | .u32 => bytesOf "U32"
  | .u8 => bytesOf "U8"

/-- `exec_describe`. -/
def exec_describe (p : PState) (st : DbState) : QueryResult × DbState :=
  if p.cur.ttype ≠ .Ident then
    (db_result_error VOS_ERR_SYNTAX (bytesOf "Expected table name"), st)
  else
    match db_get_schema_by_name st p.cur.value with
    | none => (db_result_error VOS_ERR_NOTFOUND (bytesOf "Table not found"), st)
    | some schema =>
      let res := (List.range schema.columnCount).foldl
        (fun res i =>
          match schema.columns[i]? with
          | none => res
          | some col =>
            let row := { Record.new 0 with row_id := i, field_count := 4 }
            let row := (((row.set_str 0 col.name).set_str 1 (colTypeName col.colType)).set_str 2
                (if col.primaryKey then bytesOf "YES" else bytesOf "NO")).set_str 3
                (if col.notNull then bytesOf "YES" else bytesOf "NO")
            db_result_add_row res row)
        db_result_create
      ({ res with schema := some get_desc_schema }, st)

/-- The column-list skip loop of `exec_select` (column lists are accepted
and ignored: all columns are always returned). -/
def skip_columns_go : Nat → PState → PState
  | 0, p => p
  | fuel + 1, p =>
    if p.cur.ttype = .Ident then
      let p1 := pAdv p
      if p1.cur.ttype = .Comma then skip_columns_go fuel (pAdv p1) else p1
    else p

/-- `exec_select`: `SELECT (cols | *) FROM table [WHERE …]` — full scan,
decrypt, filter; the engine state is unchanged. -/
def exec_select (Dc Hm : List Nat → List Nat → List Nat)
    (p : PState) (st : DbState) : QueryResult × DbState :=
  let p1 := if p.cur.ttype = .Star then pAdv p else skip_columns_go (p.rest.length + 1) p
  let e1 := pExpect p1 .From
  if ¬ e1.1 then (db_result_error VOS_ERR_SYNTAX (bytesOf "Expected FROM"), st)
  else
    let p2 := e1.2
    if p2.cur.ttype ≠ .Ident then
      (db_result_error VOS_ERR_SYNTAX (bytesOf "Expected table name"), st)
    else
      match db_get_schema_by_name st p2.cur.value with
      | none => (db_result_error VOS_ERR_NOTFOUND (bytesOf "Table not found"), st)
      | some schema =>
        let w := parse_where (pAdv p2)
        let conds := w.1
        match db_get_index st schema.tableId with
        | none => (db_result_error VOS_ERR_INVAL (bytesOf "No index for table"), st)
        | some tree =>
          let res0 := { db_result_create with schema := some schema }
          (scan_collect Dc Hm st schema conds tree res0, st)

/-- `exec_delete`: scan to collect the matching row ids (the scan must
not mutate the tree), then delete them one by one. -/
def exec_delete (Dc Hm : List Nat → List Nat → List Nat)
    (p : PState) (st : DbState) : QueryResult × DbState :=
  let e1 := pExpect p .From
  if ¬ e1.1 then (db_result_error VOS_ERR_SYNTAX (bytesOf "Expected FROM"), st)
  else
    let p1 := e1.2
    if p1.cur.ttype ≠ .Ident then
      (db_result_error VOS_ERR_SYNTAX (bytesOf "Expected table name"), st)
    else
      match db_get_schema_by_name st p1.cur.value with
      | none => (db_result_error VOS_ERR_NOTFOUND (bytesOf "Table not found"), st)
      | some schema =>
        let w := parse_where (pAdv p1)
        let conds := w.1
        match db_get_index st schema.tableId with
        | none => (db_result_error VOS_ERR_INVAL (bytesOf "No index for table"), st)
        | some tree =>
          let matched := scan_collect Dc Hm st schema conds tree db_result_create
          let rowIds := matched.rows.map (fun r => r.row_id)
          let st2 := rowIds.foldl
            (fun st rid => (db_delete_record st schema.tableId rid).2) st
          let res := { db_result_create with
            errorMsg := countMsg (bytesOf "row(s) deleted: ") rowIds.length }
          (res, st2)

/-- One `SET` assignment of `exec_update`. -/
structure SetAssign : Type where
  colName : List Nat
  value : WhereValue
  deriving Repr, DecidableEq

/-- The assignment-list loop of `exec_update`. -/
def parse_assigns_go : Nat → PState → List SetAssign → List SetAssign × PState
  | 0, p, acc => (acc, p)
  | fuel + 1, p, acc =>
    if p.cur.ttype ≠ .Ident then (acc, p)
    else if MAX_INSERT_VALS ≤ acc.length then (acc, p)
    else
      let col := p.cur.value.take (MAX_COLUMN_NAME - 1)
      let p1 := pAdv p
      if p1.cur.ttype ≠ .Eq then (acc, p1)
      else
        let p2 := pAdv p1
        if p2.cur.ttype = .StringLit then
          let acc2 := acc ++ [⟨col, .Str (strFieldOf p2.cur.value)⟩]
          let p3 := pAdv p2
          if p3.cur.ttype = .Comma then parse_assigns_go fuel (pAdv p3) acc2 else (acc2, p3)
        else if p2.cur.ttype = .Number then
          let acc2 := acc ++ [⟨col, .U64 (parse_u64 p2.cur.value)⟩]
          let p3 := pAdv p2
          if p3.cur.ttype = .Comma then parse_assigns_go fuel (pAdv p3) acc2 else (acc2, p3)
        else (acc, p2)

/-- Apply the `SET` assignments to a copy of a matched record. -/
def apply_assigns (schema : TableSchema) (assigns : List SetAssign) (r : Record) : Record :=
  assigns.foldl
    (fun r sa =>
      match find_column_index schema sa.colName with
      | .negSucc _ => r
      | .ofNat ci =>
        match sa.value with
        | .Str s => { r with fields := r.fields.set ci (some (.str s)) }
        | .U64 v => { r with fields := r.fields.set ci (some (.u64 v)) })
    r

/-- `exec_update`: collect the matching rows, modify each in memory and
re-encrypt via `db_update_encrypted`. -/
def exec_update (Ec Dc Hm : List Nat → List Nat → List Nat)
    (p : PState) (st : DbState) : QueryResult × DbState :=
  if p.cur.ttype ≠ .Ident then
    (db_result_error VOS_ERR_SYNTAX (bytesOf "Expected table name"), st)
  else
    match db_get_schema_by_name st p.cur.value with
    | none => (db_result_error VOS_ERR_NOTFOUND (bytesOf "Table not found"), st)
    | some schema =>
      let e1 := pExpect (pAdv p) .Set
      if ¬ e1.1 then (db_result_error VOS_ERR_SYNTAX (bytesOf "Expected SET"), st)
      else
        let a := parse_assigns_go MAX_INSERT_VALS e1.2 []
        let w := parse_where a.2
        match db_get_index st schema.tableId with
        | none => (db_result_error VOS_ERR_INVAL (bytesOf "No index for table"), st)
        | some tree =>
          let matched := scan_collect Dc Hm st schema w.1 tree db_result_create
          let st2 := matched.rows.foldl
            (fun st row =>
              (db_update_encrypted Ec Hm st schema.tableId row.row_id
                (apply_assigns schema a.1 row)).2)
            st
          let res := { db_result_create with
            errorMsg := countMsg (bytesOf "row(s) updated: ") matched.rows.length }
          (res, st2)

/-- The column-name list loop of `exec_insert`. -/
def parse_insert_cols_go : Nat → PState → List (List Nat) → List (List Nat) × PState
  | 0, p, acc => (acc, p)
  | fuel + 1, p, acc =>
    if p.cur.ttype = .Ident ∧ acc.length < MAX_INSERT_VALS then
      let acc2 := acc ++ [p.cur.value.take (MAX_COLUMN_NAME - 1)]
      let p1 := pAdv p
      if p1.cur.ttype = .Comma then parse_insert_cols_go fuel (pAdv p1) acc2 else (acc2, p1)
    else (acc, p)

/-- The `VALUES` loop of `exec_insert`: pair each value with its column
name, typed by the column.  Returns `none` on an unknown column
(`"Unknown column"`). -/
def insert_vals_go : Nat → PState → TableSchema → List (List Nat) → Nat → Record →
    Option (Record × PState)
  | 0, p, _, _, _, rec => some (rec, p)
  | fuel + 1, p, schema, colNames, valIdx, rec =>
    if valIdx < colNames.length ∧ p.cur.ttype ≠ .RParen ∧ p.cur.ttype ≠ .Eof then
      match find_column_index schema (colNames.getD valIdx []) with
      | .negSucc _ => none
      | .ofNat ci =>
        if p.cur.ttype = .StringLit then
          let rec2 := rec.set_str ci p.cur.value
          let p1 := pAdv p
          if p1.cur.ttype = .Comma then
            insert_vals_go fuel (pAdv p1) schema colNames (valIdx + 1) rec2
          else some (rec2, p1)
        else if p.cur.ttype = .Number then
          let v := parse_u64 p.cur.value
          let rec2 :=
            if (schema.columns.getD ci ⟨[], .u64, false, false⟩).colType = .u64 then
              rec.set_u64 ci v
            else if (schema.columns.getD ci ⟨[], .u64, false, false⟩).colType = .u32 then
              rec.set_u32 ci v
            else rec.set_str ci p.cur.value
          let p1 := pAdv p
          if p1.cur.ttype = .Comma then
            insert_vals_go fuel (pAdv p1) schema colNames (valIdx + 1) rec2
          else some (rec2, p1)
        else some (rec, p)
    else some (rec, p)

/-- `exec_insert`: `INSERT INTO table (cols) VALUES (vals)` — draws a row
id, auto-fills `row_id` (first primary-key column), `owner_pid`,
`created` (current tick) and `size` (length of the `data` field) when
those columns exist, then runs the Encrypt-then-MAC pipeline. -/
def exec_insert (Ec Hm : List Nat → List Nat → List Nat) (p : PState) (st : DbState)
    (pid : Nat) : QueryResult × DbState :=
  let e1 := pExpect p .Into
  if ¬ e1.1 then (db_result_error VOS_ERR_SYNTAX (bytesOf "Expected INTO"), st)
  else
    let p1 := e1.2
    if p1.cur.ttype ≠ .Ident then
      (db_result_error VOS_ERR_SYNTAX (bytesOf "Expected table name"), st)
    else
      match db_get_schema_by_name st p1.cur.value with
      | none => (db_result_error VOS_ERR_NOTFOUND (bytesOf "Table not found"), st)
      | some schema =>
        let e2 := pExpect (pAdv p1) .LParen
        if ¬ e2.1 then (db_result_error VOS_ERR_SYNTAX (bytesOf "Expected '('"), st)
        else
          let cols := parse_insert_cols_go (e2.2.rest.length + 1) e2.2 []
          let e3 := pExpect cols.2 .RParen
          if ¬ e3.1 then (db_result_error VOS_ERR_SYNTAX (bytesOf "Expected ')'"), st)
          else
            let e4 := pExpect e3.2 .Values
            if ¬ e4.1 then (db_result_error VOS_ERR_SYNTAX (bytesOf "Expected VALUES"), st)
            else
              let e5 := pExpect e4.2 .LParen
              if ¬ e5.1 then (db_result_error VOS_ERR_SYNTAX (bytesOf "Expected '('"), st)
              else
                let rid := db_next_row_id st
                let st1 := rid.2
                let rec0 := { Record.new schema.tableId with row_id := rid.1 }
                let rec1 :=
                  if (schema.columns.getD 0 ⟨[], .u64, false, false⟩).primaryKey then
                    rec0.set_u64 0 rid.1
                  else rec0
                match insert_vals_go (e5.2.rest.length + 1) e5.2 schema cols.1 0 rec1 with
                | none => (db_result_error VOS_ERR_INVAL (bytesOf "Unknown column"), st1)
                | some rp =>
                  let rec2 := { rp.1 with field_count := schema.columnCount }
                  let rec3 :=
                    match find_column_index schema (bytesOf "owner_pid") with
                    | .negSucc _ => rec2
                    | .ofNat ci => rec2.set_u64 ci pid
                  let rec4 :=
                    match find_column_index schema (bytesOf "created") with
                    | .negSucc _ => rec3
                    | .ofNat ci => rec3.set_u64 ci st1.ticks
                  let rec5 :=
                    match find_column_index schema (bytesOf "size"),
                          find_column_index schema (bytesOf "data") with
                    | .ofNat si, .ofNat di =>
                      match rec4.fields.getD di none with
                      | some (.str s) => rec4.set_u64 si s.length
                      | _ => rec4
                    | _, _ => rec4
                  let ins := db_insert_record Ec Hm st1 schema.tableId rec5
                  if ins.1 ≠ VOS_OK then
                    (db_result_error ins.1 (bytesOf "Insert failed"), ins.2)
                  else
                    ({ db_result_create with errorMsg := insertMsg rec5.row_id }, ins.2)

/-- `GRANT rights=0x…` status message, with the source's buffer-bound
guards. -/
def grantMsg (rights obj pid : Nat) : List Nat :=
  let m1 := bytesOf "GRANT rights=0x" ++ write_hex rights
  let m2 := if m1.length + 8 < 256 then m1 ++ bytesOf " on obj=" else m1
  let m3 := m2 ++ write_u64 obj
  let m4 := if m3.length + 8 < 256 then m3 ++ bytesOf " to pid=" else m3
  let m5 := m4 ++ write_u64 pid
  if m5.length + (bytesOf " (cap system not yet wired)").length < 256 then
    m5 ++ bytesOf " (cap system not yet wired)"
  else m5

/-- `REVOKE cap_id=…` status message. -/
def revokeMsg (capId : Nat) : List Nat :=
  let m1 := bytesOf "REVOKE cap_id=" ++ write_u64 capId
  if m1.length + (bytesOf " (cap system not yet wired)").length < 256 then
    m1 ++ bytesOf " (cap system not yet wired)"
  else m1

/-- The rights loop of `exec_grant`
(`READ | WRITE | ALL | IDENT`, comma-separated). -/
def grant_rights_go : Nat → PState → Nat → Nat × PState
  | 0, p, rights => (rights, p)
  | fuel + 1, p, rights =>
    if p.cur.ttype = .Read ∨ p.cur.ttype = .Write ∨ p.cur.ttype = .All ∨
        p.cur.ttype = .Ident then
      let v := p.cur.value
      let rights2 :=
        if p.cur.ttype = .Read ∨ str_eq_ignore_case v (bytesOf "READ") then rights ||| 0x01
        else if p.cur.ttype = .Write ∨ str_eq_ignore_case v (bytesOf "WRITE") then rights ||| 0x02
        else if p.cur.ttype = .All ∨ str_eq_ignore_case v (bytesOf "ALL") then 0xFF
        else rights
      let p1 := pAdv p
      if p1.cur.ttype = .Comma then grant_rights_go fuel (pAdv p1) rights2 else (rights2, p1)
    else (rights, p)

/-- `exec_grant` (stub): parse `rights ON object_id TO process_id` and
return a formatted message; no engine state is touched. -/
def exec_grant (p : PState) (st : DbState) : QueryResult × DbState :=
  let r := grant_rights_go (p.rest.length + 1) p 0
  let e1 := pExpect r.2 .On
  if ¬ e1.1 then (db_result_error VOS_ERR_SYNTAX (bytesOf "Expected ON"), st)
  else if e1.2.cur.ttype ≠ .Number then
    (db_result_error VOS_ERR_SYNTAX (bytesOf "Expected object_id"), st)
  else
    let objectId := parse_u64 e1.2.cur.value
    let e2 := pExpect (pAdv e1.2) .To
    if ¬ e2.1 then (db_result_error VOS_ERR_SYNTAX (bytesOf "Expected TO"), st)
    else if e2.2.cur.ttype ≠ .Number then
      (db_result_error VOS_ERR_SYNTAX (bytesOf "Expected process_id"), st)
    else
      let targetPid := parse_u64 e2.2.cur.value
      ({ db_result_create with errorMsg := grantMsg r.1 objectId targetPid }, st)

/-- `exec_revoke` (stub): parse `REVOKE cap_id` and return a formatted
message; no engine state is touched. -/
def exec_revoke (p : PState) (st : DbState) : QueryResult × DbState :=
  if p.cur.ttype ≠ .Number then
    (db_result_error VOS_ERR_SYNTAX (bytesOf "Expected cap_id"), st)
  else
    let capId := parse_u64 p.cur.value
    ({ db_result_create with errorMsg := revokeMsg capId }, st)

/-- `query_execute(input, caller_pid)`: tokenize and dispatch by the
first token. -/
def query_execute (Ec Dc Hm : List Nat → List Nat → List Nat)
    (st : DbState) (input : List Nat) (pid : Nat) : QueryResult × DbState :=
  let p := pInit input
  match p.cur.ttype with
  | .Show =>
    let p1 := pAdv p
    if p1.cur.ttype = .Tables then exec_show_tables st
    else (db_result_error VOS_ERR_SYNTAX (bytesOf "Expected TABLES after SHOW"), st)
  | .Describe => exec_describe (pAdv p) st
  | .Select => exec_select Dc Hm (pAdv p) st
  | .Insert => exec_insert Ec Hm (pAdv p) st pid
  | .Delete => exec_delete Dc Hm (pAdv p) st
  | .Update => exec_update Ec Dc Hm (pAdv p) st
  | .Grant => exec_grant (pAdv p) st
  | .Revoke => exec_revoke (pAdv p) st
  | _ =>
    (db_result_error VOS_ERR_SYNTAX
      (bytesOf "Unknown command. Use: SELECT, INSERT, DELETE, UPDATE, SHOW TABLES, DESCRIBE, GRANT, REVOKE"),
     st)



/-! ## List-level model of the B-tree

`toPairs` abstracts a node to its in-order (key, value-slot) list; the
operations are mirrored by `putA` (sorted insert-or-update) and `findA`
(first occurrence) on that list, and `nodeWF` is the ordering invariant
the tree operations preserve. -/

def keysOf {V : Type} (l : List (Nat × Option V)) : List Nat := l.map Prod.fst

/-- First binding of `k` (`none` = key absent; `some none` = key present
with a null value slot). -/
def findA {V : Type} (l : List (Nat × Option V)) (k : Nat) : Option (Option V) :=
  (l.find? (fun p => p.1 == k)).map Prod.snd

/-- The value `btree_search` reports for `k`: a null value slot and an
absent key both give `none`. -/
def valAt {V : Type} (l : List (Nat × Option V)) (k : Nat) : Option V :=
  (findA l k).join

/-- Sorted insert-or-update on the abstract list. -/
def putA {V : Type} : List (Nat × Option V) → Nat → V → List (Nat × Option V)
  | [], k, v => [(k, some v)]
  | (k', w) :: rest, k, v =>
    if k = k' then (k', some v) :: rest
    else if k < k' then (k, some v) :: (k', w) :: rest
    else (k', w) :: putA rest k v

/-- Lower bound (exclusive, `none` = −∞). -/
def okLo : Option Nat → Nat → Prop
  | none, _ => True
  | some l, k => l < k

/-- Upper bound (exclusive, `none` = +∞). -/
def okHi : Option Nat → Nat → Prop
  | none, _ => True
  | some h, k => k < h

mutual
/-- The B-tree structural/ordering invariant, with exclusive key bounds:
a leaf has no children, at most 63 strictly ascending in-bounds keys; an
internal node has one more child than keys, and each child is
well-formed between the neighbouring keys. -/
def nodeWF {V : Type} : Option Nat → Option Nat → BNode V → Prop
  | lo, hi, .mk es cs clbas true _ _ =>
    cs = [] ∧ clbas = [] ∧ es.length ≤ 63 ∧
    (es.map (fun e => e.key)).Chain' (· < ·) ∧
    ∀ e ∈ es, okLo lo e.key ∧ okHi hi e.key
  | lo, hi, .mk es cs _ false _ _ => es.length ≤ 63 ∧ nodesWF lo hi es cs
termination_by lo hi n => sizeOf n

/-- children interleaved with entries, each child bracketed by the
neighbouring entry keys. -/
def nodesWF {V : Type} : Option Nat → Option Nat → List (BEntry V) → List (BNode V) → Prop
  | _, _, [], [] => False
  | lo, hi, [], [c] => nodeWF lo hi c
  | _, _, [], _ :: _ :: _ => False
  | _, _, _ :: _, [] => False
  | lo, hi, e :: es, c :: cs =>
    okLo lo e.key ∧ okHi hi e.key ∧ nodeWF lo (some e.key) c ∧
    nodesWF (some e.key) hi es cs
termination_by lo hi es cs => sizeOf es + sizeOf cs
end

/-- The invariant of a whole tree. -/
def treeWF {V : Type} (t : Btree V) : Prop := nodeWF none none t.root

/-- Trees reachable from `btree_init` by `btree_insert` / `btree_delete`
sequences. -/
inductive Reachable {V : Type} : Btree V → Prop where
  | init (tableId : Nat) : Reachable (btree_init tableId)
  | insert {t : Btree V} (key : Nat) (value : V) :
      Reachable t → Reachable (btree_insert t key value).1
  | delete {t : Btree V} (key : Nat) :
      Reachable t → Reachable (btree_delete t key).1



/-! # Theorems

## Basic lemmas about the abstract list model -/

theorem toPairs_leaf {V : Type} (es : List (BEntry V)) (cs clbas d dt) :
    toPairs (.mk es cs clbas true d dt) = es.map (fun e => (e.key, e.val)) := by
  simp [toPairs]

theorem toPairs_internal {V : Type} (es : List (BEntry V)) (cs clbas d dt) :
    toPairs (.mk es cs clbas false d dt) = weave (cs.map toPairs) es := by
  rw [toPairs]
  simp only [if_false, Bool.false_eq_true]
  congr 1
  exact List.attach_map_val cs toPairs

theorem findA_nil {V : Type} (k : Nat) : findA ([] : List (Nat × Option V)) k = none := rfl

theorem findA_cons {V : Type} (p : Nat × Option V) (l : List (Nat × Option V)) (k : Nat) :
    findA (p :: l) k = if p.1 = k then some p.2 else findA l k := by
  simp only [findA]
  by_cases h : p.1 = k
  · rw [List.find?_cons_of_pos _ (by simpa using h), if_pos h]
    rfl
  · rw [List.find?_cons_of_neg _ (by simpa using h), if_neg h]

theorem findA_append {V : Type} (xs ys : List (Nat × Option V)) (k : Nat)
    (h : ∀ p ∈ xs, p.1 ≠ k) : findA (xs ++ ys) k = findA ys k := by
  induction xs with
  | nil => simp
  | cons x xs ih =>
    rw [List.cons_append, findA_cons, if_neg (h x (by simp))]
    exact ih (fun p hp => h p (by simp [hp]))

theorem findA_eq_none {V : Type} (l : List (Nat × Option V)) (k : Nat)
    (h : ∀ p ∈ l, p.1 ≠ k) : findA l k = none := by
  have := findA_append l [] k h
  simpa using this

theorem findA_mem {V : Type} {l : List (Nat × Option V)} {k : Nat} {w : Option V}
    (h : findA l k = some w) : (k, w) ∈ l := by
  induction l with
  | nil => simp [findA] at h
  | cons p l ih =>
    rw [findA_cons] at h
    by_cases hp : p.1 = k
    · rw [if_pos hp] at h
      have hp2 : p = (k, w) := by
        cases p
        simp_all
      rw [hp2]
      exact List.mem_cons_self _ _
    · rw [if_neg hp] at h
      exact List.mem_cons_of_mem _ (ih h)

theorem mem_findA {V : Type} {l : List (Nat × Option V)} {k : Nat} {w : Option V}
    (h : (k, w) ∈ l) : ∃ w', findA l k = some w' := by
  induction l with
  | nil => simp at h
  | cons p l ih =>
    rw [findA_cons]
    by_cases hp : p.1 = k
    · exact ⟨p.2, by rw [if_pos hp]⟩
    · rw [if_neg hp]
      rcases List.mem_cons.mp h with h1 | h2
      · subst h1; simp at hp
      · exact ih h2

theorem putA_append_lt {V : Type} (xs ys : List (Nat × Option V)) (k : Nat) (v : V)
    (h : ∀ p ∈ xs, p.1 < k) : putA (xs ++ ys) k v = xs ++ putA ys k v := by
  induction xs with
  | nil => simp
  | cons x xs ih =>
    have hx := h x (by simp)
    rw [List.cons_append]
    cases x with
    | mk k' w =>
      rw [putA, if_neg (by omega), if_neg (by omega), ih (fun p hp => h p (by simp [hp]))]
      rfl

theorem putA_append_gt {V : Type} (xs ys : List (Nat × Option V)) (k : Nat) (v : V)
    (h : ∀ p ∈ ys, k < p.1) : putA (xs ++ ys) k v = putA xs k v ++ ys := by
  induction xs with
  | nil =>
    cases ys with
    | nil => rfl
    | cons y ys =>
      have hy := h y (by simp)
      cases y with
      | mk k' w =>
        simp only [List.nil_append, putA]
        rw [if_neg (by simp at hy; omega), if_pos (by simp at hy; omega)]
        rfl
  | cons x xs ih =>
    cases x with
    | mk k' w =>
      rw [List.cons_append, putA, putA]
      by_cases h1 : k = k'
      · rw [if_pos h1, if_pos h1]; rfl
      · rw [if_neg h1, if_neg h1]
        by_cases h2 : k < k'
        · rw [if_pos h2, if_pos h2]; rfl
        · rw [if_neg h2, if_neg h2, ih]; rfl

theorem findA_putA_self {V : Type} (l : List (Nat × Option V)) (k : Nat) (v : V) :
    findA (putA l k v) k = some (some v) := by
  induction l with
  | nil => simp [putA, findA_cons]
  | cons p l ih =>
    cases p with
    | mk k' w =>
      rw [putA]
      by_cases h1 : k = k'
      · rw [if_pos h1, findA_cons, if_pos h1.symm]
      · rw [if_neg h1]
        by_cases h2 : k < k'
        · rw [if_pos h2, findA_cons, if_pos rfl]
        · rw [if_neg h2, findA_cons, if_neg (fun hh => h1 hh.symm)]
          exact ih

theorem findA_putA_ne {V : Type} (l : List (Nat × Option V)) (k k' : Nat) (v : V)
    (h : k' ≠ k) : findA (putA l k v) k' = findA l k' := by
  induction l with
  | nil =>
    rw [putA, findA_cons, if_neg (fun hh => h hh.symm)]
  | cons p l ih =>
    cases p with
    | mk k0 w =>
      rw [putA]
      by_cases h1 : k = k0
      · rw [if_pos h1, findA_cons, findA_cons]
        subst h1
        rw [if_neg (by simpa using fun hh => h hh.symm), if_neg (by simpa using fun hh => h hh.symm)]
      · rw [if_neg h1]
        by_cases h2 : k < k0
        · rw [if_pos h2, findA_cons, if_neg (by simpa using fun hh => h hh.symm), findA_cons]
        · rw [if_neg h2, findA_cons, findA_cons]
          by_cases h3 : k0 = k'
          · rw [if_pos h3, if_pos h3]
          · rw [if_neg h3, if_neg h3]
            exact ih

theorem chain'_lt_of_cons {α : Type} {R : α → α → Prop} {a : α} {l : List α}
    (h : List.Chain' R (a :: l)) : List.Chain' R l := h.tail

theorem chain'_lt_head {k0 : Nat} {ks : List Nat}
    (h : List.Chain' (· < ·) (k0 :: ks)) : ∀ k ∈ ks, k0 < k := by
  intro k hk
  have hp : List.Pairwise (· < ·) (k0 :: ks) :=
    (List.chain'_iff_pairwise).mp h
  exact (List.pairwise_cons.mp hp).1 k hk

theorem keysOf_putA_mem {V : Type} (l : List (Nat × Option V)) (k : Nat) (v : V)
    (hs : (keysOf l).Chain' (· < ·)) (hmem : k ∈ keysOf l) :
    keysOf (putA l k v) = keysOf l := by
  induction l with
  | nil => simp [keysOf] at hmem
  | cons p l ih =>
    cases p with
    | mk k0 w =>
      have hs' : (keysOf l).Chain' (· < ·) := by
        simpa [keysOf] using chain'_lt_of_cons (by simpa [keysOf] using hs)
      rw [putA]
      by_cases h1 : k = k0
      · rw [if_pos h1]; simp [keysOf, h1]
      · rw [if_neg h1]
        have hmem' : k ∈ keysOf l := by
          simp only [keysOf, List.map_cons, List.mem_cons] at hmem
          rcases hmem with h | h
          · exact absurd h (fun hh => h1 hh)
          · exact h
        have hgt : k0 < k := by
          have := chain'_lt_head (by simpa [keysOf] using hs) k (by simpa [keysOf] using hmem')
          exact this
        rw [if_neg (by omega)]
        simp only [keysOf, List.map_cons, List.cons.injEq, true_and]
        exact ih hs' hmem'


/-! ## Sortedness of the in-order list of a well-formed node -/

theorem okHi_trans {hi : Option Nat} {a b : Nat} (h : okHi hi b) (hab : a < b) : okHi hi a := by
  cases hi with
  | none => trivial
  | some x => simp [okHi] at h ⊢; omega

theorem okLo_trans {lo : Option Nat} {a b : Nat} (h : okLo lo a) (hab : a < b) : okLo lo b := by
  cases lo with
  | none => trivial
  | some x => simp [okLo] at h ⊢; omega

/-- Entry keys of an internal node are inside the node's bounds. -/
theorem nodesWF_entry_bounds {V : Type} :
    ∀ (es : List (BEntry V)) (cs : List (BNode V)) (lo hi : Option Nat),
      nodesWF lo hi es cs → ∀ e ∈ es, okLo lo e.key ∧ okHi hi e.key := by
  intro es
  induction es with
  | nil => intro cs lo hi _ e he; simp at he
  | cons e0 es ih =>
    intro cs lo hi hwf e he
    cases cs with
    | nil => rw [nodesWF] at hwf; exact absurd hwf (by simp)
    | cons c cs' =>
      rw [nodesWF] at hwf
      obtain ⟨hlo0, hhi0, _, hrest⟩ := hwf
      rcases List.mem_cons.mp he with rfl | hmem
      · exact ⟨hlo0, hhi0⟩
      · have := ih cs' (some e0.key) hi hrest e hmem
        exact ⟨okLo_trans hlo0 (by simpa [okLo] using this.1), this.2⟩

/-- Inner induction for `toPairs_pairwise`: the interleaving of the
children's pair lists with the entries. -/
theorem weave_pairwise_aux {V : Type} (hi : Option Nat) :
    ∀ (es : List (BEntry V)) (cs : List (BNode V)) (lo : Option Nat),
      (∀ c ∈ cs, ∀ lo' hi' : Option Nat, nodeWF lo' hi' c →
        (toPairs c).Pairwise (fun p q => p.1 < q.1) ∧
        ∀ p ∈ toPairs c, okLo lo' p.1 ∧ okHi hi' p.1) →
      nodesWF lo hi es cs →
      (weave (cs.map toPairs) es).Pairwise (fun p q => p.1 < q.1) ∧
      ∀ p ∈ weave (cs.map toPairs) es, okLo lo p.1 ∧ okHi hi p.1 := by
  intro es
  induction es with
  | nil =>
    intro cs lo hch hwf
    match cs with
    | [] => rw [nodesWF] at hwf; exact absurd hwf (by simp)
    | [c] =>
      rw [nodesWF] at hwf
      simpa [weave] using hch c (by simp) lo hi hwf
    | c :: c2 :: cs'' => rw [nodesWF] at hwf; exact absurd hwf (by simp)
  | cons e0 es' ihes =>
    intro cs lo hch hwf
    match cs with
    | [] => rw [nodesWF] at hwf; exact absurd hwf (by simp)
    | c :: cs' =>
      rw [nodesWF] at hwf
      obtain ⟨hlo0, hhi0, hc, hrest⟩ := hwf
      have hchild := hch c (by simp) lo (some e0.key) hc
      have hrestIH := ihes cs' (some e0.key)
        (fun c2 hc2 => hch c2 (by simp [hc2])) hrest
      simp only [List.map_cons, weave]
      have hrestBounds : ∀ p ∈ weave (cs'.map toPairs) es', e0.key < p.1 :=
        fun p hp => by simpa [okLo] using (hrestIH.2 p hp).1
      have hchildBounds : ∀ p ∈ toPairs c, p.1 < e0.key :=
        fun p hp => by simpa [okHi] using (hchild.2 p hp).2
      constructor
      · rw [List.pairwise_append]
        refine ⟨hchild.1, ?_, ?_⟩
        · rw [List.pairwise_cons]
          exact ⟨fun q hq => hrestBounds q hq, hrestIH.1⟩
        · intro a ha b hb
          rcases List.mem_cons.mp hb with rfl | hb2
          · exact hchildBounds a ha
          · exact lt_trans (hchildBounds a ha) (hrestBounds b hb2)
      · intro p hp
        rcases List.mem_append.mp hp with hp1 | hp2
        · exact ⟨(hchild.2 p hp1).1, okHi_trans hhi0 (hchildBounds p hp1)⟩
        · rcases List.mem_cons.mp hp2 with rfl | hp3
          · exact ⟨hlo0, hhi0⟩
          · exact ⟨okLo_trans hlo0 (hrestBounds p hp3), (hrestIH.2 p hp3).2⟩

/-- The in-order pairs of a well-formed node: strictly ascending keys,
all inside the node's bounds. -/
theorem toPairs_pairwise {V : Type} :
    ∀ (n : BNode V) (lo hi : Option Nat), nodeWF lo hi n →
      (toPairs n).Pairwise (fun p q => p.1 < q.1) ∧
      ∀ p ∈ toPairs n, okLo lo p.1 ∧ okHi hi p.1 := by
  intro n
  induction n using toPairs.induct with
  | case1 es cs clbas d dt =>
    intro lo hi hwf
    rw [nodeWF] at hwf
    obtain ⟨_, _, _, hchain, hbounds⟩ := hwf
    rw [toPairs_leaf]
    constructor
    · have hp : (es.map (fun e => e.key)).Pairwise (· < ·) :=
        List.chain'_iff_pairwise.mp hchain
      have := (List.pairwise_map).mp hp
      exact List.Pairwise.map _ (by intro a b hab; exact hab) this
    · intro p hp
      obtain ⟨e, he, rfl⟩ := List.mem_map.mp hp
      exact hbounds e he
  | case2 es cs clbas lf d dt hlf ih =>
    intro lo hi hwf
    have hlf' : lf = false := by
      cases lf
      · rfl
      · exact absurd rfl hlf
    subst hlf'
    rw [nodeWF] at hwf
    obtain ⟨_, hwf⟩ := hwf
    rw [toPairs_internal]
    exact weave_pairwise_aux hi es cs lo (fun c hc => ih ⟨c, hc⟩) hwf

/-! ## `btree_search` agrees with `valAt` on the in-order list -/

theorem findA_append_or {V : Type} (xs ys : List (Nat × Option V)) (k : Nat) :
    findA (xs ++ ys) k =
      match findA xs k with
      | some w => some w
      | none => findA ys k := by
  induction xs with
  | nil => simp [findA_nil]
  | cons x xs ih =>
    rw [List.cons_append, findA_cons, findA_cons]
    by_cases h : x.1 = k
    · rw [if_pos h, if_pos h]
    · rw [if_neg h, if_neg h, ih]

theorem entIdx_nil {V : Type} (k : Nat) : entIdx k ([] : List (BEntry V)) = 0 := rfl

theorem entIdx_cons {V : Type} (k : Nat) (e : BEntry V) (es : List (BEntry V)) :
    entIdx k (e :: es) = if k ≤ e.key then 0 else entIdx k es + 1 := by
  simp only [entIdx, List.findIdx_cons]
  by_cases h : k ≤ e.key
  · simp [h]
  · simp [h]

theorem entIdx_le_length {V : Type} (k : Nat) (es : List (BEntry V)) :
    entIdx k es ≤ es.length := by
  induction es with
  | nil => simp [entIdx_nil]
  | cons e es ih =>
    rw [entIdx_cons]
    by_cases h : k ≤ e.key
    · simp [h]
    · simp only [if_neg h, List.length_cons]
      omega

theorem entIdx_before {V : Type} (k : Nat) (es : List (BEntry V)) :
    ∀ j, j < entIdx k es → (es.getD j noEnt).key < k := by
  induction es with
  | nil => simp [entIdx_nil]
  | cons e es ih =>
    intro j hj
    rw [entIdx_cons] at hj
    by_cases h : k ≤ e.key
    · rw [if_pos h] at hj; omega
    · rw [if_neg h] at hj
      cases j with
      | zero => simpa using by omega
      | succ j' => simpa using ih j' (by omega)

theorem entIdx_hit_ge {V : Type} (k : Nat) (es : List (BEntry V))
    (h : entIdx k es < es.length) : k ≤ (es.getD (entIdx k es) noEnt).key := by
  induction es with
  | nil => simp at h
  | cons e es ih =>
    rw [entIdx_cons] at h ⊢
    by_cases hle : k ≤ e.key
    · rw [if_pos hle]
      simpa using hle
    · rw [if_neg hle] at h ⊢
      simp only [List.length_cons] at h
      have := ih (by omega)
      simpa using this

theorem nodesWF_length {V : Type} :
    ∀ (es : List (BEntry V)) (cs : List (BNode V)) (lo hi : Option Nat),
      nodesWF lo hi es cs → cs.length = es.length + 1 := by
  intro es
  induction es with
  | nil =>
    intro cs lo hi hwf
    match cs with
    | [] => rw [nodesWF] at hwf; exact absurd hwf (by simp)
    | [c] => simp
    | c :: c2 :: cs'' => rw [nodesWF] at hwf; exact absurd hwf (by simp)
  | cons e0 es' ih =>
    intro cs lo hi hwf
    match cs with
    | [] => rw [nodesWF] at hwf; exact absurd hwf (by simp)
    | c :: cs' =>
      rw [nodesWF] at hwf
      simpa using ih cs' (some e0.key) hi hwf.2.2.2

/-- Locate `k` inside the interleaved in-order list: at the `entIdx`
entry when that entry's key is `k`, otherwise inside child `entIdx`. -/
theorem findA_weave_localize {V : Type} (hi : Option Nat) (k : Nat) :
    ∀ (es : List (BEntry V)) (cs : List (BNode V)) (lo : Option Nat),
      nodesWF lo hi es cs → okLo lo k → okHi hi k →
      ((entIdx k es < es.length ∧ k = (es.getD (entIdx k es) noEnt).key →
          findA (weave (cs.map toPairs) es) k = some (es.getD (entIdx k es) noEnt).val) ∧
       (¬ (entIdx k es < es.length ∧ k = (es.getD (entIdx k es) noEnt).key) →
          findA (weave (cs.map toPairs) es) k =
            findA (toPairs (cs.getD (entIdx k es) (BNode.fresh true))) k)) := by
  intro es
  induction es with
  | nil =>
    intro cs lo hwf hlo hhi
    match cs with
    | [] => rw [nodesWF] at hwf; exact absurd hwf (by simp)
    | [c] =>
      refine ⟨fun h => absurd h.1 (by simp [entIdx_nil]), fun _ => ?_⟩
      simp [entIdx_nil, weave]
    | c :: c2 :: cs'' => rw [nodesWF] at hwf; exact absurd hwf (by simp)
  | cons e0 es' ih =>
    intro cs lo hwf hlo hhi
    match cs with
    | [] => rw [nodesWF] at hwf; exact absurd hwf (by simp)
    | c :: cs' =>
      rw [nodesWF] at hwf
      obtain ⟨hlo0, hhi0, hc, hrest⟩ := hwf
      have hcPairs := toPairs_pairwise c lo (some e0.key) hc
      have hcLt : ∀ p ∈ toPairs c, p.1 < e0.key :=
        fun p hp => by simpa [okHi] using (hcPairs.2 p hp).2
      simp only [List.map_cons, weave]
      by_cases hle : k ≤ e0.key
      · by_cases heq : k = e0.key
        · -- hit at index 0
          have hentry : entIdx k (e0 :: es') = 0 := by rw [entIdx_cons, if_pos hle]
          constructor
          · intro _
            rw [findA_append_or]
            have hnone : findA (toPairs c) k = none :=
              findA_eq_none _ _ (fun p hp => by have := hcLt p hp; omega)
            rw [hnone, findA_cons, if_pos heq.symm]
            simp [hentry]
          · intro hmiss
            exact absurd ⟨by simp [hentry], by simpa [hentry] using heq⟩ hmiss
        · -- k < e0.key: localise into child 0
          have hlt : k < e0.key := by omega
          have hentry : entIdx k (e0 :: es') = 0 := by rw [entIdx_cons, if_pos hle]
          constructor
          · intro hhit
            exact absurd (by simpa [hentry] using hhit.2) heq
          · intro _
            rw [findA_append_or]
            have hrestPairs := weave_pairwise_aux hi es' cs' (some e0.key)
              (fun c2 hc2 lo' hi' h => toPairs_pairwise c2 lo' hi' h) hrest
            have hrestNone : findA (weave (cs'.map toPairs) es') k = none :=
              findA_eq_none _ _ (fun p hp => by
                have : e0.key < p.1 := by simpa [okLo] using (hrestPairs.2 p hp).1
                omega)
            have htail : findA ((e0.key, e0.val) :: weave (cs'.map toPairs) es') k = none := by
              rw [findA_cons, if_neg (fun hh => heq hh.symm)]
              exact hrestNone
            match hfc : findA (toPairs c) k with
            | some w => simp [hfc, hentry]
            | none => simp [hfc, htail, hentry]
      · -- e0.key < k: skip child 0 and the entry
        have hgt : e0.key < k := by omega
        have hentry : entIdx k (e0 :: es') = entIdx k es' + 1 := by
          rw [entIdx_cons, if_neg hle]
        have hcNone : findA (toPairs c) k = none :=
          findA_eq_none _ _ (fun p hp => by have := hcLt p hp; omega)
        have ihr := ih cs' (some e0.key) hrest (by simpa [okLo] using hgt) hhi
        rw [findA_append_or, hcNone]
        constructor
        · intro hhit
          rw [findA_cons, if_neg (by simp; omega)]
          have hhit' : entIdx k es' < es'.length ∧
              k = (es'.getD (entIdx k es') noEnt).key := by
            constructor
            · have h1 := hhit.1
              rw [hentry, List.length_cons] at h1
              omega
            · have h2 := hhit.2
              rw [hentry, List.getD_cons_succ] at h2
              exact h2
          rw [ihr.1 hhit']
          simp [hentry]
        · intro hmiss
          rw [findA_cons, if_neg (by simp; omega)]
          have hmiss' : ¬ (entIdx k es' < es'.length ∧
              k = (es'.getD (entIdx k es') noEnt).key) := by
            intro hh
            refine hmiss ⟨?_, ?_⟩
            · have h1 := hh.1
              simp only [hentry, List.length_cons]
              omega
            · have h2 := hh.2
              simp only [hentry, List.getD_cons_succ]
              exact h2
          rw [ihr.2 hmiss']
          simp [hentry]


/-- Bounds of the `i`-th child of a well-formed internal node. -/
theorem nodesWF_child {V : Type} (hi : Option Nat) :
    ∀ (es : List (BEntry V)) (cs : List (BNode V)) (lo : Option Nat),
      nodesWF lo hi es cs → ∀ i, i < cs.length →
      nodeWF (if i = 0 then lo else some ((es.getD (i - 1) noEnt)).key)
             (if i < es.length then some ((es.getD i noEnt)).key else hi)
             (cs.getD i (BNode.fresh true)) := by
  intro es
  induction es with
  | nil =>
    intro cs lo hwf i hilt
    match cs with
    | [] => rw [nodesWF] at hwf; exact absurd hwf (by simp)
    | [c] =>
      rw [nodesWF] at hwf
      have hi0 : i = 0 := by simp only [List.length_cons, List.length_nil] at hilt; omega
      subst hi0
      simpa using hwf
    | c :: c2 :: cs'' => rw [nodesWF] at hwf; exact absurd hwf (by simp)
  | cons e0 es' ih =>
    intro cs lo hwf i hilt
    match cs with
    | [] => rw [nodesWF] at hwf; exact absurd hwf (by simp)
    | c :: cs' =>
      rw [nodesWF] at hwf
      obtain ⟨_, _, hc, hrest⟩ := hwf
      cases i with
      | zero => simpa using hc
      | succ j =>
        have hjlt : j < cs'.length := by
          simp only [List.length_cons] at hilt
          omega
        have hres := ih cs' (some e0.key) hrest j hjlt
        cases j with
        | zero => simpa using hres
        | succ j' =>
          simp only [Nat.succ_ne_zero, if_false, Nat.add_sub_cancel,
            List.getD_cons_succ, List.length_cons, Nat.add_lt_add_iff_right] at hres ⊢
          exact hres

/-- Locate `k` among a leaf's entries. -/
theorem findA_entries_localize {V : Type} (k : Nat) :
    ∀ es : List (BEntry V), ((es.map (fun e => e.key)).Chain' (· < ·)) →
      ((entIdx k es < es.length ∧ k = (es.getD (entIdx k es) noEnt).key →
        findA (es.map (fun e => (e.key, e.val))) k =
          some (es.getD (entIdx k es) noEnt).val) ∧
       (¬ (entIdx k es < es.length ∧ k = (es.getD (entIdx k es) noEnt).key) →
        findA (es.map (fun e => (e.key, e.val))) k = none)) := by
  intro es
  induction es with
  | nil => exact fun _ => ⟨fun h => absurd h.1 (by simp [entIdx_nil]), fun _ => rfl⟩
  | cons e0 es' ih =>
    intro hchain
    have hchain' : (es'.map (fun e => e.key)).Chain' (· < ·) :=
      chain'_lt_of_cons hchain
    have hhead : ∀ e ∈ es', e0.key < e.key := by
      intro e he
      exact chain'_lt_head hchain e.key (List.mem_map_of_mem _ he)
    by_cases hle : k ≤ e0.key
    · have hentry : entIdx k (e0 :: es') = 0 := by rw [entIdx_cons, if_pos hle]
      by_cases heq : k = e0.key
      · constructor
        · intro _
          rw [List.map_cons, findA_cons, if_pos heq.symm]
          simp [hentry]
        · intro hmiss
          exact absurd ⟨by simp [hentry], by simpa [hentry] using heq⟩ hmiss
      · constructor
        · intro hhit
          exact absurd (by simpa [hentry] using hhit.2) heq
        · intro _
          rw [List.map_cons, findA_cons, if_neg (fun hh => heq hh.symm)]
          exact findA_eq_none _ _ (fun p hp => by
            obtain ⟨e, he, rfl⟩ := List.mem_map.mp hp
            have := hhead e he
            omega)
    · have hentry : entIdx k (e0 :: es') = entIdx k es' + 1 := by
        rw [entIdx_cons, if_neg hle]
      have ihr := ih hchain'
      constructor
      · intro hhit
        rw [List.map_cons, findA_cons, if_neg (by simp; omega)]
        have h1 := hhit.1
        have h2 := hhit.2
        rw [hentry, List.length_cons] at h1
        rw [hentry, List.getD_cons_succ] at h2
        rw [ihr.1 ⟨by omega, h2⟩]
        simp [hentry]
      · intro hmiss
        rw [List.map_cons, findA_cons, if_neg (by simp; omega)]
        refine ihr.2 (fun hh => hmiss ⟨?_, ?_⟩)
        · rw [hentry, List.length_cons]
          omega
        · rw [hentry, List.getD_cons_succ]
          exact hh.2

/-- `btree_search_node` returns exactly the value slot the in-order list
assigns to `k` (null and absent both read back as `none`). -/
theorem searchNode_eq_valAt {V : Type} :
    ∀ (n : BNode V) (k : Nat) (lo hi : Option Nat), nodeWF lo hi n →
      okLo lo k → okHi hi k → searchNode n k = valAt (toPairs n) k := by
  intro n k
  induction n, k using searchNode.induct with
  | case1 es cs clbas isLf d dt key hhit =>
    intro lo hi hwf hlo hhi
    rw [searchNode, if_pos hhit]
    cases isLf with
    | true =>
      rw [nodeWF] at hwf
      rw [toPairs_leaf, valAt, (findA_entries_localize key es hwf.2.2.2.1).1 hhit]
      rfl
    | false =>
      rw [nodeWF] at hwf
      rw [toPairs_internal, valAt,
        (findA_weave_localize hi key es cs lo hwf.2 hlo hhi).1 hhit]
      rfl
  | case2 es cs clbas d dt key hhit =>
    intro lo hi hwf hlo hhi
    rw [searchNode, if_neg hhit, if_pos rfl]
    rw [nodeWF] at hwf
    rw [toPairs_leaf, valAt, (findA_entries_localize key es hwf.2.2.2.1).2 hhit]
    rfl
  | case3 es cs clbas isLf d dt key hhit hlf hin ih =>
    intro lo hi hwf hlo hhi
    rw [searchNode, if_neg hhit, if_neg hlf, dif_pos hin]
    have hlf' : isLf = false := by cases isLf; rfl; exact absurd rfl hlf
    subst hlf'
    rw [nodeWF] at hwf
    have hlen := nodesWF_length es cs lo hi hwf.2
    have hchild := nodesWF_child hi es cs lo hwf.2 (entIdx key es) hin
    have hgetd : cs.getD (entIdx key es) (BNode.fresh true) = cs[entIdx key es] := by
      rw [List.getD_eq_getElem?_getD, List.getElem?_eq_getElem hin]
      rfl
    rw [hgetd] at hchild
    have hklo : okLo (if entIdx key es = 0 then lo
        else some ((es.getD (entIdx key es - 1) noEnt)).key) key := by
      by_cases h0 : entIdx key es = 0
      · rw [if_pos h0]; exact hlo
      · rw [if_neg h0]
        have := entIdx_before key es (entIdx key es - 1) (by omega)
        simpa [okLo] using this
    have hkhi : okHi (if entIdx key es < es.length
        then some ((es.getD (entIdx key es) noEnt)).key else hi) key := by
      by_cases h0 : entIdx key es < es.length
      · rw [if_pos h0]
        have h1 := entIdx_hit_ge key es h0
        have h2 : ¬ key = (es.getD (entIdx key es) noEnt).key := fun hh => hhit ⟨h0, hh⟩
        simp only [okHi]
        omega
      · rw [if_neg h0]; exact hhi
    rw [ih _ _ hchild hklo hkhi, toPairs_internal]
    unfold valAt
    rw [(findA_weave_localize hi key es cs lo hwf.2 hlo hhi).2 hhit, hgetd]
  | case4 es cs clbas isLf d dt key hhit hlf hin =>
    intro lo hi hwf hlo hhi
    have hlf' : isLf = false := by cases isLf; rfl; exact absurd rfl hlf
    subst hlf'
    rw [nodeWF] at hwf
    have hlen := nodesWF_length es cs lo hi hwf.2
    have := entIdx_le_length key es
    exact absurd (by omega) hin


/-! ## `putA`: sortedness, bounds and length -/

theorem putA_pairwise {V : Type} (lo hi : Option Nat) (k : Nat) (v : V)
    (hlo : okLo lo k) (hhi : okHi hi k) :
    ∀ l : List (Nat × Option V),
      l.Pairwise (fun p q => p.1 < q.1) → (∀ p ∈ l, okLo lo p.1 ∧ okHi hi p.1) →
      (putA l k v).Pairwise (fun p q => p.1 < q.1) ∧
      ∀ p ∈ putA l k v, okLo lo p.1 ∧ okHi hi p.1 := by
  intro l
  induction l with
  | nil => exact fun _ _ => ⟨by simp [putA], by simp [putA]; exact ⟨hlo, hhi⟩⟩
  | cons p l ih =>
    intro hs hb
    obtain ⟨hhead, htail⟩ := List.pairwise_cons.mp hs
    cases p with
    | mk k0 w =>
      rw [putA]
      by_cases h1 : k = k0
      · rw [if_pos h1]
        subst h1
        exact ⟨List.pairwise_cons.mpr ⟨hhead, htail⟩, by
          intro q hq
          rcases List.mem_cons.mp hq with rfl | hq2
          · exact ⟨hlo, hhi⟩
          · exact hb q (List.mem_cons_of_mem _ hq2)⟩
      · rw [if_neg h1]
        by_cases h2 : k < k0
        · rw [if_pos h2]
          refine ⟨List.pairwise_cons.mpr ⟨?_, hs⟩, ?_⟩
          · intro q hq
            rcases List.mem_cons.mp hq with rfl | hq2
            · exact h2
            · exact lt_trans h2 (hhead q hq2)
          · intro q hq
            rcases List.mem_cons.mp hq with rfl | hq2
            · exact ⟨hlo, hhi⟩
            · exact hb q hq2
        · rw [if_neg h2]
          have hrec := ih htail (fun q hq => hb q (List.mem_cons_of_mem _ hq))
          refine ⟨List.pairwise_cons.mpr ⟨?_, hrec.1⟩, ?_⟩
          · intro q hq
            have hmemkeys : q.1 = k ∨ q ∈ l := by
              clear ih hrec hs hb htail hhead
              induction l with
              | nil => simp [putA] at hq; simp [hq]
              | cons r l ihl =>
                cases r with
                | mk k1 w1 =>
                  rw [putA] at hq
                  by_cases ha : k = k1
                  · rw [if_pos ha] at hq
                    rcases List.mem_cons.mp hq with rfl | hq2
                    · left; exact ha.symm
                    · right; exact List.mem_cons_of_mem _ hq2
                  · rw [if_neg ha] at hq
                    by_cases hb2 : k < k1
                    · rw [if_pos hb2] at hq
                      rcases List.mem_cons.mp hq with rfl | hq2
                      · left; rfl
                      · right; exact hq2
                    · rw [if_neg hb2] at hq
                      rcases List.mem_cons.mp hq with rfl | hq2
                      · right; exact List.mem_cons_self _ _
                      · rcases ihl hq2 with h | h
                        · left; exact h
                        · right; exact List.mem_cons_of_mem _ h
            rcases hmemkeys with hk | hmem
            · rw [hk]; omega
            · exact hhead q hmem
          · intro q hq
            rcases List.mem_cons.mp hq with rfl | hq2
            · exact hb (k0, w) (by simp)
            · exact hrec.2 q hq2

theorem putA_length_le {V : Type} (k : Nat) (v : V) :
    ∀ l : List (Nat × Option V), (putA l k v).length ≤ l.length + 1 := by
  intro l
  induction l with
  | nil => simp [putA]
  | cons p l ih =>
    cases p with
    | mk k0 w =>
      rw [putA]
      by_cases h1 : k = k0
      · rw [if_pos h1]; simp
      · rw [if_neg h1]
        by_cases h2 : k < k0
        · rw [if_pos h2]; simp
        · rw [if_neg h2]
          simp only [List.length_cons]
          omega

/-! ## The leaf path of `btree_insert_nonfull` implements `putA` -/

theorem pairwise_append_singleton {V : Type} {es : List (BEntry V)} {e : BEntry V}
    (h : ((es ++ [e]).map (fun x => x.key)).Chain' (· < ·)) :
    (∀ x ∈ es, x.key < e.key) ∧ ((es.map (fun x => x.key)).Chain' (· < ·)) := by
  have hp := List.chain'_iff_pairwise.mp h
  rw [List.map_append, List.pairwise_append] at hp
  constructor
  · intro x hx
    exact hp.2.2 x.key (List.mem_map_of_mem _ hx) e.key (by simp)
  · exact List.chain'_iff_pairwise.mpr hp.1

theorem leafInsRev_putA {V : Type} (k : Nat) (v : V) :
    ∀ es : List (BEntry V), ((es.map (fun e => e.key)).Chain' (· < ·)) →
      ((leafInsRev k v es.reverse).reverse.map (fun e => (e.key, e.val))) =
        putA (es.map (fun e => (e.key, e.val))) k v := by
  intro es
  induction es using List.reverseRecOn with
  | nil => intro _; simp [leafInsRev, putA]
  | append_singleton es e ih =>
    intro hs
    obtain ⟨hlt, hs'⟩ := pairwise_append_singleton hs
    rw [List.reverse_append, List.reverse_singleton, List.singleton_append, leafInsRev]
    by_cases h1 : k < e.key
    · rw [if_pos h1]
      simp only [List.reverse_cons, List.map_append, List.map_singleton]
      rw [ih hs']
      exact (putA_append_gt _ _ _ _ (by
        rintro p hp
        simp only [List.mem_singleton] at hp
        subst hp
        exact h1)).symm
    · rw [if_neg h1]
      by_cases h2 : e.key = k
      · rw [if_pos h2]
        simp only [List.reverse_cons, List.reverse_reverse, List.map_append,
          List.map_singleton]
        rw [putA_append_lt _ _ _ _ (by
          intro p hp
          obtain ⟨x, hx, rfl⟩ := List.mem_map.mp hp
          have := hlt x hx
          simp only
          omega)]
        rw [putA, if_pos h2.symm]
      · rw [if_neg h2]
        have hke : e.key < k := by omega
        simp only [List.reverse_cons, List.reverse_reverse, List.map_append,
          List.map_singleton, List.map_cons, List.map_nil]
        rw [putA_append_lt _ _ _ _ (by
          intro p hp
          obtain ⟨x, hx, rfl⟩ := List.mem_map.mp hp
          have := hlt x hx
          simp only
          omega)]
        rw [putA, if_neg (fun hh => h2 hh.symm), if_neg (by omega), putA]
        simp


/-! ## The internal-node probe of `btree_insert_nonfull` -/

theorem set_append_of_lt {α : Type} (l1 l2 : List α) (j : Nat) (x : α)
    (h : j < l1.length) : (l1 ++ l2).set j x = l1.set j x ++ l2 := by
  induction l1 generalizing j with
  | nil => simp at h
  | cons a l ih =>
    cases j with
    | zero => simp
    | succ j' =>
      simp only [List.cons_append, List.set_cons_succ, List.cons.injEq, true_and]
      simp only [List.length_cons] at h
      exact ih j' (by omega)

/-- `probeRev … = .inr c` on (the reversal of) a sorted entry list: `c`
splits the entries into those below and those above `k`. -/
theorem probeRev_inr_spec {V : Type} (k : Nat) (v : V) :
    ∀ es : List (BEntry V), ((es.map (fun e => e.key)).Chain' (· < ·)) →
      ∀ c, probeRev k v es.reverse = .inr c →
        c ≤ es.length ∧ (∀ e ∈ es.take c, e.key < k) ∧ (∀ e ∈ es.drop c, k < e.key) := by
  intro es
  induction es using List.reverseRecOn with
  | nil =>
    intro _ c hc
    simp only [List.reverse_nil, probeRev, Sum.inr.injEq] at hc
    subst hc
    simp
  | append_singleton es e ih =>
    intro hs c hc
    obtain ⟨hlt, hs'⟩ := pairwise_append_singleton hs
    rw [List.reverse_append, List.reverse_singleton, List.singleton_append, probeRev] at hc
    by_cases h1 : k < e.key
    · rw [if_pos h1] at hc
      match hprev : probeRev k v es.reverse with
      | .inl u => rw [hprev] at hc; simp at hc
      | .inr c' =>
        rw [hprev] at hc
        simp only [Sum.inr.injEq] at hc
        subst hc
        obtain ⟨hle, htake, hdrop⟩ := ih hs' c' hprev
        refine ⟨by simp; omega, ?_, ?_⟩
        · intro x hx
          rw [List.take_append_of_le_length hle] at hx
          exact htake x hx
        · intro x hx
          rw [List.drop_append_of_le_length hle] at hx
          rcases List.mem_append.mp hx with hx1 | hx2
          · exact hdrop x hx1
          · simp only [List.mem_singleton] at hx2
            subst hx2
            exact h1
    · rw [if_neg h1] at hc
      by_cases h2 : e.key = k
      · rw [if_pos h2] at hc
        simp at hc
      · rw [if_neg h2] at hc
        simp only [Sum.inr.injEq, List.length_reverse] at hc
        subst hc
        refine ⟨by simp, ?_, ?_⟩
        · intro x hx
          rw [List.take_of_length_le (by simp)] at hx
          rcases List.mem_append.mp hx with hx1 | hx2
          · have := hlt x hx1
            omega
          · simp only [List.mem_singleton] at hx2
            subst hx2
            omega
        · intro x hx
          rw [List.drop_of_length_le (by simp)] at hx
          simp at hx

theorem set_append_len {α : Type} (l : List α) (e x : α) :
    (l ++ [e]).set l.length x = l ++ [x] := by
  induction l with
  | nil => rfl
  | cons a t ih => simp [ih]

/-- `probeRev … = .inl upd` on (the reversal of) a sorted entry list:
the entry carrying `k` had its value slot overwritten. -/
theorem probeRev_inl_spec {V : Type} (k : Nat) (v : V) :
    ∀ es : List (BEntry V), ((es.map (fun e => e.key)).Chain' (· < ·)) →
      ∀ upd, probeRev k v es.reverse = .inl upd →
        ∃ j, j < es.length ∧ (es.getD j noEnt).key = k ∧
          upd.reverse = es.set j ⟨k, some v, 0⟩ := by
  intro es
  induction es using List.reverseRecOn with
  | nil =>
    intro _ upd hc
    simp [probeRev] at hc
  | append_singleton es e ih =>
    intro hs upd hc
    obtain ⟨hlt, hs'⟩ := pairwise_append_singleton hs
    rw [List.reverse_append, List.reverse_singleton, List.singleton_append, probeRev] at hc
    by_cases h1 : k < e.key
    · rw [if_pos h1] at hc
      match hprev : probeRev k v es.reverse with
      | .inr c' => rw [hprev] at hc; simp at hc
      | .inl u =>
        rw [hprev] at hc
        simp only [Sum.inl.injEq] at hc
        subst hc
        obtain ⟨j, hj, hkey, hset⟩ := ih hs' u hprev
        refine ⟨j, by simp; omega, ?_, ?_⟩
        · rw [List.getD_append _ _ _ _ hj]
          exact hkey
        · rw [List.reverse_cons, hset, set_append_of_lt _ _ _ _ hj]
    · rw [if_neg h1] at hc
      by_cases h2 : e.key = k
      · rw [if_pos h2] at hc
        simp only [Sum.inl.injEq] at hc
        subst hc
        refine ⟨es.length, by simp, ?_, ?_⟩
        · rw [List.getD_append_right es [e] noEnt es.length (le_refl _)]
          simpa using h2
        · rw [List.reverse_cons, List.reverse_reverse, set_append_len, h2]
      · rw [if_neg h2] at hc
        simp at hc


/-! ## Decomposition of the in-order list around a child or an entry -/

/-- Replacing child `c` (all of whose keys sit strictly between the
neighbouring entry keys, located by `k`) changes exactly the child's
segment of the in-order list. -/
theorem weave_child_decomp {V : Type} (hi : Option Nat) (k : Nat) :
    ∀ (es : List (BEntry V)) (cs : List (BNode V)) (lo : Option Nat) (c : Nat),
      nodesWF lo hi es cs → c < cs.length →
      (∀ e ∈ es.take c, e.key < k) → (∀ e ∈ es.drop c, k < e.key) →
      ∀ child' : BNode V,
      ∃ xs ys, weave (cs.map toPairs) es = xs ++ (toPairs (cs.getD c (BNode.fresh true)) ++ ys) ∧
        weave ((cs.set c child').map toPairs) es = xs ++ (toPairs child' ++ ys) ∧
        (∀ p ∈ xs, p.1 < k) ∧ (∀ p ∈ ys, k < p.1) := by
  intro es
  induction es with
  | nil =>
    intro cs lo c hwf hc _ _ child'
    match cs with
    | [] => rw [nodesWF] at hwf; exact absurd hwf (by simp)
    | [c0] =>
      have hc0 : c = 0 := by simp at hc; omega
      subst hc0
      exact ⟨[], [], by simp [weave], by simp [weave], by simp, by simp⟩
    | c0 :: c1 :: cs'' => rw [nodesWF] at hwf; exact absurd hwf (by simp)
  | cons e0 es' ih =>
    intro cs lo c hwf hc htake hdrop child'
    match cs with
    | [] => rw [nodesWF] at hwf; exact absurd hwf (by simp)
    | c0 :: cs' =>
      rw [nodesWF] at hwf
      obtain ⟨hlo0, hhi0, hc0, hrest⟩ := hwf
      cases c with
      | zero =>
        have hke : k < e0.key := hdrop e0 (by simp)
        have hrestPairs := weave_pairwise_aux hi es' cs' (some e0.key)
          (fun c2 hc2 lo' hi' h => toPairs_pairwise c2 lo' hi' h) hrest
        refine ⟨[], (e0.key, e0.val) :: weave (cs'.map toPairs) es', ?_, ?_, by simp, ?_⟩
        · simp [weave]
        · simp [weave]
        · intro p hp
          rcases List.mem_cons.mp hp with rfl | hp2
          · exact hke
          · have : e0.key < p.1 := by simpa [okLo] using (hrestPairs.2 p hp2).1
            omega
      | succ j =>
        have hek : e0.key < k := htake e0 (by simp)
        have hcPairs := toPairs_pairwise c0 lo (some e0.key) hc0
        obtain ⟨xs', ys', hw1, hw2, hxs', hys'⟩ :=
          ih cs' (some e0.key) j hrest (by have := hc; simp at this; omega)
            (fun e he => htake e (by simpa using List.mem_cons_of_mem _ (by
              rw [List.take_succ_cons] at *
              exact he)))
            (fun e he => hdrop e (by simpa using he)) child'
        refine ⟨toPairs c0 ++ (e0.key, e0.val) :: xs', ys', ?_, ?_, ?_, hys'⟩
        · simp only [List.map_cons, weave, List.getD_cons_succ]
          rw [hw1]
          simp
        · simp only [List.set_cons_succ, List.map_cons, weave]
          rw [hw2]
          simp
        · intro p hp
          rcases List.mem_append.mp hp with hp1 | hp2
          · have : p.1 < e0.key := by simpa [okHi] using (hcPairs.2 p hp1).2
            omega
          · rcases List.mem_cons.mp hp2 with rfl | hp3
            · exact hek
            · exact hxs' p hp3

/-- Overwriting the entry that carries `k` changes exactly that binding
of the in-order list. -/
theorem weave_setEntry_decomp {V : Type} (hi : Option Nat) (k : Nat) :
    ∀ (es : List (BEntry V)) (cs : List (BNode V)) (lo : Option Nat) (j : Nat),
      nodesWF lo hi es cs → j < es.length → (es.getD j noEnt).key = k →
      ∀ (w : Option V) (lba : Nat),
      ∃ xs ys, weave (cs.map toPairs) es = xs ++ ((k, (es.getD j noEnt).val) :: ys) ∧
        weave (cs.map toPairs) (es.set j ⟨k, w, lba⟩) = xs ++ ((k, w) :: ys) ∧
        (∀ p ∈ xs, p.1 < k) ∧ (∀ p ∈ ys, k < p.1) := by
  intro es
  induction es with
  | nil => intro cs lo j _ hj; simp at hj
  | cons e0 es' ih =>
    intro cs lo j hwf hj hkey w lba
    match cs with
    | [] => rw [nodesWF] at hwf; exact absurd hwf (by simp)
    | c0 :: cs' =>
      rw [nodesWF] at hwf
      obtain ⟨hlo0, hhi0, hc0, hrest⟩ := hwf
      have hcPairs := toPairs_pairwise c0 lo (some e0.key) hc0
      cases j with
      | zero =>
        simp only [List.getD_cons_zero] at hkey
        have hrestPairs := weave_pairwise_aux hi es' cs' (some e0.key)
          (fun c2 hc2 lo' hi' h => toPairs_pairwise c2 lo' hi' h) hrest
        refine ⟨toPairs c0, weave (cs'.map toPairs) es', ?_, ?_, ?_, ?_⟩
        · simp only [List.map_cons, weave, List.getD_cons_zero]
          rw [hkey]
        · simp only [List.set_cons_zero, List.map_cons, weave]
        · intro p hp
          have : p.1 < e0.key := by simpa [okHi] using (hcPairs.2 p hp).2
          omega
        · intro p hp
          have : e0.key < p.1 := by simpa [okLo] using (hrestPairs.2 p hp).1
          omega
      | succ j' =>
        simp only [List.getD_cons_succ] at hkey
        have hj' : j' < es'.length := by have := hj; simp at this; omega
        have hek : e0.key < k := by
          have hb := nodesWF_entry_bounds es' cs' (some e0.key) hi hrest
          have hmem : es'.getD j' noEnt ∈ es' := by
            rw [List.getD_eq_getElem?_getD, List.getElem?_eq_getElem hj']
            exact List.getElem_mem _
          have := (hb _ hmem).1
          rw [hkey] at this
          simpa [okLo] using this
        obtain ⟨xs', ys', hw1, hw2, hxs', hys'⟩ :=
          ih cs' (some e0.key) j' hrest hj' hkey w lba
        refine ⟨toPairs c0 ++ (e0.key, e0.val) :: xs', ys', ?_, ?_, ?_, hys'⟩
        · simp only [List.map_cons, weave, List.getD_cons_succ]
          rw [hw1]
          simp
        · simp only [List.set_cons_succ, List.map_cons, weave]
          rw [hw2]
          simp
        · intro p hp
          rcases List.mem_append.mp hp with hp1 | hp2
          · have : p.1 < e0.key := by simpa [okHi] using (hcPairs.2 p hp1).2
            omega
          · rcases List.mem_cons.mp hp2 with rfl | hp3
            · exact hek
            · exact hxs' p hp3


/-- Replacing a child with one that is well-formed between the same
neighbouring keys preserves the node invariant. -/
theorem nodesWF_set_child {V : Type} (hi : Option Nat) :
    ∀ (es : List (BEntry V)) (cs : List (BNode V)) (lo : Option Nat) (c : Nat)
      (child' : BNode V),
      nodesWF lo hi es cs → c < cs.length →
      nodeWF (if c = 0 then lo else some ((es.getD (c - 1) noEnt)).key)
             (if c < es.length then some ((es.getD c noEnt)).key else hi) child' →
      nodesWF lo hi es (cs.set c child') := by
  intro es
  induction es with
  | nil =>
    intro cs lo c child' hwf hc hch
    match cs with
    | [] => rw [nodesWF] at hwf; exact absurd hwf (by simp)
    | [c0] =>
      have hc0 : c = 0 := by simp at hc; omega
      subst hc0
      simp only [List.set_cons_zero]
      rw [nodesWF]
      simpa using hch
    | c0 :: c1 :: cs'' => rw [nodesWF] at hwf; exact absurd hwf (by simp)
  | cons e0 es' ih =>
    intro cs lo c child' hwf hc hch
    match cs with
    | [] => rw [nodesWF] at hwf; exact absurd hwf (by simp)
    | c0 :: cs' =>
      rw [nodesWF] at hwf
      obtain ⟨hlo0, hhi0, hc0, hrest⟩ := hwf
      cases c with
      | zero =>
        simp only [List.set_cons_zero]
        rw [nodesWF]
        refine ⟨hlo0, hhi0, ?_, hrest⟩
        simpa using hch
      | succ j =>
        simp only [List.set_cons_succ]
        rw [nodesWF]
        refine ⟨hlo0, hhi0, hc0, ?_⟩
        have hjlt : j < cs'.length := by simp at hc; omega
        refine ih cs' (some e0.key) j child' hrest hjlt ?_
        cases j with
        | zero => simpa using hch
        | succ j' =>
          simp only [Nat.succ_ne_zero, if_false, Nat.add_sub_cancel,
            List.getD_cons_succ, List.length_cons, Nat.add_lt_add_iff_right] at hch ⊢
          exact hch

/-- Overwriting the value slot (and value LBA) of the entry that carries
`k` preserves the node invariant, for any new slot. -/
theorem nodesWF_setEntry {V : Type} (hi : Option Nat) (k : Nat) :
    ∀ (es : List (BEntry V)) (cs : List (BNode V)) (lo : Option Nat) (j : Nat),
      nodesWF lo hi es cs → j < es.length → (es.getD j noEnt).key = k →
      ∀ (w : Option V) (lba : Nat),
      nodesWF lo hi (es.set j ⟨k, w, lba⟩) cs := by
  intro es
  induction es with
  | nil => intro cs lo j _ hj; simp at hj
  | cons e0 es' ih =>
    intro cs lo j hwf hj hkey w lba
    match cs with
    | [] => rw [nodesWF] at hwf; exact absurd hwf (by simp)
    | c0 :: cs' =>
      rw [nodesWF] at hwf
      obtain ⟨hlo0, hhi0, hc0, hrest⟩ := hwf
      cases j with
      | zero =>
        simp only [List.getD_cons_zero] at hkey
        subst hkey
        simp only [List.set_cons_zero]
        rw [nodesWF]
        exact ⟨hlo0, hhi0, hc0, hrest⟩
      | succ j' =>
        simp only [List.getD_cons_succ] at hkey
        have hj' : j' < es'.length := by simp at hj; omega
        simp only [List.set_cons_succ]
        rw [nodesWF]
        exact ⟨hlo0, hhi0, hc0, ih cs' (some e0.key) j' hrest hj' hkey w lba⟩


/-- Splitting a well-formed internal node's lists at entry `j` yields two
well-formed halves around the promoted key, and the in-order list
decomposes accordingly. -/
theorem nodesWF_split {V : Type} (hi : Option Nat) :
    ∀ (es : List (BEntry V)) (cs : List (BNode V)) (lo : Option Nat) (j : Nat),
      nodesWF lo hi es cs → j < es.length →
      nodesWF lo (some ((es.getD j noEnt)).key) (es.take j) (cs.take (j + 1)) ∧
      nodesWF (some ((es.getD j noEnt)).key) hi (es.drop (j + 1)) (cs.drop (j + 1)) ∧
      weave (cs.map toPairs) es =
        weave ((cs.take (j + 1)).map toPairs) (es.take j) ++
        ((es.getD j noEnt).key, (es.getD j noEnt).val) ::
        weave ((cs.drop (j + 1)).map toPairs) (es.drop (j + 1)) := by
  intro es
  induction es with
  | nil => intro cs lo j _ hj; simp at hj
  | cons e0 es' ih =>
    intro cs lo j hwf hj
    match cs with
    | [] => rw [nodesWF] at hwf; exact absurd hwf (by simp)
    | c0 :: cs' =>
      rw [nodesWF] at hwf
      obtain ⟨hlo0, hhi0, hc0, hrest⟩ := hwf
      cases j with
      | zero =>
        refine ⟨?_, by simpa using hrest, ?_⟩
        · simp only [List.take_zero, List.take_succ_cons, List.take_zero,
            List.getD_cons_zero]
          rw [nodesWF]
          exact hc0
        · simp [weave]
      | succ j' =>
        have hj' : j' < es'.length := by simp at hj; omega
        obtain ⟨ih1, ih2, ih3⟩ := ih cs' (some e0.key) j' hrest hj'
        have hek : e0.key < (es'.getD j' noEnt).key := by
          have hb := nodesWF_entry_bounds es' cs' (some e0.key) hi hrest
          have hmem : es'.getD j' noEnt ∈ es' := by
            rw [List.getD_eq_getElem?_getD, List.getElem?_eq_getElem hj']
            exact List.getElem_mem _
          simpa [okLo] using (hb _ hmem).1
        refine ⟨?_, by simpa using ih2, ?_⟩
        · simp only [List.take_succ_cons, List.getD_cons_succ]
          rw [nodesWF]
          exact ⟨hlo0, hek, hc0, ih1⟩
        · simp only [List.getD_cons_succ, List.take_succ_cons, List.drop_succ_cons,
            List.map_cons, weave]
          rw [ih3]
          simp


theorem getD_mem {V : Type} (es : List (BEntry V)) (j : Nat) (hj : j < es.length) :
    es.getD j noEnt ∈ es := by
  rw [List.getD_eq_getElem?_getD, List.getElem?_eq_getElem hj]
  exact List.getElem_mem _

/-- Splitting a strictly ascending entry list at index `j`. -/
theorem chain_split {V : Type} :
    ∀ (es : List (BEntry V)) (j : Nat), ((es.map (fun e => e.key)).Chain' (· < ·)) →
      j < es.length →
      (((es.take j).map (fun e => e.key)).Chain' (· < ·)) ∧
      (((es.drop (j + 1)).map (fun e => e.key)).Chain' (· < ·)) ∧
      (∀ e ∈ es.take j, e.key < (es.getD j noEnt).key) ∧
      (∀ e ∈ es.drop (j + 1), (es.getD j noEnt).key < e.key) := by
  intro es
  induction es with
  | nil => intro j _ hj; simp at hj
  | cons e0 es' ih =>
    intro j hs hj
    have hs' : ((es'.map (fun e => e.key)).Chain' (· < ·)) :=
      chain'_lt_of_cons (by simpa using hs)
    have hhead : ∀ b ∈ es'.map (fun e => e.key), e0.key < b :=
      chain'_lt_head (by simpa using hs)
    cases j with
    | zero =>
      refine ⟨by simp, by simpa using hs', by simp, ?_⟩
      intro e he
      simp only [List.drop_succ_cons, List.drop_zero] at he
      simpa using hhead e.key (List.mem_map_of_mem _ he)
    | succ j' =>
      have hj' : j' < es'.length := by simp at hj; omega
      obtain ⟨ih1, ih2, ih3, ih4⟩ := ih j' hs' hj'
      refine ⟨?_, by simpa using ih2, ?_, by simpa using ih4⟩
      · rw [List.take_succ_cons, List.map_cons, List.chain'_cons']
        refine ⟨?_, ih1⟩
        intro b hb
        have hbm : b ∈ (es'.take j').map (fun e => e.key) := List.mem_of_mem_head? hb
        obtain ⟨e, he, rfl⟩ := List.mem_map.mp hbm
        exact hhead e.key (List.mem_map_of_mem _ (List.mem_of_mem_take he))
      · intro e he
        rw [List.take_succ_cons] at he
        simp only [List.getD_cons_succ]
        rcases List.mem_cons.mp he with rfl | hmem
        · exact hhead _ (List.mem_map_of_mem _ (getD_mem es' j' hj'))
        · exact ih3 e hmem


/-- `btree_split_child`'s postcondition on the split child: both halves
are well-formed around the promoted median entry (index 31), the median
key lies within the child's bounds, and the in-order list splits at the
median. -/
theorem childSplit_spec {V : Type} (clo chi : Option Nat) (ch : BNode V)
    (h : nodeWF clo chi ch) (hlen : 32 ≤ ch.entries.length) :
    nodeWF clo (some ((ch.entries.getD 31 noEnt)).key)
      (BNode.mk (ch.entries.take 31) (ch.children.take 32) (ch.childLbas.take 32)
        ch.isLeaf ch.diskLba true) ∧
    nodeWF (some ((ch.entries.getD 31 noEnt)).key) chi
      (BNode.mk (ch.entries.drop 32)
        (if ch.isLeaf then [] else ch.children.drop 32)
        (if ch.isLeaf then [] else ch.childLbas.drop 32)
        ch.isLeaf 0 true) ∧
    okLo clo ((ch.entries.getD 31 noEnt)).key ∧
    okHi chi ((ch.entries.getD 31 noEnt)).key ∧
    toPairs ch =
      toPairs (BNode.mk (ch.entries.take 31) (ch.children.take 32) (ch.childLbas.take 32)
        ch.isLeaf ch.diskLba true) ++
      ((ch.entries.getD 31 noEnt).key, (ch.entries.getD 31 noEnt).val) ::
      toPairs (BNode.mk (ch.entries.drop 32)
        (if ch.isLeaf then [] else ch.children.drop 32)
        (if ch.isLeaf then [] else ch.childLbas.drop 32)
        ch.isLeaf 0 true) := by
  cases ch with
  | mk esc csc clbc lf dc dtc =>
    simp only [BNode.entries, BNode.children, BNode.childLbas, BNode.isLeaf,
      BNode.diskLba] at *
    cases lf with
    | true =>
      simp only [reduceIte]
      rw [nodeWF] at h
      obtain ⟨hcs, hclb, hle, hchain, hbounds⟩ := h
      subst hcs
      subst hclb
      have h31 : 31 < esc.length := by omega
      obtain ⟨hc1, hc2, hc3, hc4⟩ := chain_split esc 31 hchain h31
      have hb31 := hbounds _ (getD_mem esc 31 h31)
      have hdecomp : esc.take 31 ++ esc.getD 31 noEnt :: esc.drop 32 = esc := by
        rw [List.getD_eq_getElem?_getD, List.getElem?_eq_getElem h31]
        have h1 : esc.drop 31 = esc[31] :: esc.drop 32 := List.drop_eq_getElem_cons h31
        simp only [Option.getD_some]
        rw [← h1, List.take_append_drop]
      refine ⟨?_, ?_, hb31.1, hb31.2, ?_⟩
      · rw [nodeWF]
        refine ⟨by simp, by simp, by have := List.length_take_le 31 esc; omega, hc1, ?_⟩
        intro e he
        exact ⟨(hbounds e (List.mem_of_mem_take he)).1, by simpa [okHi] using hc3 e he⟩
      · rw [nodeWF]
        refine ⟨rfl, rfl, by have := List.length_drop 32 esc; omega, hc2, ?_⟩
        intro e he
        exact ⟨by simpa [okLo] using hc4 e he, (hbounds e (List.mem_of_mem_drop he)).2⟩
      · rw [toPairs_leaf, toPairs_leaf, toPairs_leaf]
        conv_lhs => rw [← hdecomp]
        simp
    | false =>
      simp only [Bool.false_eq_true, if_false]
      rw [nodeWF] at h
      obtain ⟨hle, hwf⟩ := h
      have h31 : 31 < esc.length := by omega
      obtain ⟨hs1, hs2, hs3⟩ := nodesWF_split chi esc csc clo 31 hwf h31
      have hb31 := nodesWF_entry_bounds esc csc clo chi hwf _ (getD_mem esc 31 h31)
      refine ⟨?_, ?_, hb31.1, hb31.2, ?_⟩
      · rw [nodeWF]
        exact ⟨by have := List.length_take_le 31 esc; omega, hs1⟩
      · rw [nodeWF]
        exact ⟨by have := List.length_drop 32 esc; omega, hs2⟩
      · rw [toPairs_internal, toPairs_internal, toPairs_internal]
        exact hs3


/-- Replacing child `c` by two halves around a promoted median entry
(what `btree_split_child` does to the parent) preserves the invariant and
the in-order list. -/
theorem weave_insert_seg {V : Type} (hi : Option Nat) :
    ∀ (es : List (BEntry V)) (cs : List (BNode V)) (lo : Option Nat) (c : Nat)
      (me : BEntry V) (low nn : BNode V),
      nodesWF lo hi es cs → c < cs.length →
      nodeWF (if c = 0 then lo else some ((es.getD (c - 1) noEnt)).key) (some me.key) low →
      nodeWF (some me.key) (if c < es.length then some ((es.getD c noEnt)).key else hi) nn →
      okLo (if c = 0 then lo else some ((es.getD (c - 1) noEnt)).key) me.key →
      okHi (if c < es.length then some ((es.getD c noEnt)).key else hi) me.key →
      toPairs (cs.getD c (BNode.fresh true)) = toPairs low ++ (me.key, me.val) :: toPairs nn →
      nodesWF lo hi (es.take c ++ me :: es.drop c)
        (cs.take c ++ low :: nn :: cs.drop (c + 1)) ∧
      weave ((cs.take c ++ low :: nn :: cs.drop (c + 1)).map toPairs)
          (es.take c ++ me :: es.drop c)
        = weave (cs.map toPairs) es := by
  intro es
  induction es with
  | nil =>
    intro cs lo c me low nn hwf hc hlow hnn hmlo hmhi htp
    match cs with
    | [] => rw [nodesWF] at hwf; exact absurd hwf (by simp)
    | [c0] =>
      have hc0 : c = 0 := by simp at hc; omega
      subst hc0
      rw [nodesWF] at hwf
      simp only [if_pos rfl, List.length_nil, Nat.lt_irrefl, if_neg (by omega : ¬(0:Nat) < 0),
        List.getD_cons_zero] at hlow hnn hmlo hmhi htp
      constructor
      · simp only [List.take_zero, List.drop_succ_cons, List.drop_zero, List.nil_append]
        rw [nodesWF]
        refine ⟨hmlo, hmhi, hlow, ?_⟩
        rw [nodesWF]
        exact hnn
      · simp only [List.take_zero, List.drop_succ_cons, List.drop_zero, List.nil_append,
          List.map_cons, List.map_nil, weave]
        rw [htp]
    | c0 :: c1 :: cs'' => rw [nodesWF] at hwf; exact absurd hwf (by simp)
  | cons e0 es' ih =>
    intro cs lo c me low nn hwf hc hlow hnn hmlo hmhi htp
    match cs with
    | [] => rw [nodesWF] at hwf; exact absurd hwf (by simp)
    | c0 :: cs' =>
      rw [nodesWF] at hwf
      obtain ⟨hlo0, hhi0, hc0, hrest⟩ := hwf
      cases c with
      | zero =>
        simp only [if_pos rfl, List.length_cons, Nat.succ_pos,
          if_pos (by omega : (0:Nat) < es'.length + 1), List.getD_cons_zero] at hlow hnn hmlo hmhi htp
        have hmhi' : me.key < e0.key := by simpa [okHi] using hmhi
        constructor
        · simp only [List.take_zero, List.drop_zero, List.nil_append]
          rw [nodesWF]
          refine ⟨hmlo, okHi_trans hhi0 hmhi', hlow, ?_⟩
          rw [nodesWF]
          exact ⟨by simpa [okLo] using hmhi', hhi0, hnn, hrest⟩
        · simp only [List.take_zero, List.drop_zero, List.nil_append, List.drop_succ_cons,
            List.map_cons, weave]
          rw [htp]
          simp
      | succ j =>
        have hjc : j < cs'.length := by simp at hc; omega
        have htr : (if j = 0 then some e0.key else some ((es'.getD (j - 1) noEnt)).key) =
            (if j + 1 = 0 then lo else some (((e0 :: es').getD (j + 1 - 1) noEnt)).key) := by
          cases j with
          | zero => simp
          | succ j' => simp
        have htr2 : (if j < es'.length then some ((es'.getD j noEnt)).key else hi) =
            (if j + 1 < (e0 :: es').length then some (((e0 :: es').getD (j + 1) noEnt)).key
             else hi) := by
          simp only [List.length_cons, Nat.add_lt_add_iff_right, List.getD_cons_succ]
        obtain ⟨ihWF, ihW⟩ :=
          ih cs' (some e0.key) j me low nn hrest hjc
            (by rw [htr]; exact hlow) (by rw [htr2]; exact hnn)
            (by rw [htr]; exact hmlo) (by rw [htr2]; exact hmhi)
            (by simpa using htp)
        constructor
        · simp only [List.take_succ_cons, List.drop_succ_cons, List.cons_append]
          rw [nodesWF]
          exact ⟨hlo0, hhi0, hc0, ihWF⟩
        · simp only [List.take_succ_cons, List.drop_succ_cons, List.cons_append,
            List.map_cons, weave, List.append_eq]
          rw [ihW]


theorem getD_lt_eq {V : Type} (es : List (BEntry V)) (j : Nat) (hj : j < es.length) :
    es.getD j noEnt = es[j] := by
  rw [List.getD_eq_getElem?_getD, List.getElem?_eq_getElem hj]
  rfl

theorem getD_mem_take {V : Type} (es : List (BEntry V)) (j c : Nat) (hj : j < c)
    (hc : c ≤ es.length) : es.getD j noEnt ∈ es.take c := by
  have hjl : j < es.length := by omega
  have hlt : j < (es.take c).length := by simp [List.length_take]; omega
  rw [getD_lt_eq es j hjl, ← List.getElem_take es (j := c) (i := j) (h := hlt)]
  exact List.getElem_mem _

theorem getD_mem_drop {V : Type} (es : List (BEntry V)) (j c : Nat) (hj : c ≤ j)
    (hjl : j < es.length) : es.getD j noEnt ∈ es.drop c := by
  have hlt : j - c < (es.drop c).length := by simp [List.length_drop]; omega
  have he : (es.drop c)[j - c] = es[j] := by
    rw [List.getElem_drop]
    congr 1
    omega
  rw [getD_lt_eq es j hjl, ← he]
  exact List.getElem_mem _

/-- The entry keys of a well-formed internal node are strictly
ascending. -/
theorem nodesWF_entries_chain {V : Type} :
    ∀ (es : List (BEntry V)) (cs : List (BNode V)) (lo hi : Option Nat),
      nodesWF lo hi es cs → ((es.map (fun e => e.key)).Chain' (· < ·)) := by
  intro es
  induction es with
  | nil => intro cs lo hi _; simp
  | cons e0 es' ih =>
    intro cs lo hi hwf
    match cs with
    | [] => rw [nodesWF] at hwf; exact absurd hwf (by simp)
    | c0 :: cs' =>
      rw [nodesWF] at hwf
      obtain ⟨_, _, _, hrest⟩ := hwf
      rw [List.map_cons, List.chain'_cons']
      refine ⟨?_, ih cs' (some e0.key) hi hrest⟩
      intro b hb
      have hbm : b ∈ es'.map (fun e => e.key) := List.mem_of_mem_head? hb
      obtain ⟨e, he, rfl⟩ := List.mem_map.mp hbm
      have := (nodesWF_entry_bounds es' cs' (some e0.key) hi hrest e he).1
      simpa [okLo] using this


theorem getD_node_lt {V : Type} (cs : List (BNode V)) (c : Nat) (hc : c < cs.length) :
    cs.getD c (BNode.fresh true) = cs[c] := by
  rw [List.getD_eq_getElem?_getD, List.getElem?_eq_getElem hc]
  rfl

/-- The split-then-update-in-place branch of `btree_insert_nonfull`:
after splitting the full child at `c`, the key is found in the parent
(it equals the promoted median), and its value slot is overwritten. -/
theorem insertNonfull_split_dup {V : Type} (k : Nat) (v : V) (lo hi : Option Nat)
    (es : List (BEntry V)) (cs : List (BNode V)) (d : Nat)
    (c : Nat) (me : BEntry V) (childLow nn : BNode V)
    (es' : List (BEntry V)) (cs' : List (BNode V)) (clbas' : List Nat) (i : Nat)
    (hnwf : nodesWF lo hi es cs) (hlen : es.length < 63)
    (hc : c < cs.length) (hfull : cs[c].entries.length = 63)
    (hcle : c ≤ es.length)
    (hme : me = cs[c].entries.getD 31 noEnt)
    (hlowdef : childLow = BNode.mk (cs[c].entries.take 31) (cs[c].children.take 32)
      (cs[c].childLbas.take 32) cs[c].isLeaf cs[c].diskLba true)
    (hnndef : nn = BNode.mk (cs[c].entries.drop 32)
      (if cs[c].isLeaf then [] else cs[c].children.drop 32)
      (if cs[c].isLeaf then [] else cs[c].childLbas.drop 32) cs[c].isLeaf 0 true)
    (hesdef : es' = es.take c ++ me :: es.drop c)
    (hcsdef : cs' = cs.take c ++ childLow :: nn :: cs.drop (c + 1))
    (hidef : i = if me.key < k then c + 1 else c)
    (hkey : (es'.getD i noEnt).key = k) :
    toPairs (BNode.mk (es'.set i ⟨k, some v, 0⟩) cs' clbas' false d true)
      = putA (weave (cs.map toPairs) es) k v ∧
    nodeWF lo hi (BNode.mk (es'.set i ⟨k, some v, 0⟩) cs' clbas' false d true) := by
  have hcb := nodesWF_child hi es cs lo hnwf c hc
  rw [getD_node_lt cs c hc] at hcb
  obtain ⟨hsp1, hsp2, hsp3, hsp4, hsp5⟩ :=
    childSplit_spec _ _ (cs[c]) hcb (by omega)
  rw [← hme] at hsp1 hsp2 hsp3 hsp4 hsp5
  rw [← hlowdef] at hsp1 hsp5
  rw [← hnndef] at hsp2 hsp5
  obtain ⟨hsegWF, hsegW⟩ :=
    weave_insert_seg hi es cs lo c me childLow nn hnwf hc hsp1 hsp2 hsp3 hsp4
      (by rw [getD_node_lt cs c hc]; exact hsp5)
  rw [← hesdef, ← hcsdef] at hsegWF hsegW
  have hlen' : es'.length = es.length + 1 := by
    rw [hesdef]
    simp [List.length_take, List.length_drop]
    omega
  have hilt : i < es'.length := by
    by_cases hmk : me.key < k
    · rw [hidef, if_pos hmk]
      by_contra hge
      have hout : es'.length ≤ c + 1 := by omega
      have : es'.getD (c + 1) noEnt = noEnt := List.getD_eq_default _ _ hout
      rw [hidef, if_pos hmk, this] at hkey
      simp only [noEnt] at hkey
      omega
    · rw [hidef, if_neg hmk]
      omega
  obtain ⟨xs, ys, hd1, hd2, hxs, hys⟩ :=
    weave_setEntry_decomp hi k es' cs' lo i hsegWF hilt hkey (some v) 0
  constructor
  · rw [toPairs_internal, hd2, ← hsegW, hd1, putA_append_lt xs _ k v hxs, putA, if_pos rfl]
  · rw [nodeWF]
    constructor
    · rw [List.length_set]
      omega
    · exact nodesWF_setEntry hi k es' cs' lo i hsegWF hilt hkey (some v) 0


/-- The split-then-descend branch of `btree_insert_nonfull`: after
splitting the full child at `c`, the insertion recurses into the half the
key belongs to. -/
theorem insertNonfull_split_descend {V : Type} (k : Nat) (v : V) (lo hi : Option Nat)
    (es : List (BEntry V)) (cs : List (BNode V)) (d : Nat)
    (c : Nat) (me : BEntry V) (childLow nn : BNode V)
    (es' : List (BEntry V)) (cs' : List (BNode V)) (clbas' : List Nat) (i : Nat)
    (target : BNode V)
    (hnwf : nodesWF lo hi es cs) (hlen : es.length < 63)
    (hklo : okLo lo k) (hkhi : okHi hi k)
    (hc : c < cs.length) (hfull : cs[c].entries.length = 63)
    (hcle : c ≤ es.length)
    (htake : ∀ e ∈ es.take c, e.key < k)
    (hdrop : ∀ e ∈ es.drop c, k < e.key)
    (hme : me = cs[c].entries.getD 31 noEnt)
    (hlowdef : childLow = BNode.mk (cs[c].entries.take 31) (cs[c].children.take 32)
      (cs[c].childLbas.take 32) cs[c].isLeaf cs[c].diskLba true)
    (hnndef : nn = BNode.mk (cs[c].entries.drop 32)
      (if cs[c].isLeaf then [] else cs[c].children.drop 32)
      (if cs[c].isLeaf then [] else cs[c].childLbas.drop 32) cs[c].isLeaf 0 true)
    (hesdef : es' = es.take c ++ me :: es.drop c)
    (hcsdef : cs' = cs.take c ++ childLow :: nn :: cs.drop (c + 1))
    (hidef : i = if me.key < k then c + 1 else c)
    (hne : ¬(es'.getD i noEnt).key = k)
    (htgt : target = if i = c then childLow else nn)
    (hIH : ∀ lo2 hi2 : Option Nat, nodeWF lo2 hi2 target → target.entries.length < 63 →
      okLo lo2 k → okHi hi2 k →
      toPairs (insertNonfull target k v) = putA (toPairs target) k v ∧
      nodeWF lo2 hi2 (insertNonfull target k v)) :
    toPairs (BNode.mk es' (cs'.set i (insertNonfull target k v)) clbas' false d true)
      = putA (weave (cs.map toPairs) es) k v ∧
    nodeWF lo hi (BNode.mk es' (cs'.set i (insertNonfull target k v)) clbas' false d true) := by
  have hcb := nodesWF_child hi es cs lo hnwf c hc
  rw [getD_node_lt cs c hc] at hcb
  obtain ⟨hsp1, hsp2, hsp3, hsp4, hsp5⟩ :=
    childSplit_spec _ _ (cs[c]) hcb (by omega)
  rw [← hme] at hsp1 hsp2 hsp3 hsp4 hsp5
  rw [← hlowdef] at hsp1 hsp5
  rw [← hnndef] at hsp2 hsp5
  obtain ⟨hsegWF, hsegW⟩ :=
    weave_insert_seg hi es cs lo c me childLow nn hnwf hc hsp1 hsp2 hsp3 hsp4
      (by rw [getD_node_lt cs c hc]; exact hsp5)
  rw [← hesdef, ← hcsdef] at hsegWF hsegW
  have hA : (es.take c).length = c := by simp [List.length_take]; omega
  have hB : (cs.take c).length = c := by simp [List.length_take]; omega
  have hlen' : es'.length = es.length + 1 := by
    rw [hesdef]
    simp [List.length_take, List.length_drop]
    omega
  have hcs'len : cs'.length = cs.length + 1 := by
    rw [hcsdef]
    simp [List.length_take, List.length_drop]
    omega
  have hgetc : es'.getD c noEnt = me := by
    rw [hesdef, List.getD_append_right (es.take c) _ noEnt c (by omega), hA]
    simp
  have hgetsucc : c < es.length → es'.getD (c + 1) noEnt = es.getD c noEnt := by
    intro hcl
    rw [hesdef, List.getD_append_right (es.take c) _ noEnt (c + 1) (by omega), hA]
    have h1 : c + 1 - c = 1 := by omega
    rw [h1, List.getD_cons_succ, List.getD_eq_getElem?_getD, List.getElem?_drop,
      Nat.add_zero, ← List.getD_eq_getElem?_getD]
  have hgetlt : ∀ j, j < c → es'.getD j noEnt = es.getD j noEnt := by
    intro j hj
    rw [hesdef, List.getD_append (es.take c) _ noEnt j (by omega),
      getD_lt_eq (es.take c) j (by omega), getD_lt_eq es j (by omega)]
    exact List.getElem_take es
  have hCgetc : cs'.getD c (BNode.fresh true) = childLow := by
    rw [hcsdef, List.getD_append_right (cs.take c) _ _ c (by omega), hB]
    simp
  have hCgetc1 : cs'.getD (c + 1) (BNode.fresh true) = nn := by
    rw [hcsdef, List.getD_append_right (cs.take c) _ _ (c + 1) (by omega), hB]
    have h1 : c + 1 - c = 1 := by omega
    rw [h1]
    simp
  have htk_c : es'.take c = es.take c := by
    rw [hesdef]
    have h := @List.take_append _ (es.take c) (me :: es.drop c) 0
    rw [hA] at h
    simpa using h
  have htk_c1 : es'.take (c + 1) = es.take c ++ [me] := by
    rw [hesdef]
    have h := @List.take_append _ (es.take c) (me :: es.drop c) 1
    rw [hA] at h
    simpa using h
  have hdr_c : es'.drop c = me :: es.drop c := by
    rw [hesdef]
    have h := @List.drop_append _ (es.take c) (me :: es.drop c) 0
    rw [hA] at h
    simpa using h
  have hdr_c1 : es'.drop (c + 1) = es.drop c := by
    rw [hesdef]
    have h := @List.drop_append _ (es.take c) (me :: es.drop c) 1
    rw [hA] at h
    simpa using h
  by_cases hmk : me.key < k
  · -- descend into the upper half `nn`
    have hieq : i = c + 1 := by rw [hidef, if_pos hmk]
    have htgt' : target = nn := by rw [htgt, hieq, if_neg (by omega)]
    rw [htgt'] at hIH ⊢
    have hkHiC : okHi (if c < es.length then some ((es.getD c noEnt)).key else hi) k := by
      by_cases hcl : c < es.length
      · rw [if_pos hcl]
        have hmem : es.getD c noEnt ∈ es.drop c := getD_mem_drop es c c le_rfl hcl
        simpa [okHi] using hdrop _ hmem
      · rw [if_neg hcl]
        exact hkhi
    have hnlen : nn.entries.length < 63 := by
      rw [hnndef]
      show (cs[c].entries.drop 32).length < 63
      rw [List.length_drop, hfull]
      omega
    obtain ⟨hT1, hT2⟩ := hIH (some me.key) _ hsp2 hnlen (by simpa [okLo] using hmk) hkHiC
    have htake' : ∀ e ∈ es'.take (c + 1), e.key < k := by
      intro e he
      rw [htk_c1] at he
      rcases List.mem_append.mp he with h1 | h2
      · exact htake e h1
      · rw [List.mem_singleton] at h2
        subst h2
        exact hmk
    have hdrop' : ∀ e ∈ es'.drop (c + 1), k < e.key := by
      intro e he
      rw [hdr_c1] at he
      exact hdrop e he
    obtain ⟨xs, ys, hq1, hq2, hqxs, hqys⟩ :=
      weave_child_decomp hi k es' cs' lo (c + 1) hsegWF (by omega) htake' hdrop'
        (insertNonfull nn k v)
    rw [hCgetc1] at hq1
    constructor
    · rw [toPairs_internal, hieq, hq2, ← hsegW, hq1,
        putA_append_lt xs _ k v hqxs, putA_append_gt (toPairs nn) ys k v hqys, hT1]
    · rw [nodeWF]
      refine ⟨by rw [hlen']; omega, ?_⟩
      rw [hieq]
      refine nodesWF_set_child hi es' cs' lo (c + 1) _ hsegWF (by omega) ?_
      rw [if_neg (Nat.succ_ne_zero c)]
      simp only [Nat.add_sub_cancel]
      rw [hgetc]
      by_cases hcl : c < es.length
      · rw [if_pos (by omega : c + 1 < es'.length), hgetsucc hcl]
        rw [if_pos hcl] at hT2
        exact hT2
      · rw [if_neg (by omega : ¬ c + 1 < es'.length)]
        rw [if_neg hcl] at hT2
        exact hT2
  · -- descend into the lower half `childLow`
    have hieq : i = c := by rw [hidef, if_neg hmk]
    have htgt' : target = childLow := by rw [htgt, hieq, if_pos rfl]
    rw [htgt'] at hIH ⊢
    rw [hieq] at hne
    rw [hgetc] at hne
    have hkltme : k < me.key := by omega
    have hkLoC : okLo (if c = 0 then lo else some ((es.getD (c - 1) noEnt)).key) k := by
      by_cases h0 : c = 0
      · rw [if_pos h0]
        exact hklo
      · rw [if_neg h0]
        have hmem : es.getD (c - 1) noEnt ∈ es.take c := getD_mem_take es (c - 1) c (by omega) hcle
        simpa [okLo] using htake _ hmem
    have hllen : childLow.entries.length < 63 := by
      rw [hlowdef]
      show (cs[c].entries.take 31).length < 63
      have := List.length_take_le 31 (cs[c].entries)
      omega
    obtain ⟨hT1, hT2⟩ := hIH _ (some me.key) hsp1 hllen hkLoC (by simpa [okHi] using hkltme)
    have htake' : ∀ e ∈ es'.take c, e.key < k := by
      intro e he
      rw [htk_c] at he
      exact htake e he
    have hdrop' : ∀ e ∈ es'.drop c, k < e.key := by
      intro e he
      rw [hdr_c] at he
      rcases List.mem_cons.mp he with rfl | h2
      · exact hkltme
      · exact hdrop e h2
    obtain ⟨xs, ys, hq1, hq2, hqxs, hqys⟩ :=
      weave_child_decomp hi k es' cs' lo c hsegWF (by omega) htake' hdrop'
        (insertNonfull childLow k v)
    rw [hCgetc] at hq1
    constructor
    · rw [toPairs_internal, hieq, hq2, ← hsegW, hq1,
        putA_append_lt xs _ k v hqxs, putA_append_gt (toPairs childLow) ys k v hqys, hT1]
    · rw [nodeWF]
      refine ⟨by rw [hlen']; omega, ?_⟩
      rw [hieq]
      refine nodesWF_set_child hi es' cs' lo c _ hsegWF (by omega) ?_
      rw [if_pos (by omega : c < es'.length), hgetc]
      by_cases h0 : c = 0
      · rw [if_pos h0]
        rw [h0, if_pos rfl] at hT2
        exact hT2
      · rw [if_neg h0, hgetlt (c - 1) (by omega)]
        rw [if_neg h0] at hT2
        exact hT2


theorem nodeWF_entries_le {V : Type} (lo hi : Option Nat) (n : BNode V)
    (h : nodeWF lo hi n) : n.entries.length ≤ 63 := by
  cases n with
  | mk es cs clbas lf d dt =>
    cases lf with
    | true =>
      rw [nodeWF] at h
      exact h.2.2.1
    | false =>
      rw [nodeWF] at h
      exact h.1

/-- `btree_insert_nonfull` on a non-full well-formed node whose bounds
admit the key: the in-order list is updated by `putA` and the invariant
is preserved. -/
theorem insertNonfull_spec {V : Type} :
    ∀ (n : BNode V) (k : Nat) (v : V) (lo hi : Option Nat),
      nodeWF lo hi n → n.entries.length < 63 → okLo lo k → okHi hi k →
      toPairs (insertNonfull n k v) = putA (toPairs n) k v ∧
      nodeWF lo hi (insertNonfull n k v) := by
  intro n k v
  induction n, k, v using insertNonfull.induct with
  | case1 es cs clbas d dirty k v =>
    intro lo hi hwf hlen hklo hkhi
    rw [nodeWF] at hwf
    obtain ⟨hcs, hclb, hle, hchain, hbounds⟩ := hwf
    subst hcs
    subst hclb
    have hpp := leafInsRev_putA k v es hchain
    have hpw : (es.map (fun e => (e.key, e.val))).Pairwise (fun p q => p.1 < q.1) := by
      rw [List.pairwise_map]
      have h2 := List.chain'_iff_pairwise.mp hchain
      rw [List.pairwise_map] at h2
      exact h2
    have hbounds' : ∀ p ∈ es.map (fun e => (e.key, e.val)), okLo lo p.1 ∧ okHi hi p.1 := by
      intro p hp
      obtain ⟨e, he, rfl⟩ := List.mem_map.mp hp
      exact hbounds e he
    obtain ⟨hP1, hP2⟩ :=
      putA_pairwise lo hi k v hklo hkhi (es.map (fun e => (e.key, e.val))) hpw hbounds'
    rw [insertNonfull.eq_1]
    constructor
    · rw [toPairs_leaf, toPairs_leaf]
      exact hpp
    · rw [nodeWF]
      refine ⟨rfl, rfl, ?_, ?_, ?_⟩
      · have h3 : ((leafInsRev k v es.reverse).reverse.map
            (fun e => (e.key, e.val))).length ≤ es.length + 1 := by
          rw [hpp]
          have := putA_length_le k v (es.map (fun e => (e.key, e.val)))
          simpa using this
        rw [List.length_map] at h3
        have hlen2 : es.length < 63 := hlen
        omega
      · have h4 : ((leafInsRev k v es.reverse).reverse.map
            (fun e => (e.key, e.val))).Pairwise (fun p q => p.1 < q.1) := by
          rw [hpp]
          exact hP1
        rw [List.pairwise_map] at h4
        rw [List.chain'_iff_pairwise, List.pairwise_map]
        exact h4
      · intro e he
        have h5 : (e.key, e.val) ∈ (leafInsRev k v es.reverse).reverse.map
            (fun e => (e.key, e.val)) := List.mem_map_of_mem _ he
        rw [hpp] at h5
        exact hP2 _ h5
  | case2 es cs clbas d dt k v upd hprobe =>
    intro lo hi hwf hlen hklo hkhi
    rw [nodeWF] at hwf
    obtain ⟨hle63, hnwf⟩ := hwf
    have hchain := nodesWF_entries_chain es cs lo hi hnwf
    obtain ⟨j, hjlt, hjkey, hupd⟩ := probeRev_inl_spec k v es hchain upd hprobe
    have hres : insertNonfull (BNode.mk es cs clbas false d dt) k v
        = BNode.mk upd.reverse cs clbas false d true := by
      rw [insertNonfull.eq_2, hprobe]
    rw [hres, hupd]
    obtain ⟨xs, ys, hd1, hd2, hxs, hys⟩ :=
      weave_setEntry_decomp hi k es cs lo j hnwf hjlt hjkey (some v) 0
    constructor
    · rw [toPairs_internal (es.set j ⟨k, some v, 0⟩) cs clbas d true,
        toPairs_internal es cs clbas d dt, hd2, hd1,
        putA_append_lt xs _ k v hxs, putA, if_pos rfl]
    · rw [nodeWF]
      constructor
      · rw [List.length_set]
        exact hle63
      · exact nodesWF_setEntry hi k es cs lo j hnwf hjlt hjkey (some v) 0
  | case3 es cs clbas d dt k v c hprobe hc hfull child me es2 i2 hkey =>
    intro lo hi hwf hlen hklo hkhi
    rw [nodeWF] at hwf
    obtain ⟨hle63, hnwf⟩ := hwf
    have hchain := nodesWF_entries_chain es cs lo hi hnwf
    obtain ⟨hcle, htakeB, hdropB⟩ := probeRev_inr_spec k v es hchain c hprobe
    have hkey2 : (((es.take c ++ (cs[c].entries.getD 31 noEnt) :: es.drop c)).getD (if (cs[c].entries.getD 31 noEnt).key < k then c + 1 else c) noEnt).key = k := hkey
    have hres : insertNonfull (BNode.mk es cs clbas false d dt) k v
        = BNode.mk (((es.take c ++ (cs[c].entries.getD 31 noEnt) :: es.drop c)).set (if (cs[c].entries.getD 31 noEnt).key < k then c + 1 else c) ⟨k, some v, 0⟩) (cs.take c ++ (BNode.mk (cs[c].entries.take 31) (cs[c].children.take 32) (cs[c].childLbas.take 32) cs[c].isLeaf cs[c].diskLba true) :: (BNode.mk (cs[c].entries.drop 32) (if cs[c].isLeaf then [] else cs[c].children.drop 32) (if cs[c].isLeaf then [] else cs[c].childLbas.drop 32) cs[c].isLeaf 0 true) :: cs.drop (c + 1)) (clbas.take (c + 1) ++ 0 :: clbas.drop (c + 1)) false d true := by
      rw [insertNonfull.eq_2, hprobe]
      simp only [dif_pos hc, dif_pos hfull, if_pos hkey2]
    rw [hres,
      show toPairs (BNode.mk es cs clbas false d dt) = weave (cs.map toPairs) es from
        toPairs_internal es cs clbas d dt]
    exact insertNonfull_split_dup k v lo hi es cs d c (cs[c].entries.getD 31 noEnt) (BNode.mk (cs[c].entries.take 31) (cs[c].children.take 32) (cs[c].childLbas.take 32) cs[c].isLeaf cs[c].diskLba true) (BNode.mk (cs[c].entries.drop 32) (if cs[c].isLeaf then [] else cs[c].children.drop 32) (if cs[c].isLeaf then [] else cs[c].childLbas.drop 32) cs[c].isLeaf 0 true) (es.take c ++ (cs[c].entries.getD 31 noEnt) :: es.drop c) (cs.take c ++ (BNode.mk (cs[c].entries.take 31) (cs[c].children.take 32) (cs[c].childLbas.take 32) cs[c].isLeaf cs[c].diskLba true) :: (BNode.mk (cs[c].entries.drop 32) (if cs[c].isLeaf then [] else cs[c].children.drop 32) (if cs[c].isLeaf then [] else cs[c].childLbas.drop 32) cs[c].isLeaf 0 true) :: cs.drop (c + 1)) (clbas.take (c + 1) ++ 0 :: clbas.drop (c + 1))
      (if (cs[c].entries.getD 31 noEnt).key < k then c + 1 else c) hnwf hlen hc hfull.1 hcle rfl rfl rfl rfl rfl rfl hkey2
  | case4 es cs clbas d dt k v c hprobe hc hfull child me childLow nn es2 i2 hne target ih =>
    intro lo hi hwf hlen hklo hkhi
    rw [nodeWF] at hwf
    obtain ⟨hle63, hnwf⟩ := hwf
    have hchain := nodesWF_entries_chain es cs lo hi hnwf
    obtain ⟨hcle, htakeB, hdropB⟩ := probeRev_inr_spec k v es hchain c hprobe
    have hne2 : ¬(((es.take c ++ (cs[c].entries.getD 31 noEnt) :: es.drop c)).getD (if (cs[c].entries.getD 31 noEnt).key < k then c + 1 else c) noEnt).key = k := hne
    have ih2 : ∀ lo2 hi2 : Option Nat, nodeWF lo2 hi2 (if (if (cs[c].entries.getD 31 noEnt).key < k then c + 1 else c) = c then (BNode.mk (cs[c].entries.take 31) (cs[c].children.take 32) (cs[c].childLbas.take 32) cs[c].isLeaf cs[c].diskLba true) else (BNode.mk (cs[c].entries.drop 32) (if cs[c].isLeaf then [] else cs[c].children.drop 32) (if cs[c].isLeaf then [] else cs[c].childLbas.drop 32) cs[c].isLeaf 0 true)) →
        ((if (if (cs[c].entries.getD 31 noEnt).key < k then c + 1 else c) = c then (BNode.mk (cs[c].entries.take 31) (cs[c].children.take 32) (cs[c].childLbas.take 32) cs[c].isLeaf cs[c].diskLba true) else (BNode.mk (cs[c].entries.drop 32) (if cs[c].isLeaf then [] else cs[c].children.drop 32) (if cs[c].isLeaf then [] else cs[c].childLbas.drop 32) cs[c].isLeaf 0 true))).entries.length < 63 → okLo lo2 k → okHi hi2 k →
        toPairs (insertNonfull (if (if (cs[c].entries.getD 31 noEnt).key < k then c + 1 else c) = c then (BNode.mk (cs[c].entries.take 31) (cs[c].children.take 32) (cs[c].childLbas.take 32) cs[c].isLeaf cs[c].diskLba true) else (BNode.mk (cs[c].entries.drop 32) (if cs[c].isLeaf then [] else cs[c].children.drop 32) (if cs[c].isLeaf then [] else cs[c].childLbas.drop 32) cs[c].isLeaf 0 true)) k v) = putA (toPairs (if (if (cs[c].entries.getD 31 noEnt).key < k then c + 1 else c) = c then (BNode.mk (cs[c].entries.take 31) (cs[c].children.take 32) (cs[c].childLbas.take 32) cs[c].isLeaf cs[c].diskLba true) else (BNode.mk (cs[c].entries.drop 32) (if cs[c].isLeaf then [] else cs[c].children.drop 32) (if cs[c].isLeaf then [] else cs[c].childLbas.drop 32) cs[c].isLeaf 0 true))) k v ∧
        nodeWF lo2 hi2 (insertNonfull (if (if (cs[c].entries.getD 31 noEnt).key < k then c + 1 else c) = c then (BNode.mk (cs[c].entries.take 31) (cs[c].children.take 32) (cs[c].childLbas.take 32) cs[c].isLeaf cs[c].diskLba true) else (BNode.mk (cs[c].entries.drop 32) (if cs[c].isLeaf then [] else cs[c].children.drop 32) (if cs[c].isLeaf then [] else cs[c].childLbas.drop 32) cs[c].isLeaf 0 true)) k v) := ih
    have hres : insertNonfull (BNode.mk es cs clbas false d dt) k v
        = BNode.mk (es.take c ++ (cs[c].entries.getD 31 noEnt) :: es.drop c) (((cs.take c ++ (BNode.mk (cs[c].entries.take 31) (cs[c].children.take 32) (cs[c].childLbas.take 32) cs[c].isLeaf cs[c].diskLba true) :: (BNode.mk (cs[c].entries.drop 32) (if cs[c].isLeaf then [] else cs[c].children.drop 32) (if cs[c].isLeaf then [] else cs[c].childLbas.drop 32) cs[c].isLeaf 0 true) :: cs.drop (c + 1))).set (if (cs[c].entries.getD 31 noEnt).key < k then c + 1 else c) (insertNonfull (if (if (cs[c].entries.getD 31 noEnt).key < k then c + 1 else c) = c then (BNode.mk (cs[c].entries.take 31) (cs[c].children.take 32) (cs[c].childLbas.take 32) cs[c].isLeaf cs[c].diskLba true) else (BNode.mk (cs[c].entries.drop 32) (if cs[c].isLeaf then [] else cs[c].children.drop 32) (if cs[c].isLeaf then [] else cs[c].childLbas.drop 32) cs[c].isLeaf 0 true)) k v)) (clbas.take (c + 1) ++ 0 :: clbas.drop (c + 1)) false d true := by
      rw [insertNonfull.eq_2, hprobe]
      simp only [dif_pos hc, dif_pos hfull, if_neg hne2]
    rw [hres,
      show toPairs (BNode.mk es cs clbas false d dt) = weave (cs.map toPairs) es from
        toPairs_internal es cs clbas d dt]
    exact insertNonfull_split_descend k v lo hi es cs d c (cs[c].entries.getD 31 noEnt) (BNode.mk (cs[c].entries.take 31) (cs[c].children.take 32) (cs[c].childLbas.take 32) cs[c].isLeaf cs[c].diskLba true) (BNode.mk (cs[c].entries.drop 32) (if cs[c].isLeaf then [] else cs[c].children.drop 32) (if cs[c].isLeaf then [] else cs[c].childLbas.drop 32) cs[c].isLeaf 0 true) (es.take c ++ (cs[c].entries.getD 31 noEnt) :: es.drop c) (cs.take c ++ (BNode.mk (cs[c].entries.take 31) (cs[c].children.take 32) (cs[c].childLbas.take 32) cs[c].isLeaf cs[c].diskLba true) :: (BNode.mk (cs[c].entries.drop 32) (if cs[c].isLeaf then [] else cs[c].children.drop 32) (if cs[c].isLeaf then [] else cs[c].childLbas.drop 32) cs[c].isLeaf 0 true) :: cs.drop (c + 1)) (clbas.take (c + 1) ++ 0 :: clbas.drop (c + 1))
      (if (cs[c].entries.getD 31 noEnt).key < k then c + 1 else c) (if (if (cs[c].entries.getD 31 noEnt).key < k then c + 1 else c) = c then (BNode.mk (cs[c].entries.take 31) (cs[c].children.take 32) (cs[c].childLbas.take 32) cs[c].isLeaf cs[c].diskLba true) else (BNode.mk (cs[c].entries.drop 32) (if cs[c].isLeaf then [] else cs[c].children.drop 32) (if cs[c].isLeaf then [] else cs[c].childLbas.drop 32) cs[c].isLeaf 0 true)) hnwf hlen hklo hkhi hc hfull.1 hcle htakeB hdropB
      rfl rfl rfl rfl rfl rfl hne2 rfl ih2
  | case5 es cs clbas d dt k v c hprobe hc hnotfull ih =>
    intro lo hi hwf hlen hklo hkhi
    rw [nodeWF] at hwf
    obtain ⟨hle63, hnwf⟩ := hwf
    have hchain := nodesWF_entries_chain es cs lo hi hnwf
    obtain ⟨hcle, htakeB, hdropB⟩ := probeRev_inr_spec k v es hchain c hprobe
    have hcb := nodesWF_child hi es cs lo hnwf c hc
    rw [getD_node_lt cs c hc] at hcb
    have hkLoC : okLo (if c = 0 then lo else some ((es.getD (c - 1) noEnt)).key) k := by
      by_cases h0 : c = 0
      · rw [if_pos h0]
        exact hklo
      · rw [if_neg h0]
        have hmem : es.getD (c - 1) noEnt ∈ es.take c := getD_mem_take es (c - 1) c (by omega) hcle
        simpa [okLo] using htakeB _ hmem
    have hkHiC : okHi (if c < es.length then some ((es.getD c noEnt)).key else hi) k := by
      by_cases hcl : c < es.length
      · rw [if_pos hcl]
        have hmem : es.getD c noEnt ∈ es.drop c := getD_mem_drop es c c le_rfl hcl
        simpa [okHi] using hdropB _ hmem
      · rw [if_neg hcl]
        exact hkhi
    have hclen : cs[c].entries.length < 63 := by
      have h1 := nodeWF_entries_le _ _ _ hcb
      rcases Nat.lt_or_ge (cs[c].entries.length) 63 with h | h
      · exact h
      · exact absurd ⟨by omega, hlen⟩ hnotfull
    obtain ⟨hT1, hT2⟩ := ih _ _ hcb hclen hkLoC hkHiC
    have hres : insertNonfull (BNode.mk es cs clbas false d dt) k v
        = BNode.mk es (cs.set c (insertNonfull cs[c] k v)) clbas false d dt := by
      rw [insertNonfull.eq_2, hprobe]
      simp only [dif_pos hc, dif_neg hnotfull]
    obtain ⟨xs, ys, hq1, hq2, hqxs, hqys⟩ :=
      weave_child_decomp hi k es cs lo c hnwf hc htakeB hdropB (insertNonfull cs[c] k v)
    rw [getD_node_lt cs c hc] at hq1
    constructor
    · rw [hres, toPairs_internal es (cs.set c (insertNonfull cs[c] k v)) clbas d dt,
        toPairs_internal es cs clbas d dt, hq2, hq1,
        putA_append_lt xs _ k v hqxs, putA_append_gt (toPairs cs[c]) ys k v hqys, hT1]
    · rw [hres, nodeWF]
      exact ⟨hle63, nodesWF_set_child hi es cs lo c _ hnwf hc hT2⟩
  | case6 es cs clbas d dt k v c hprobe hcn =>
    intro lo hi hwf hlen hklo hkhi
    rw [nodeWF] at hwf
    have hchain := nodesWF_entries_chain es cs lo hi hwf.2
    have hcle := (probeRev_inr_spec k v es hchain c hprobe).1
    have hlen2 := nodesWF_length es cs lo hi hwf.2
    exact absurd (by omega : c < cs.length) hcn


/-- `btree_insert` on a well-formed tree: the in-order list of the root is
updated by `putA`, well-formedness is preserved, the count is incremented
modulo 2^64 and 0 is returned. -/
theorem btree_insert_spec {V : Type} (t : Btree V) (k : Nat) (v : V) (ht : treeWF t) :
    toPairs (btree_insert t k v).1.root = putA (toPairs t.root) k v ∧
    treeWF (btree_insert t k v).1 ∧
    (btree_insert t k v).1.count = (t.count + 1) % 2 ^ 64 ∧
    (btree_insert t k v).2 = 0 := by
  have hrooteq : (btree_insert t k v).1.root =
      (if t.root.entries.length = 63 then (if k = ((splitChild (BNode.mk [] [t.root] [t.root.diskLba] false 0 true) 0).entries.getD 0 noEnt).key then BNode.mk ((splitChild (BNode.mk [] [t.root] [t.root.diskLba] false 0 true) 0).entries.set 0 ⟨((splitChild (BNode.mk [] [t.root] [t.root.diskLba] false 0 true) 0).entries.getD 0 noEnt).key, some v, ((splitChild (BNode.mk [] [t.root] [t.root.diskLba] false 0 true) 0).entries.getD 0 noEnt).vlba⟩) (splitChild (BNode.mk [] [t.root] [t.root.diskLba] false 0 true) 0).children (splitChild (BNode.mk [] [t.root] [t.root.diskLba] false 0 true) 0).childLbas (splitChild (BNode.mk [] [t.root] [t.root.diskLba] false 0 true) 0).isLeaf (splitChild (BNode.mk [] [t.root] [t.root.diskLba] false 0 true) 0).diskLba (splitChild (BNode.mk [] [t.root] [t.root.diskLba] false 0 true) 0).dirty else if h : (if ((splitChild (BNode.mk [] [t.root] [t.root.diskLba] false 0 true) 0).entries.getD 0 noEnt).key < k then 1 else 0) < (splitChild (BNode.mk [] [t.root] [t.root.diskLba] false 0 true) 0).children.length then BNode.mk (splitChild (BNode.mk [] [t.root] [t.root.diskLba] false 0 true) 0).entries ((splitChild (BNode.mk [] [t.root] [t.root.diskLba] false 0 true) 0).children.set (if ((splitChild (BNode.mk [] [t.root] [t.root.diskLba] false 0 true) 0).entries.getD 0 noEnt).key < k then 1 else 0) (insertNonfull ((splitChild (BNode.mk [] [t.root] [t.root.diskLba] false 0 true) 0).children[(if ((splitChild (BNode.mk [] [t.root] [t.root.diskLba] false 0 true) 0).entries.getD 0 noEnt).key < k then 1 else 0)]) k v)) (splitChild (BNode.mk [] [t.root] [t.root.diskLba] false 0 true) 0).childLbas (splitChild (BNode.mk [] [t.root] [t.root.diskLba] false 0 true) 0).isLeaf (splitChild (BNode.mk [] [t.root] [t.root.diskLba] false 0 true) 0).diskLba (splitChild (BNode.mk [] [t.root] [t.root.diskLba] false 0 true) 0).dirty else (splitChild (BNode.mk [] [t.root] [t.root.diskLba] false 0 true) 0)) else insertNonfull t.root k v) := rfl
  have hmain : toPairs ((btree_insert t k v).1.root) = putA (toPairs t.root) k v ∧
      nodeWF none none ((btree_insert t k v).1.root) := by
    by_cases hfull : t.root.entries.length = 63
    · have h32 : 32 ≤ t.root.entries.length := by omega
      obtain ⟨hsp1, hsp2, hsp3, hsp4, hsp5⟩ := childSplit_spec none none t.root ht h32
      have hnr1 : (splitChild (BNode.mk [] [t.root] [t.root.diskLba] false 0 true) 0) = (BNode.mk [(t.root.entries.getD 31 noEnt)] [(BNode.mk (t.root.entries.take 31) (t.root.children.take 32) (t.root.childLbas.take 32) t.root.isLeaf t.root.diskLba true), (BNode.mk (t.root.entries.drop 32) (if t.root.isLeaf then [] else t.root.children.drop 32) (if t.root.isLeaf then [] else t.root.childLbas.drop 32) t.root.isLeaf 0 true)] [t.root.diskLba, 0] false 0 true) := by
        rw [splitChild]
        rw [if_neg (by simp : ¬ (63 ≤ ([] : List (BEntry V)).length))]
        rw [dif_pos (by simp : (0 : Nat) < ([t.root] : List (BNode V)).length)]
        simp only [List.getElem_cons_zero]
        rw [if_pos h32]
        rfl
      have haccE : ((BNode.mk [(t.root.entries.getD 31 noEnt)] [(BNode.mk (t.root.entries.take 31) (t.root.children.take 32) (t.root.childLbas.take 32) t.root.isLeaf t.root.diskLba true), (BNode.mk (t.root.entries.drop 32) (if t.root.isLeaf then [] else t.root.children.drop 32) (if t.root.isLeaf then [] else t.root.childLbas.drop 32) t.root.isLeaf 0 true)] [t.root.diskLba, 0] false 0 true)).entries = [(t.root.entries.getD 31 noEnt)] := rfl
      have haccC : ((BNode.mk [(t.root.entries.getD 31 noEnt)] [(BNode.mk (t.root.entries.take 31) (t.root.children.take 32) (t.root.childLbas.take 32) t.root.isLeaf t.root.diskLba true), (BNode.mk (t.root.entries.drop 32) (if t.root.isLeaf then [] else t.root.children.drop 32) (if t.root.isLeaf then [] else t.root.childLbas.drop 32) t.root.isLeaf 0 true)] [t.root.diskLba, 0] false 0 true)).children = [(BNode.mk (t.root.entries.take 31) (t.root.children.take 32) (t.root.childLbas.take 32) t.root.isLeaf t.root.diskLba true), (BNode.mk (t.root.entries.drop 32) (if t.root.isLeaf then [] else t.root.children.drop 32) (if t.root.isLeaf then [] else t.root.childLbas.drop 32) t.root.isLeaf 0 true)] := rfl
      have haccL : ((BNode.mk [(t.root.entries.getD 31 noEnt)] [(BNode.mk (t.root.entries.take 31) (t.root.children.take 32) (t.root.childLbas.take 32) t.root.isLeaf t.root.diskLba true), (BNode.mk (t.root.entries.drop 32) (if t.root.isLeaf then [] else t.root.children.drop 32) (if t.root.isLeaf then [] else t.root.childLbas.drop 32) t.root.isLeaf 0 true)] [t.root.diskLba, 0] false 0 true)).childLbas = [t.root.diskLba, 0] := rfl
      have haccF : ((BNode.mk [(t.root.entries.getD 31 noEnt)] [(BNode.mk (t.root.entries.take 31) (t.root.children.take 32) (t.root.childLbas.take 32) t.root.isLeaf t.root.diskLba true), (BNode.mk (t.root.entries.drop 32) (if t.root.isLeaf then [] else t.root.children.drop 32) (if t.root.isLeaf then [] else t.root.childLbas.drop 32) t.root.isLeaf 0 true)] [t.root.diskLba, 0] false 0 true)).isLeaf = false := rfl
      have haccD : ((BNode.mk [(t.root.entries.getD 31 noEnt)] [(BNode.mk (t.root.entries.take 31) (t.root.children.take 32) (t.root.childLbas.take 32) t.root.isLeaf t.root.diskLba true), (BNode.mk (t.root.entries.drop 32) (if t.root.isLeaf then [] else t.root.children.drop 32) (if t.root.isLeaf then [] else t.root.childLbas.drop 32) t.root.isLeaf 0 true)] [t.root.diskLba, 0] false 0 true)).diskLba = 0 := rfl
      have haccT : ((BNode.mk [(t.root.entries.getD 31 noEnt)] [(BNode.mk (t.root.entries.take 31) (t.root.children.take 32) (t.root.childLbas.take 32) t.root.isLeaf t.root.diskLba true), (BNode.mk (t.root.entries.drop 32) (if t.root.isLeaf then [] else t.root.children.drop 32) (if t.root.isLeaf then [] else t.root.childLbas.drop 32) t.root.isLeaf 0 true)] [t.root.diskLba, 0] false 0 true)).dirty = true := rfl
      have hLowB : ∀ p ∈ toPairs (BNode.mk (t.root.entries.take 31) (t.root.children.take 32) (t.root.childLbas.take 32) t.root.isLeaf t.root.diskLba true), p.1 < ((t.root.entries.getD 31 noEnt)).key := by
        intro p hp
        have := ((toPairs_pairwise (BNode.mk (t.root.entries.take 31) (t.root.children.take 32) (t.root.childLbas.take 32) t.root.isLeaf t.root.diskLba true) none (some (((t.root.entries.getD 31 noEnt)).key)) hsp1).2 p hp).2
        simpa [okHi] using this
      have hNNB : ∀ p ∈ toPairs (BNode.mk (t.root.entries.drop 32) (if t.root.isLeaf then [] else t.root.children.drop 32) (if t.root.isLeaf then [] else t.root.childLbas.drop 32) t.root.isLeaf 0 true), ((t.root.entries.getD 31 noEnt)).key < p.1 := by
        intro p hp
        have := ((toPairs_pairwise (BNode.mk (t.root.entries.drop 32) (if t.root.isLeaf then [] else t.root.children.drop 32) (if t.root.isLeaf then [] else t.root.childLbas.drop 32) t.root.isLeaf 0 true) (some (((t.root.entries.getD 31 noEnt)).key)) none hsp2).2 p hp).1
        simpa [okLo] using this
      have hLowLen : ((BNode.mk (t.root.entries.take 31) (t.root.children.take 32) (t.root.childLbas.take 32) t.root.isLeaf t.root.diskLba true)).entries.length < 63 := by
        show (t.root.entries.take 31).length < 63
        have := List.length_take_le 31 t.root.entries
        omega
      have hNNLen : ((BNode.mk (t.root.entries.drop 32) (if t.root.isLeaf then [] else t.root.children.drop 32) (if t.root.isLeaf then [] else t.root.childLbas.drop 32) t.root.isLeaf 0 true)).entries.length < 63 := by
        show (t.root.entries.drop 32).length < 63
        rw [List.length_drop, hfull]
        omega
      by_cases hke : k = ((t.root.entries.getD 31 noEnt)).key
      · have hroot2 : (btree_insert t k v).1.root =
            BNode.mk [(⟨((t.root.entries.getD 31 noEnt)).key, some v, ((t.root.entries.getD 31 noEnt)).vlba⟩ : BEntry V)] [(BNode.mk (t.root.entries.take 31) (t.root.children.take 32) (t.root.childLbas.take 32) t.root.isLeaf t.root.diskLba true), (BNode.mk (t.root.entries.drop 32) (if t.root.isLeaf then [] else t.root.children.drop 32) (if t.root.isLeaf then [] else t.root.childLbas.drop 32) t.root.isLeaf 0 true)]
              [t.root.diskLba, 0] false 0 true := by
          rw [hrooteq, if_pos hfull, hnr1, haccE, haccC, haccL, haccF, haccD, haccT,
            List.getD_cons_zero, if_pos hke]
          rfl
        have htpN : toPairs (BNode.mk [(⟨((t.root.entries.getD 31 noEnt)).key, some v, ((t.root.entries.getD 31 noEnt)).vlba⟩ : BEntry V)]
              [(BNode.mk (t.root.entries.take 31) (t.root.children.take 32) (t.root.childLbas.take 32) t.root.isLeaf t.root.diskLba true), (BNode.mk (t.root.entries.drop 32) (if t.root.isLeaf then [] else t.root.children.drop 32) (if t.root.isLeaf then [] else t.root.childLbas.drop 32) t.root.isLeaf 0 true)] [t.root.diskLba, 0] false 0 true)
            = toPairs (BNode.mk (t.root.entries.take 31) (t.root.children.take 32) (t.root.childLbas.take 32) t.root.isLeaf t.root.diskLba true) ++ (((t.root.entries.getD 31 noEnt)).key, some v) :: toPairs (BNode.mk (t.root.entries.drop 32) (if t.root.isLeaf then [] else t.root.children.drop 32) (if t.root.isLeaf then [] else t.root.childLbas.drop 32) t.root.isLeaf 0 true) := by
          rw [toPairs_internal]
          rfl
        constructor
        · rw [hroot2, htpN, hsp5,
            putA_append_lt (toPairs (BNode.mk (t.root.entries.take 31) (t.root.children.take 32) (t.root.childLbas.take 32) t.root.isLeaf t.root.diskLba true)) _ k v (fun p hp => by rw [hke]; exact hLowB p hp),
            putA, if_pos hke]
        · rw [hroot2, nodeWF]
          refine ⟨by simp, ?_⟩
          rw [nodesWF]
          refine ⟨trivial, trivial, hsp1, ?_⟩
          rw [nodesWF]
          exact hsp2
      · by_cases hmk : ((t.root.entries.getD 31 noEnt)).key < k
        · have hroot2 : (btree_insert t k v).1.root =
              BNode.mk [(t.root.entries.getD 31 noEnt)] [(BNode.mk (t.root.entries.take 31) (t.root.children.take 32) (t.root.childLbas.take 32) t.root.isLeaf t.root.diskLba true), insertNonfull (BNode.mk (t.root.entries.drop 32) (if t.root.isLeaf then [] else t.root.children.drop 32) (if t.root.isLeaf then [] else t.root.childLbas.drop 32) t.root.isLeaf 0 true) k v] [t.root.diskLba, 0]
                false 0 true := by
            rw [hrooteq, if_pos hfull, hnr1, haccE, haccC, haccL, haccF, haccD, haccT,
              List.getD_cons_zero, if_neg hke, if_pos hmk,
              dif_pos (by simp : (1 : Nat) < ([(BNode.mk (t.root.entries.take 31) (t.root.children.take 32) (t.root.childLbas.take 32) t.root.isLeaf t.root.diskLba true), (BNode.mk (t.root.entries.drop 32) (if t.root.isLeaf then [] else t.root.children.drop 32) (if t.root.isLeaf then [] else t.root.childLbas.drop 32) t.root.isLeaf 0 true)] : List (BNode V)).length)]
            rfl
          obtain ⟨hT1, hT2⟩ := insertNonfull_spec (BNode.mk (t.root.entries.drop 32) (if t.root.isLeaf then [] else t.root.children.drop 32) (if t.root.isLeaf then [] else t.root.childLbas.drop 32) t.root.isLeaf 0 true) k v (some (((t.root.entries.getD 31 noEnt)).key)) none hsp2
            hNNLen (by simpa [okLo] using hmk) trivial
          have htpN : toPairs (BNode.mk [(t.root.entries.getD 31 noEnt)] [(BNode.mk (t.root.entries.take 31) (t.root.children.take 32) (t.root.childLbas.take 32) t.root.isLeaf t.root.diskLba true), insertNonfull (BNode.mk (t.root.entries.drop 32) (if t.root.isLeaf then [] else t.root.children.drop 32) (if t.root.isLeaf then [] else t.root.childLbas.drop 32) t.root.isLeaf 0 true) k v]
                [t.root.diskLba, 0] false 0 true)
              = toPairs (BNode.mk (t.root.entries.take 31) (t.root.children.take 32) (t.root.childLbas.take 32) t.root.isLeaf t.root.diskLba true) ++ (((t.root.entries.getD 31 noEnt)).key, ((t.root.entries.getD 31 noEnt)).val) :: toPairs (insertNonfull (BNode.mk (t.root.entries.drop 32) (if t.root.isLeaf then [] else t.root.children.drop 32) (if t.root.isLeaf then [] else t.root.childLbas.drop 32) t.root.isLeaf 0 true) k v) := by
            rw [toPairs_internal]
            rfl
          constructor
          · rw [hroot2, htpN, hT1, hsp5,
              putA_append_lt (toPairs (BNode.mk (t.root.entries.take 31) (t.root.children.take 32) (t.root.childLbas.take 32) t.root.isLeaf t.root.diskLba true)) _ k v (fun p hp => lt_trans (hLowB p hp) hmk),
              putA, if_neg (fun h => hke h), if_neg (by omega : ¬ k < ((t.root.entries.getD 31 noEnt)).key)]
          · rw [hroot2, nodeWF]
            refine ⟨by simp, ?_⟩
            rw [nodesWF]
            refine ⟨trivial, trivial, hsp1, ?_⟩
            rw [nodesWF]
            exact hT2
        · have hklt : k < ((t.root.entries.getD 31 noEnt)).key := by
            rcases Nat.lt_trichotomy k (((t.root.entries.getD 31 noEnt)).key) with h | h | h
            · exact h
            · exact absurd h hke
            · exact absurd h hmk
          have hroot2 : (btree_insert t k v).1.root =
              BNode.mk [(t.root.entries.getD 31 noEnt)] [insertNonfull (BNode.mk (t.root.entries.take 31) (t.root.children.take 32) (t.root.childLbas.take 32) t.root.isLeaf t.root.diskLba true) k v, (BNode.mk (t.root.entries.drop 32) (if t.root.isLeaf then [] else t.root.children.drop 32) (if t.root.isLeaf then [] else t.root.childLbas.drop 32) t.root.isLeaf 0 true)] [t.root.diskLba, 0]
                false 0 true := by
            rw [hrooteq, if_pos hfull, hnr1, haccE, haccC, haccL, haccF, haccD, haccT,
              List.getD_cons_zero, if_neg hke, if_neg hmk,
              dif_pos (by simp : (0 : Nat) < ([(BNode.mk (t.root.entries.take 31) (t.root.children.take 32) (t.root.childLbas.take 32) t.root.isLeaf t.root.diskLba true), (BNode.mk (t.root.entries.drop 32) (if t.root.isLeaf then [] else t.root.children.drop 32) (if t.root.isLeaf then [] else t.root.childLbas.drop 32) t.root.isLeaf 0 true)] : List (BNode V)).length)]
            rfl
          obtain ⟨hU1, hU2⟩ := insertNonfull_spec (BNode.mk (t.root.entries.take 31) (t.root.children.take 32) (t.root.childLbas.take 32) t.root.isLeaf t.root.diskLba true) k v none (some (((t.root.entries.getD 31 noEnt)).key)) hsp1
            hLowLen trivial (by simpa [okHi] using hklt)
          have htpN : toPairs (BNode.mk [(t.root.entries.getD 31 noEnt)] [insertNonfull (BNode.mk (t.root.entries.take 31) (t.root.children.take 32) (t.root.childLbas.take 32) t.root.isLeaf t.root.diskLba true) k v, (BNode.mk (t.root.entries.drop 32) (if t.root.isLeaf then [] else t.root.children.drop 32) (if t.root.isLeaf then [] else t.root.childLbas.drop 32) t.root.isLeaf 0 true)]
                [t.root.diskLba, 0] false 0 true)
              = toPairs (insertNonfull (BNode.mk (t.root.entries.take 31) (t.root.children.take 32) (t.root.childLbas.take 32) t.root.isLeaf t.root.diskLba true) k v) ++ (((t.root.entries.getD 31 noEnt)).key, ((t.root.entries.getD 31 noEnt)).val) :: toPairs (BNode.mk (t.root.entries.drop 32) (if t.root.isLeaf then [] else t.root.children.drop 32) (if t.root.isLeaf then [] else t.root.childLbas.drop 32) t.root.isLeaf 0 true) := by
            rw [toPairs_internal]
            rfl
          have hGt : ∀ p ∈ (((((t.root.entries.getD 31 noEnt)).key, ((t.root.entries.getD 31 noEnt)).val)) :: toPairs (BNode.mk (t.root.entries.drop 32) (if t.root.isLeaf then [] else t.root.children.drop 32) (if t.root.isLeaf then [] else t.root.childLbas.drop 32) t.root.isLeaf 0 true)), k < p.1 := by
            intro p hp
            rcases List.mem_cons.mp hp with rfl | hp2
            · exact hklt
            · exact lt_trans hklt (hNNB p hp2)
          constructor
          · rw [hroot2, htpN, hU1, hsp5, putA_append_gt (toPairs (BNode.mk (t.root.entries.take 31) (t.root.children.take 32) (t.root.childLbas.take 32) t.root.isLeaf t.root.diskLba true)) _ k v hGt]
          · rw [hroot2, nodeWF]
            refine ⟨by simp, ?_⟩
            rw [nodesWF]
            refine ⟨trivial, trivial, hU2, ?_⟩
            rw [nodesWF]
            exact hsp2
    · have hlt : t.root.entries.length < 63 := by
        have := nodeWF_entries_le none none t.root ht
        omega
      have hs := insertNonfull_spec t.root k v none none ht hlt trivial trivial
      rw [hrooteq, if_neg hfull]
      exact hs
  exact ⟨hmain.1, hmain.2, rfl, rfl⟩


/-! ## `btree_delete` -/

/-- The delete walk preserves the node invariant (leaf hit: entry removed;
internal hit: value slot tombstoned; miss: recurse). -/
theorem deleteNode_WF {V : Type} :
    ∀ (n : BNode V) (k : Nat) (lo hi : Option Nat), nodeWF lo hi n →
      nodeWF lo hi (deleteNode n k).1 := by
  intro n k
  induction n, k using deleteNode.induct with
  | case1 es cs clbas d dt key hhit =>
    intro lo hi hwf
    rw [deleteNode, if_pos hhit, if_pos rfl]
    show nodeWF lo hi (BNode.mk (es.take (entIdx key es) ++ es.drop (entIdx key es + 1))
      cs clbas true d true)
    rw [nodeWF] at hwf ⊢
    obtain ⟨hcs, hclb, hle, hchain, hbounds⟩ := hwf
    have hsub : (es.take (entIdx key es) ++ es.drop (entIdx key es + 1)).Sublist es := by
      conv_rhs => rw [← List.take_append_drop (entIdx key es) es]
      refine List.Sublist.append (List.Sublist.refl _) ?_
      have hdd : es.drop (entIdx key es + 1) = (es.drop (entIdx key es)).drop 1 := by
        rw [List.drop_drop]
      rw [hdd]
      exact List.drop_sublist 1 (es.drop (entIdx key es))
    refine ⟨hcs, hclb, ?_, ?_, ?_⟩
    · have := hsub.length_le
      omega
    · rw [List.chain'_iff_pairwise] at hchain ⊢
      exact List.Pairwise.sublist (List.Sublist.map _ hsub) hchain
    · intro e he
      exact hbounds e (hsub.subset he)
  | case2 es cs clbas isLf d dt key hhit hlf =>
    intro lo hi hwf
    have hlf2 : isLf = false := by cases isLf; rfl; exact absurd rfl hlf
    subst hlf2
    rw [deleteNode, if_pos hhit, if_neg (by simp)]
    show nodeWF lo hi (BNode.mk (es.set (entIdx key es) ⟨key, none, 0⟩) cs clbas false d true)
    rw [nodeWF] at hwf ⊢
    refine ⟨by rw [List.length_set]; exact hwf.1, ?_⟩
    exact nodesWF_setEntry hi key es cs lo (entIdx key es) hwf.2 hhit.1 hhit.2.symm none 0
  | case3 es cs clbas d dt key hhit =>
    intro lo hi hwf
    rw [deleteNode, if_neg hhit, if_pos rfl]
    exact hwf
  | case4 es cs clbas isLf d dt key hhit hlf hin ih =>
    intro lo hi hwf
    have hlf2 : isLf = false := by cases isLf; rfl; exact absurd rfl hlf
    subst hlf2
    rw [deleteNode, if_neg hhit, if_neg (by simp), dif_pos hin]
    show nodeWF lo hi (BNode.mk es
      (cs.set (entIdx key es) (deleteNode cs[entIdx key es] key).1) clbas false d dt)
    rw [nodeWF] at hwf ⊢
    obtain ⟨hle, hnwf⟩ := hwf
    have hchild := nodesWF_child hi es cs lo hnwf (entIdx key es) hin
    rw [getD_node_lt cs _ hin] at hchild
    exact ⟨hle, nodesWF_set_child hi es cs lo (entIdx key es) _ hnwf hin (ih _ _ hchild)⟩
  | case5 es cs clbas isLf d dt key hhit hlf hout =>
    intro lo hi hwf
    have hlf2 : isLf = false := by cases isLf; rfl; exact absurd rfl hlf
    subst hlf2
    rw [deleteNode, if_neg hhit, if_neg (by simp), dif_neg hout]
    exact hwf

/-- The delete walk reports `found` exactly when the key occurs in the
in-order list, value slot null or not. -/
theorem deleteNode_found {V : Type} :
    ∀ (n : BNode V) (k : Nat) (lo hi : Option Nat), nodeWF lo hi n →
      okLo lo k → okHi hi k →
      ((deleteNode n k).2 = true ↔ findA (toPairs n) k ≠ none) := by
  intro n k
  induction n, k using deleteNode.induct with
  | case1 es cs clbas d dt key hhit =>
    intro lo hi hwf hlo hhi
    rw [deleteNode, if_pos hhit, if_pos rfl]
    rw [nodeWF] at hwf
    rw [toPairs_leaf, (findA_entries_localize key es hwf.2.2.2.1).1 hhit]
    constructor
    · intro _
      simp
    · intro _
      rfl
  | case2 es cs clbas isLf d dt key hhit hlf =>
    intro lo hi hwf hlo hhi
    have hlf2 : isLf = false := by cases isLf; rfl; exact absurd rfl hlf
    subst hlf2
    rw [deleteNode, if_pos hhit, if_neg (by simp)]
    rw [nodeWF] at hwf
    rw [toPairs_internal, (findA_weave_localize hi key es cs lo hwf.2 hlo hhi).1 hhit]
    constructor
    · intro _
      simp
    · intro _
      rfl
  | case3 es cs clbas d dt key hhit =>
    intro lo hi hwf hlo hhi
    rw [deleteNode, if_neg hhit, if_pos rfl]
    rw [nodeWF] at hwf
    rw [toPairs_leaf, (findA_entries_localize key es hwf.2.2.2.1).2 hhit]
    constructor
    · intro h2
      simp at h2
    · intro hne
      exact absurd rfl hne
  | case4 es cs clbas isLf d dt key hhit hlf hin ih =>
    intro lo hi hwf hlo hhi
    have hlf2 : isLf = false := by cases isLf; rfl; exact absurd rfl hlf
    subst hlf2
    rw [deleteNode, if_neg hhit, if_neg (by simp), dif_pos hin]
    rw [nodeWF] at hwf
    have hchild := nodesWF_child hi es cs lo hwf.2 (entIdx key es) hin
    rw [getD_node_lt cs _ hin] at hchild
    have hklo : okLo (if entIdx key es = 0 then lo
        else some ((es.getD (entIdx key es - 1) noEnt)).key) key := by
      by_cases h0 : entIdx key es = 0
      · rw [if_pos h0]
        exact hlo
      · rw [if_neg h0]
        have := entIdx_before key es (entIdx key es - 1) (by omega)
        simpa [okLo] using this
    have hkhi : okHi (if entIdx key es < es.length
        then some ((es.getD (entIdx key es) noEnt)).key else hi) key := by
      by_cases h0 : entIdx key es < es.length
      · rw [if_pos h0]
        have h1 := entIdx_hit_ge key es h0
        have h2 : ¬ key = (es.getD (entIdx key es) noEnt).key := fun hh => hhit ⟨h0, hh⟩
        simp only [okHi]
        omega
      · rw [if_neg h0]
        exact hhi
    rw [toPairs_internal, (findA_weave_localize hi key es cs lo hwf.2 hlo hhi).2 hhit,
      getD_node_lt cs _ hin]
    exact ih _ _ hchild hklo hkhi
  | case5 es cs clbas isLf d dt key hhit hlf hout =>
    intro lo hi hwf hlo hhi
    have hlf2 : isLf = false := by cases isLf; rfl; exact absurd rfl hlf
    subst hlf2
    rw [nodeWF] at hwf
    have hlen := nodesWF_length es cs lo hi hwf.2
    have := entIdx_le_length key es
    exact absurd (by omega) hout

theorem mem_keysOf_iff_findA {V : Type} (l : List (Nat × Option V)) (k : Nat) :
    k ∈ keysOf l ↔ findA l k ≠ none := by
  constructor
  · intro h
    obtain ⟨p, hp, hfst⟩ := List.mem_map.mp h
    have hpm : (k, p.2) ∈ l := by
      cases p
      cases hfst
      exact hp
    obtain ⟨w', hw⟩ := mem_findA hpm
    rw [hw]
    simp
  · intro h
    cases hf : findA l k with
    | none => exact absurd hf h
    | some w => exact List.mem_map.mpr ⟨(k, w), findA_mem hf, rfl⟩

/-- `btree_delete`: the invariant is preserved; 0 is returned and the
count decremented (u64 wrap) exactly when the key is structurally
present; otherwise −1 is returned and the count kept. -/
theorem btree_delete_spec {V : Type} (t : Btree V) (k : Nat) (ht : treeWF t) :
    treeWF (btree_delete t k).1 ∧
    ((btree_delete t k).2 = 0 ↔ k ∈ keysOf (toPairs t.root)) ∧
    ((btree_delete t k).2 = 0 →
      (btree_delete t k).1.count = (t.count + (2 ^ 64 - 1)) % 2 ^ 64) ∧
    (¬ k ∈ keysOf (toPairs t.root) →
      (btree_delete t k).2 = -1 ∧ (btree_delete t k).1.count = t.count) := by
  have hWF := deleteNode_WF t.root k none none ht
  have hfound := deleteNode_found t.root k none none ht trivial trivial
  have hmem := mem_keysOf_iff_findA (toPairs t.root) k
  by_cases hf : (deleteNode t.root k).2 = true
  · have h0 : btree_delete t k =
        ({ root := (deleteNode t.root k).1,
           count := (t.count + (2 ^ 64 - 1)) % 2 ^ 64, tableId := t.tableId }, 0) := by
      simp only [btree_delete]
      rw [if_pos hf]
    rw [h0]
    refine ⟨hWF, ?_, fun _ => rfl, ?_⟩
    · constructor
      · intro _
        exact hmem.mpr (hfound.mp hf)
      · intro _
        rfl
    · intro hnot
      exact absurd (hmem.mpr (hfound.mp hf)) hnot
  · have h0 : btree_delete t k =
        ({ root := (deleteNode t.root k).1, count := t.count, tableId := t.tableId }, -1) := by
      simp only [btree_delete]
      rw [if_neg hf]
    rw [h0]
    have hnotmem : ¬ k ∈ keysOf (toPairs t.root) := by
      intro hk
      exact hf (hfound.mpr (hmem.mp hk))
    refine ⟨hWF, ?_, ?_, fun _ => ⟨rfl, rfl⟩⟩
    · constructor
      · intro h2
        exact absurd (show (-1 : Int) = 0 from h2) (by norm_num)
      · intro hk
        exact absurd hk hnotmem
    · intro h2
      exact absurd (show (-1 : Int) = 0 from h2) (by norm_num)


/-! ## Codec lemmas: little-endian, XOR, CBC, PKCS#7 -/

theorem leBytes_length (w v : Nat) : (leBytes w v).length = w := by
  simp [leBytes]

theorem leBytes_succ (w v : Nat) :
    leBytes (w + 1) v = v % 256 :: leBytes w (v / 256) := by
  rw [leBytes, List.range_succ_eq_map, List.map_cons, List.map_map]
  refine congrArg₂ _ (by norm_num) ?_
  rw [leBytes]
  refine List.map_congr_left ?_
  intro i _
  simp only [Function.comp_apply]
  rw [Nat.pow_succ']
  rw [Nat.div_div_eq_div_mul, Nat.mul_comm]

theorem leDec_leBytes (w v : Nat) (h : v < 256 ^ w) : leDec (leBytes w v) = v := by
  induction w generalizing v with
  | zero =>
    rw [leBytes]
    simp only [List.range_zero, List.map_nil, leDec, List.foldr_nil]
    omega
  | succ w ih =>
    rw [leBytes_succ]
    have hlt : v / 256 < 256 ^ w := by
      rw [Nat.div_lt_iff_lt_mul (by omega)]
      calc v < 256 ^ (w + 1) := h
        _ = 256 ^ w * 256 := by rw [Nat.pow_succ]
    rw [leDec, List.foldr_cons, ← leDec, ih (v / 256) hlt]
    omega

theorem xorBytes_cancel : ∀ (a b : List Nat), a.length = b.length →
    xorBytes (xorBytes a b) b = a := by
  intro a
  induction a with
  | nil => intro b _; simp [xorBytes]
  | cons x a ih =>
    intro b hb
    cases b with
    | nil => simp at hb
    | cons y b =>
      simp only [xorBytes, List.zipWith_cons_cons]
      rw [Nat.xor_cancel_right]
      refine congrArg _ ?_
      exact ih b (by simpa using hb)

theorem xorBytes_length (a b : List Nat) :
    (xorBytes a b).length = min a.length b.length := by
  simp [xorBytes]

theorem cbcEnc_length (E : List Nat → List Nat)
    (hE : ∀ b, b.length = 16 → (E b).length = 16) :
    ∀ (prev pt : List Nat), prev.length = 16 → pt.length % 16 = 0 →
      (cbcEnc E prev pt).length = pt.length := by
  intro prev pt
  induction prev, pt using cbcEnc.induct E with
  | case1 prev =>
    intro hprev hmod
    rw [cbcEnc]
    simp
  | case2 prev pt hne c ih =>
    intro hprev hmod
    rw [cbcEnc, if_neg hne]
    have hge : 16 ≤ pt.length := by
      rcases Nat.lt_or_ge pt.length 16 with h | h
      · interval_cases hpt : pt.length
        · exact absurd (List.length_eq_zero.mp hpt) hne
        all_goals omega
      · exact h
    have htk : (pt.take 16).length = 16 := by
      rw [List.length_take]
      omega
    have hxl : (xorBytes (pt.take 16) prev).length = 16 := by
      rw [xorBytes_length, htk, hprev]
      simp
    have hcl : (E (xorBytes (pt.take 16) prev)).length = 16 := hE _ hxl
    rw [List.length_append, hcl]
    rw [ih hcl (by rw [List.length_drop]; omega)]
    rw [List.length_drop]
    omega
  

theorem cbcDec_cbcEnc (E D : List Nat → List Nat)
    (hInv : ∀ b, b.length = 16 → D (E b) = b)
    (hE : ∀ b, b.length = 16 → (E b).length = 16) :
    ∀ (prev pt : List Nat), prev.length = 16 → pt.length % 16 = 0 →
      cbcDec D prev (cbcEnc E prev pt) = pt := by
  intro prev pt
  induction prev, pt using cbcEnc.induct E with
  | case1 prev =>
    intro hprev hmod
    rw [cbcEnc]
    simp [cbcDec]
  | case2 prev pt hne c ih =>
    intro hprev hmod
    rw [cbcEnc, if_neg hne]
    have hge : 16 ≤ pt.length := by
      rcases Nat.lt_or_ge pt.length 16 with h | h
      · interval_cases hpt : pt.length
        · exact absurd (List.length_eq_zero.mp hpt) hne
        all_goals omega
      · exact h
    have htk : (pt.take 16).length = 16 := by
      rw [List.length_take]
      omega
    have hxl : (xorBytes (pt.take 16) prev).length = 16 := by
      rw [xorBytes_length, htk, hprev]
      simp
    have hcl : (E (xorBytes (pt.take 16) prev)).length = 16 := hE _ hxl
    have hcne : E (xorBytes (pt.take 16) prev) ++
        cbcEnc E (E (xorBytes (pt.take 16) prev)) (pt.drop 16) ≠ [] := by
      intro hh
      have := congrArg List.length hh
      rw [List.length_append, hcl] at this
      simp at this
    rw [cbcDec, if_neg hcne]
    have htk2 : (E (xorBytes (pt.take 16) prev) ++
        cbcEnc E (E (xorBytes (pt.take 16) prev)) (pt.drop 16)).take 16
        = E (xorBytes (pt.take 16) prev) := by
      rw [List.take_append_of_le_length (by omega), List.take_of_length_le (by omega)]
    have hdr2 : (E (xorBytes (pt.take 16) prev) ++
        cbcEnc E (E (xorBytes (pt.take 16) prev)) (pt.drop 16)).drop 16
        = cbcEnc E (E (xorBytes (pt.take 16) prev)) (pt.drop 16) := by
      have h := List.drop_left (E (xorBytes (List.take 16 pt) prev))
        (cbcEnc E (E (xorBytes (List.take 16 pt) prev)) (List.drop 16 pt))
      rw [hcl] at h
      exact h
    rw [htk2, hdr2, hInv _ hxl, xorBytes_cancel _ _ (by rw [htk, hprev]),
      ih hcl (by rw [List.length_drop]; omega), List.take_append_drop]

theorem aes_pkcs7_pad_length (l : List Nat) :
    (aes_pkcs7_pad l).length = aes_padded_size l.length := by
  rw [aes_pkcs7_pad, aes_padded_size, List.length_append, List.length_replicate]

theorem aes_padded_size_mod (n : Nat) : aes_padded_size n % 16 = 0 := by
  rw [aes_padded_size]
  omega

theorem aes_pkcs7_unpad_pad (l : List Nat) :
    aes_pkcs7_unpad (aes_pkcs7_pad l) = l.length := by
  obtain ⟨j, hj⟩ : ∃ j, 16 - l.length % 16 = j + 1 := ⟨16 - l.length % 16 - 1, by omega⟩
  have hj16 : j + 1 ≤ 16 := by omega
  rw [aes_pkcs7_pad, aes_pkcs7_unpad, hj, List.replicate_succ', ← List.append_assoc,
    List.getLast?_concat]
  dsimp only
  rw [if_neg (by omega : ¬(j + 1 = 0 ∨ 16 < j + 1))]
  have hlen : (l ++ List.replicate j (j + 1) ++ [j + 1]).length = l.length + (j + 1) := by
    simp [List.length_append, List.length_replicate]
  rw [hlen]
  have hsub : l.length + (j + 1) - (j + 1) = l.length := by omega
  rw [hsub, List.append_assoc, List.drop_left]
  have hall : (List.replicate j (j + 1) ++ [j + 1]).all (fun b => decide (b = j + 1)) = true := by
    rw [List.all_append]
    simp [List.all_replicate]
  rw [if_pos hall]


/-! ## Record codec round trip -/

theorem decField_encField (f : FieldValue) (hf : f.Valid) (rest : List Nat) :
    decField (encField f ++ rest) = some (f, rest) := by
  cases f with
  | u8 v =>
    show some (FieldValue.u8 (v % 256), rest) = some (FieldValue.u8 v, rest)
    rw [Nat.mod_eq_of_lt (show v < 256 from hf)]
  | u32 v =>
    show (if (4 : Nat) ≤ (leBytes 4 v ++ rest).length then
        some (FieldValue.u32 (leDec ((leBytes 4 v ++ rest).take 4)), (leBytes 4 v ++ rest).drop 4)
      else none) = some (FieldValue.u32 v, rest)
    rw [if_pos (by rw [List.length_append, leBytes_length]; omega)]
    have htk := List.take_left (leBytes 4 v) rest
    have hdr := List.drop_left (leBytes 4 v) rest
    rw [leBytes_length] at htk hdr
    rw [htk, hdr, leDec_leBytes 4 v (by have : (2:Nat) ^ 32 = 256 ^ 4 := by norm_num
                                        rw [← this]; exact hf)]
  | u64 v =>
    show (if (8 : Nat) ≤ (leBytes 8 v ++ rest).length then
        some (FieldValue.u64 (leDec ((leBytes 8 v ++ rest).take 8)), (leBytes 8 v ++ rest).drop 8)
      else none) = some (FieldValue.u64 v, rest)
    rw [if_pos (by rw [List.length_append, leBytes_length]; omega)]
    have htk := List.take_left (leBytes 8 v) rest
    have hdr := List.drop_left (leBytes 8 v) rest
    rw [leBytes_length] at htk hdr
    rw [htk, hdr, leDec_leBytes 8 v (by have : (2:Nat) ^ 64 = 256 ^ 8 := by norm_num
                                        rw [← this]; exact hf)]
  | i64 v =>
    obtain ⟨hlo, hhi⟩ := hf
    show (if (8 : Nat) ≤ (leBytes 8 (v % (2 ^ 64 : Int)).toNat ++ rest).length then
        some (FieldValue.i64
          (if leDec ((leBytes 8 (v % (2 ^ 64 : Int)).toNat ++ rest).take 8) < 2 ^ 63 then
            ((leDec ((leBytes 8 (v % (2 ^ 64 : Int)).toNat ++ rest).take 8) : Nat) : Int)
          else ((leDec ((leBytes 8 (v % (2 ^ 64 : Int)).toNat ++ rest).take 8) : Nat) : Int) - 2 ^ 64),
          (leBytes 8 (v % (2 ^ 64 : Int)).toNat ++ rest).drop 8)
      else none) = some (FieldValue.i64 v, rest)
    rw [if_pos (by rw [List.length_append, leBytes_length]; omega)]
    have htk := List.take_left (leBytes 8 (v % (2 ^ 64 : Int)).toNat) rest
    have hdr := List.drop_left (leBytes 8 (v % (2 ^ 64 : Int)).toNat) rest
    rw [leBytes_length] at htk hdr
    have hm : (v % (2 ^ 64 : Int)).toNat < 2 ^ 64 := by omega
    rw [htk, hdr, leDec_leBytes 8 _ (by have : (2:Nat) ^ 64 = 256 ^ 8 := by norm_num
                                        rw [← this]; exact hm)]
    rcases Int.le_or_lt 0 v with hpos | hneg
    · have hmod : v % (2 ^ 64 : Int) = v := Int.emod_eq_of_lt hpos (by omega)
      rw [hmod, if_pos (by omega)]
      refine congrArg _ (congrArg₂ _ (congrArg _ ?_) rfl)
      omega
    · have hmod : v % (2 ^ 64 : Int) = v + 2 ^ 64 := by omega
      rw [hmod, if_neg (by omega)]
      refine congrArg _ (congrArg₂ _ (congrArg _ ?_) rfl)
      omega
  | bool v =>
    cases v with
    | true =>
      show some (FieldValue.bool (decide ((1 : Nat) ≠ 0)), rest)
          = some (FieldValue.bool true, rest)
      rfl
    | false =>
      show some (FieldValue.bool (decide ((0 : Nat) ≠ 0)), rest)
          = some (FieldValue.bool false, rest)
      rfl
  | str t =>
    obtain ⟨hlen, _⟩ := hf
    show (if (2 : Nat) ≤ ((leBytes 2 t.length ++ t) ++ rest).length then
        (if leDec ((((leBytes 2 t.length ++ t) ++ rest)).take 2)
            ≤ ((((leBytes 2 t.length ++ t) ++ rest)).drop 2).length then
          some (FieldValue.str (((((leBytes 2 t.length ++ t) ++ rest)).drop 2).take
              (leDec ((((leBytes 2 t.length ++ t) ++ rest)).take 2))),
            ((((leBytes 2 t.length ++ t) ++ rest)).drop 2).drop
              (leDec ((((leBytes 2 t.length ++ t) ++ rest)).take 2)))
        else none)
      else none) = some (FieldValue.str t, rest)
    rw [List.append_assoc]
    have htk := List.take_left (leBytes 2 t.length) (t ++ rest)
    have hdr := List.drop_left (leBytes 2 t.length) (t ++ rest)
    rw [leBytes_length] at htk hdr
    have hv : leDec (leBytes 2 t.length) = t.length := by
      refine leDec_leBytes 2 _ ?_
      have : MAX_STR_LEN < 256 ^ 2 := by norm_num [MAX_STR_LEN]
      omega
    rw [if_pos (by rw [List.length_append, leBytes_length]; omega), htk, hdr, hv]
    rw [if_pos (by rw [List.length_append]; omega)]
    have htk2 := List.take_left t rest
    have hdr2 := List.drop_left t rest
    rw [htk2, hdr2]
  | blob b =>
    obtain ⟨hlen, _⟩ := hf
    show (if (4 : Nat) ≤ ((leBytes 4 b.length ++ b) ++ rest).length then
        (if leDec ((((leBytes 4 b.length ++ b) ++ rest)).take 4)
            ≤ ((((leBytes 4 b.length ++ b) ++ rest)).drop 4).length then
          some (FieldValue.blob (((((leBytes 4 b.length ++ b) ++ rest)).drop 4).take
              (leDec ((((leBytes 4 b.length ++ b) ++ rest)).take 4))),
            ((((leBytes 4 b.length ++ b) ++ rest)).drop 4).drop
              (leDec ((((leBytes 4 b.length ++ b) ++ rest)).take 4)))
        else none)
      else none) = some (FieldValue.blob b, rest)
    rw [List.append_assoc]
    have htk := List.take_left (leBytes 4 b.length) (b ++ rest)
    have hdr := List.drop_left (leBytes 4 b.length) (b ++ rest)
    rw [leBytes_length] at htk hdr
    have hv : leDec (leBytes 4 b.length) = b.length := by
      refine leDec_leBytes 4 _ ?_
      have : (2:Nat) ^ 32 = 256 ^ 4 := by norm_num
      omega
    rw [if_pos (by rw [List.length_append, leBytes_length]; omega), htk, hdr, hv]
    rw [if_pos (by rw [List.length_append]; omega)]
    have htk2 := List.take_left b rest
    have hdr2 := List.drop_left b rest
    rw [htk2, hdr2]


theorem decFields_encFields : ∀ (fs : List FieldValue), (∀ f ∈ fs, f.Valid) →
    ∀ rest, decFields fs.length ((fs.map encField).join ++ rest) = some (fs, rest) := by
  intro fs
  induction fs with
  | nil =>
    intro _ rest
    simp [decFields]
  | cons f fs ih =>
    intro hv rest
    have h1 := decField_encField f (hv f (by simp)) ((fs.map encField).join ++ rest)
    have h2 := ih (fun g hg => hv g (by simp [hg])) rest
    simp only [List.map_cons, List.join_cons, List.append_assoc, List.length_cons,
      decFields, h1, h2, Option.bind_eq_bind, Option.some_bind]
    rfl



theorem getD_opt_lt_eq {α : Type} (l : List (Option α)) (j : Nat) (hj : j < l.length) :
    l.getD j none = l[j] := by
  rw [List.getD_eq_getElem?_getD, List.getElem?_eq_getElem hj]
  rfl

theorem all_none_eq_replicate {α : Type} : ∀ (l : List (Option α)),
    (∀ i, l.getD i none = none) → l = List.replicate l.length none := by
  intro l
  induction l with
  | nil => intro _; simp
  | cons a l ih =>
    intro h
    have h0 := h 0
    simp only [List.getD_cons_zero] at h0
    subst h0
    rw [List.length_cons, List.replicate_succ]
    refine congrArg _ (ih ?_)
    intro i
    have := h (i + 1)
    simpa using this

theorem fields_decomp {α : Type} : ∀ (l : List (Option α)) (f : Nat), f ≤ l.length →
    (∀ i < f, ∃ v, l.getD i none = some v) →
    (∀ i, f ≤ i → l.getD i none = none) →
    ((l.take f).reduceOption).map some ++ List.replicate (l.length - f) none = l := by
  intro l
  induction l with
  | nil =>
    intro f hf _ _
    have : f = 0 := by simpa using hf
    subst this
    simp
  | cons a l ih =>
    intro f hf hs hn
    cases f with
    | zero =>
      simp only [List.take_zero, List.reduceOption_nil, List.map_nil, List.nil_append,
        Nat.sub_zero]
      exact (all_none_eq_replicate (a :: l) (fun i => hn i (by omega))).symm
    | succ f =>
      obtain ⟨v, hv⟩ := hs 0 (by omega)
      simp only [List.getD_cons_zero] at hv
      subst hv
      rw [List.take_succ_cons]
      simp only [List.reduceOption_cons_of_some, List.map_cons, List.cons_append,
        List.length_cons]
      have hsub : l.length + 1 - (f + 1) = l.length - f := by omega
      rw [hsub]
      refine congrArg _ (ih f (by simp at hf; omega) ?_ ?_)
      · intro i hi
        have := hs (i + 1) (by omega)
        simpa using this
      · intro i hi
        have := hn (i + 1) (by omega)
        simpa using this

theorem record_fields_valid (r : Record) (hr : r.Valid) :
    ∀ f ∈ (r.fields.take r.field_count).reduceOption, f.Valid := by
  intro f hf
  rw [List.reduceOption_mem_iff] at hf
  obtain ⟨i, hilt, hget⟩ := List.getElem_of_mem hf
  have hifc : i < r.field_count := by
    rw [List.length_take] at hilt
    omega
  have hgd : r.fields.getD i none = some f := by
    have hil : i < r.fields.length := by
      rw [List.length_take] at hilt
      omega
    rw [getD_opt_lt_eq r.fields i hil]
    rw [← List.getElem_take r.fields (j := r.field_count) (i := i) (h := hilt)]
    exact hget
  obtain ⟨v, hv, hvalid⟩ := hr.2.2.2.2.2.1 i hifc
  rw [hgd] at hv
  have : f = v := by injection hv
  rw [this]
  exact hvalid


/-- Deserialisation inverts serialisation on well-formed records. -/
theorem record_deserialize_serialize (r : Record) (hr : r.Valid) (bs : List Nat)
    (h : record_serialize r = some bs) :
    record_deserialize bs = some (r, bs.length) := by
  rw [record_serialize] at h
  by_cases hfc : ((r.fields.take r.field_count).reduceOption).length = r.field_count
  · rw [if_pos hfc] at h
    by_cases hsz : (leBytes 8 r.row_id ++ leBytes 4 r.table_id ++ leBytes 4 r.field_count ++
        (((r.fields.take r.field_count).reduceOption).map encField).join).length ≤ MAX_RECORD_SIZE
    · rw [if_pos hsz] at h
      have hbs : bs = leBytes 8 r.row_id ++ leBytes 4 r.table_id ++ leBytes 4 r.field_count ++
          (((r.fields.take r.field_count).reduceOption).map encField).join := by
        injection h with h2
        exact h2.symm
      subst hbs
      obtain ⟨h64, h32, hfcb, hflen, hfcle, hsome, hnone⟩ := hr
      rw [List.append_assoc, List.append_assoc]
      have hA := leBytes_length 8 r.row_id
      have hB := leBytes_length 4 r.table_id
      have hC := leBytes_length 4 r.field_count
      have hlen : (leBytes 8 r.row_id ++ (leBytes 4 r.table_id ++ (leBytes 4 r.field_count ++
          (((r.fields.take r.field_count).reduceOption).map encField).join))).length = 16 + ((((r.fields.take r.field_count).reduceOption).map encField).join).length := by
        simp only [List.length_append, hA, hB, hC]
        omega
      rw [record_deserialize, if_pos (by rw [hlen]; omega)]
      dsimp only
      have htk8 := List.take_left (leBytes 8 r.row_id)
        (leBytes 4 r.table_id ++ (leBytes 4 r.field_count ++ (((r.fields.take r.field_count).reduceOption).map encField).join))
      have hdr8 := List.drop_left (leBytes 8 r.row_id)
        (leBytes 4 r.table_id ++ (leBytes 4 r.field_count ++ (((r.fields.take r.field_count).reduceOption).map encField).join))
      rw [hA] at htk8 hdr8
      have hdrop12 : (leBytes 8 r.row_id ++ (leBytes 4 r.table_id ++ (leBytes 4 r.field_count ++
          (((r.fields.take r.field_count).reduceOption).map encField).join))).drop 12 = leBytes 4 r.field_count ++ (((r.fields.take r.field_count).reduceOption).map encField).join := by
        have h1 : (12 : Nat) = 8 + 4 := by omega
        rw [h1, ← List.drop_drop, hdr8]
        have h2 := List.drop_left (leBytes 4 r.table_id) (leBytes 4 r.field_count ++ (((r.fields.take r.field_count).reduceOption).map encField).join)
        rw [hB] at h2
        exact h2
      have hdrop16 : (leBytes 8 r.row_id ++ (leBytes 4 r.table_id ++ (leBytes 4 r.field_count ++
          (((r.fields.take r.field_count).reduceOption).map encField).join))).drop 16 = (((r.fields.take r.field_count).reduceOption).map encField).join := by
        have h1 : (16 : Nat) = 12 + 4 := by omega
        rw [h1, ← List.drop_drop, hdrop12]
        have h2 := List.drop_left (leBytes 4 r.field_count) ((((r.fields.take r.field_count).reduceOption).map encField).join)
        rw [hC] at h2
        exact h2
      rw [htk8, hdr8, hdrop12, hdrop16]
      have htk4 := List.take_left (leBytes 4 r.table_id) (leBytes 4 r.field_count ++ (((r.fields.take r.field_count).reduceOption).map encField).join)
      rw [hB] at htk4
      rw [htk4]
      have htkC := List.take_left (leBytes 4 r.field_count) ((((r.fields.take r.field_count).reduceOption).map encField).join)
      rw [hC] at htkC
      rw [htkC]
      rw [leDec_leBytes 8 r.row_id (by norm_num at h64 ⊢; omega),
        leDec_leBytes 4 r.table_id (by norm_num at h32 ⊢; omega),
        leDec_leBytes 4 r.field_count (by norm_num at hfcb ⊢; omega)]
      rw [if_pos hfcle]
      have hdec := decFields_encFields ((r.fields.take r.field_count).reduceOption)
        (record_fields_valid r ⟨h64, h32, hfcb, hflen, hfcle, hsome, hnone⟩) []
      rw [List.append_nil, hfc] at hdec
      rw [hdec]
      dsimp only
      rw [List.length_nil, Nat.sub_zero]
      have hfd := fields_decomp r.fields r.field_count (by omega)
        (fun i hi => (hsome i hi).imp (fun v hv => hv.1)) hnone
      rw [hflen] at hfd
      rw [hfd]
    · rw [if_neg hsz] at h
      simp at h
  · rw [if_neg hfc] at h
    simp at h

theorem record_serialize_ge_16 (r : Record) (bs : List Nat)
    (h : record_serialize r = some bs) : 16 ≤ bs.length := by
  rw [record_serialize] at h
  by_cases hfc : ((r.fields.take r.field_count).reduceOption).length = r.field_count
  · rw [if_pos hfc] at h
    by_cases hsz : (leBytes 8 r.row_id ++ leBytes 4 r.table_id ++ leBytes 4 r.field_count ++
        (((r.fields.take r.field_count).reduceOption).map encField).join).length
        ≤ MAX_RECORD_SIZE
    · rw [if_pos hsz] at h
      injection h with h2
      rw [← h2]
      simp only [List.length_append, leBytes_length]
      omega
    · rw [if_neg hsz] at h
      simp at h
  · rw [if_neg hfc] at h
    simp at h

/-- Searching right after inserting returns the inserted value. -/
theorem btree_insert_search {V : Type} (t : Btree V) (k : Nat) (v : V) (ht : treeWF t) :
    btree_search (btree_insert t k v).1 k = some v := by
  obtain ⟨h1, h2, _, _⟩ := btree_insert_spec t k v ht
  rw [btree_search, searchNode_eq_valAt (btree_insert t k v).1.root k none none h2
    trivial trivial, h1, valAt, findA_putA_self]
  rfl


/-- `db_insert_record` on a registered table with a well-formed record
succeeds, and `db_get_record` on the same row id then returns the very
record: the serialise → pad → encrypt → MAC pipeline composes with the
verify → decrypt → unpad → deserialise pipeline to the identity. -/
theorem db_insert_get (Ec Dc Hm : List Nat → List Nat → List Nat)
    (st : DbState) (tableId : Nat) (r : Record) (plain : List Nat)
    (aesKey macKey : List Nat) (tree : Btree EncRec)
    (hInv : ∀ b, b.length = 16 → Dc aesKey (Ec aesKey b) = b)
    (hElen : ∀ b, b.length = 16 → (Ec aesKey b).length = 16)
    (htid : tableId < st.tableCount)
    (hvalid : r.Valid)
    (hser : record_serialize r = some plain)
    (hsz : aes_padded_size plain.length ≤ MAX_RECORD_SIZE + 16)
    (haes : st.aesKeys[tableId]? = some aesKey)
    (hmac : st.macKeys[tableId]? = some macKey)
    (htree : st.trees[tableId]? = some tree)
    (htw : treeWF tree)
    (hiv : (st.rng.headD (List.replicate 16 0)).length = 16) :
    (db_insert_record Ec Hm st tableId r).1 = VOS_OK ∧
    db_get_record Dc Hm (db_insert_record Ec Hm st tableId r).2 tableId r.row_id
      = some r := by
  have hins : db_insert_record Ec Hm st tableId r = (VOS_OK, ({ st with rng := st.rng.tail, trees := st.trees.set tableId (btree_insert tree r.row_id ({ row_id := r.row_id, table_id := tableId, iv := (st.rng.headD (List.replicate 16 0)), mac := Hm macKey ((st.rng.headD (List.replicate 16 0)) ++ (cbcEnc (Ec aesKey) (st.rng.headD (List.replicate 16 0)) (aes_pkcs7_pad plain))), ciphertext := (cbcEnc (Ec aesKey) (st.rng.headD (List.replicate 16 0)) (aes_pkcs7_pad plain)), ciphertext_len := aes_padded_size plain.length } : EncRec)).1 } : DbState)) := by
    rw [db_insert_record, if_neg (by omega : ¬ st.tableCount ≤ tableId), hser]
    try dsimp only
    rw [if_neg (by omega : ¬ MAX_RECORD_SIZE + 16 < aes_padded_size plain.length)]
    try dsimp only
    rw [haes]
    try dsimp only
    rw [hmac]
    try dsimp only
    rw [htree]
  have hpadmod : ((aes_pkcs7_pad plain)).length % 16 = 0 := by
    rw [aes_pkcs7_pad_length]
    exact aes_padded_size_mod plain.length
  have hctlen : ((cbcEnc (Ec aesKey) (st.rng.headD (List.replicate 16 0)) (aes_pkcs7_pad plain))).length = aes_padded_size plain.length := by
    rw [cbcEnc_length (Ec aesKey) hElen (st.rng.headD (List.replicate 16 0)) (aes_pkcs7_pad plain) hiv hpadmod, aes_pkcs7_pad_length]
  have htkct : ((cbcEnc (Ec aesKey) (st.rng.headD (List.replicate 16 0)) (aes_pkcs7_pad plain))).take (aes_padded_size plain.length) = (cbcEnc (Ec aesKey) (st.rng.headD (List.replicate 16 0)) (aes_pkcs7_pad plain)) :=
    List.take_of_length_le (le_of_eq hctlen)
  have hdecpad : cbcDec (Dc aesKey) (st.rng.headD (List.replicate 16 0)) (cbcEnc (Ec aesKey) (st.rng.headD (List.replicate 16 0)) (aes_pkcs7_pad plain)) = (aes_pkcs7_pad plain) :=
    cbcDec_cbcEnc (Ec aesKey) (Dc aesKey) hInv hElen (st.rng.headD (List.replicate 16 0)) (aes_pkcs7_pad plain) hiv hpadmod
  have hlt : tableId < st.trees.length := (List.getElem?_eq_some.mp htree).1
  have hset : (st.trees.set tableId (btree_insert tree r.row_id ({ row_id := r.row_id, table_id := tableId, iv := (st.rng.headD (List.replicate 16 0)), mac := Hm macKey ((st.rng.headD (List.replicate 16 0)) ++ (cbcEnc (Ec aesKey) (st.rng.headD (List.replicate 16 0)) (aes_pkcs7_pad plain))), ciphertext := (cbcEnc (Ec aesKey) (st.rng.headD (List.replicate 16 0)) (aes_pkcs7_pad plain)), ciphertext_len := aes_padded_size plain.length } : EncRec)).1)[tableId]?
      = some (btree_insert tree r.row_id ({ row_id := r.row_id, table_id := tableId, iv := (st.rng.headD (List.replicate 16 0)), mac := Hm macKey ((st.rng.headD (List.replicate 16 0)) ++ (cbcEnc (Ec aesKey) (st.rng.headD (List.replicate 16 0)) (aes_pkcs7_pad plain))), ciphertext := (cbcEnc (Ec aesKey) (st.rng.headD (List.replicate 16 0)) (aes_pkcs7_pad plain)), ciphertext_len := aes_padded_size plain.length } : EncRec)).1 := by
    rw [List.getElem?_set_self', List.getElem?_eq_getElem hlt]
    rfl
  have hdec : db_decrypt_record Dc Hm ({ st with rng := st.rng.tail, trees := st.trees.set tableId (btree_insert tree r.row_id ({ row_id := r.row_id, table_id := tableId, iv := (st.rng.headD (List.replicate 16 0)), mac := Hm macKey ((st.rng.headD (List.replicate 16 0)) ++ (cbcEnc (Ec aesKey) (st.rng.headD (List.replicate 16 0)) (aes_pkcs7_pad plain))), ciphertext := (cbcEnc (Ec aesKey) (st.rng.headD (List.replicate 16 0)) (aes_pkcs7_pad plain)), ciphertext_len := aes_padded_size plain.length } : EncRec)).1 } : DbState) tableId (some ({ row_id := r.row_id, table_id := tableId, iv := (st.rng.headD (List.replicate 16 0)), mac := Hm macKey ((st.rng.headD (List.replicate 16 0)) ++ (cbcEnc (Ec aesKey) (st.rng.headD (List.replicate 16 0)) (aes_pkcs7_pad plain))), ciphertext := (cbcEnc (Ec aesKey) (st.rng.headD (List.replicate 16 0)) (aes_pkcs7_pad plain)), ciphertext_len := aes_padded_size plain.length } : EncRec))
      = (some r, List.replicate 32 0) := by
    rw [db_decrypt_record]
    try dsimp only
    rw [if_neg (by omega : ¬ st.tableCount ≤ tableId), hmac]
    try dsimp only
    rw [htkct]
    rw [if_neg (by simp [hmac_verify])]
    rw [if_neg (by omega : ¬ MAX_RECORD_SIZE + 16 < aes_padded_size plain.length), haes]
    try dsimp only
    rw [hdecpad, aes_pkcs7_unpad_pad]
    rw [if_neg (by have := record_serialize_ge_16 r plain hser; omega : ¬ plain.length = 0)]
    have htkp : ((aes_pkcs7_pad plain)).take plain.length = plain := by
      rw [aes_pkcs7_pad]
      exact List.take_left plain _
    rw [htkp, record_deserialize_serialize r hvalid plain hser]
  constructor
  · rw [hins]
  · rw [hins]
    show db_get_record Dc Hm ({ st with rng := st.rng.tail, trees := st.trees.set tableId (btree_insert tree r.row_id ({ row_id := r.row_id, table_id := tableId, iv := (st.rng.headD (List.replicate 16 0)), mac := Hm macKey ((st.rng.headD (List.replicate 16 0)) ++ (cbcEnc (Ec aesKey) (st.rng.headD (List.replicate 16 0)) (aes_pkcs7_pad plain))), ciphertext := (cbcEnc (Ec aesKey) (st.rng.headD (List.replicate 16 0)) (aes_pkcs7_pad plain)), ciphertext_len := aes_padded_size plain.length } : EncRec)).1 } : DbState) tableId r.row_id = some r
    rw [db_get_record]
    try dsimp only
    rw [if_neg (by omega : ¬ st.tableCount ≤ tableId), hset]
    try dsimp only
    rw [btree_insert_search tree r.row_id ({ row_id := r.row_id, table_id := tableId, iv := (st.rng.headD (List.replicate 16 0)), mac := Hm macKey ((st.rng.headD (List.replicate 16 0)) ++ (cbcEnc (Ec aesKey) (st.rng.headD (List.replicate 16 0)) (aes_pkcs7_pad plain))), ciphertext := (cbcEnc (Ec aesKey) (st.rng.headD (List.replicate 16 0)) (aes_pkcs7_pad plain)), ciphertext_len := aes_padded_size plain.length } : EncRec) htw]
    try dsimp only
    rw [hdec]


/-! # Claim theorems -/

theorem treeWF_init {V : Type} (tableId : Nat) : treeWF (btree_init (V := V) tableId) := by
  rw [treeWF, btree_init]
  show nodeWF none none (BNode.mk [] [] [] true 0 true)
  rw [nodeWF]
  refine ⟨rfl, rfl, by simp, by simp, by simp⟩

/-- Every tree reachable from `btree_init` by inserts and deletes
satisfies the structural/ordering invariant. -/
theorem Reachable_treeWF {V : Type} {t : Btree V} (h : Reachable t) : treeWF t := by
  induction h with
  | init tableId => exact treeWF_init tableId
  | insert k v _ ih => exact (btree_insert_spec _ k v ih).2.1
  | delete k _ ih => exact (btree_delete_spec _ k ih).1

/-- **C3.** For every tree reachable from `btree_init` by any sequence of
`btree_insert` / `btree_delete`, `btree_scan` folds the callback over
exactly the in-order pairs whose value slot is non-null, the key sequence
passed to the callback is strictly ascending, and the traversal only
reads the tree. -/
theorem C3_scan_ascending {V σ : Type} (t : Btree V) (h : Reachable t)
    (callback : Nat → V → σ → σ) (ctx : σ) :
    (((scanList t.root).map Prod.fst).Chain' (· < ·)) ∧
    scanList t.root
      = (toPairs t.root).filterMap (fun p => p.2.map (fun v => (p.1, v))) ∧
    btree_scan t callback ctx
      = (scanList t.root).foldl (fun acc p => callback p.1 p.2 acc) ctx := by
  refine ⟨?_, rfl, rfl⟩
  have hwf : nodeWF none none t.root := Reachable_treeWF h
  have hp := (toPairs_pairwise t.root none none hwf).1
  rw [List.chain'_iff_pairwise, scanList]
  refine List.Pairwise.map _ (fun a b hab => hab) ?_
  refine List.Pairwise.filterMap _ ?_ hp
  intro a b hab x hx y hy
  cases ha : a.2 with
  | none => rw [ha] at hx; simp at hx
  | some va =>
    cases hb : b.2 with
    | none => rw [hb] at hy; simp at hy
    | some vb =>
      rw [ha] at hx
      rw [hb] at hy
      simp only [Option.map_some', Option.mem_def, Option.some.injEq] at hx hy
      subst hx
      subst hy
      simpa using hab

/-- Witness for C3 on a concrete reachable tree (two inserts and a
delete from an empty tree). -/
theorem C3_scan_ascending_witness :
    (((scanList (btree_delete (btree_insert (btree_insert (btree_init (V := Nat) 0)
        5 50).1 2 20).1 5).1.root).map Prod.fst).Chain' (· < ·)) ∧
    scanList (btree_delete (btree_insert (btree_insert (btree_init (V := Nat) 0)
        5 50).1 2 20).1 5).1.root
      = (toPairs (btree_delete (btree_insert (btree_insert (btree_init (V := Nat) 0)
        5 50).1 2 20).1 5).1.root).filterMap (fun p => p.2.map (fun v => (p.1, v))) ∧
    btree_scan (btree_delete (btree_insert (btree_insert (btree_init (V := Nat) 0)
        5 50).1 2 20).1 5).1 (fun k _ acc => acc ++ [k]) ([] : List Nat)
      = (scanList (btree_delete (btree_insert (btree_insert (btree_init (V := Nat) 0)
        5 50).1 2 20).1 5).1.root).foldl (fun acc p => acc ++ [p.1]) [] :=
  C3_scan_ascending _
    (Reachable.delete 5 (Reachable.insert 2 20 (Reachable.insert 5 50 (Reachable.init 0))))
    _ _

/-- **C4.** Inserting an already-present key overwrites its stored value,
leaves the key list (hence the key multiset and the tree size) unchanged,
leaves every other binding unchanged, and still increments `tree.count`
(u64 wrap). -/
theorem C4_duplicate_insert {V : Type} (t : Btree V) (k : Nat) (v : V)
    (ht : treeWF t) (hmem : k ∈ keysOf (toPairs t.root)) :
    findA (toPairs (btree_insert t k v).1.root) k = some (some v) ∧
    keysOf (toPairs (btree_insert t k v).1.root) = keysOf (toPairs t.root) ∧
    (∀ j, j ≠ k → findA (toPairs (btree_insert t k v).1.root) j = findA (toPairs t.root) j) ∧
    (btree_insert t k v).1.count = (t.count + 1) % 2 ^ 64 := by
  obtain ⟨h1, _, h3, _⟩ := btree_insert_spec t k v ht
  have hsorted : (keysOf (toPairs t.root)).Chain' (· < ·) := by
    rw [List.chain'_iff_pairwise, keysOf]
    exact List.Pairwise.map _ (fun a b hab => hab) (toPairs_pairwise t.root none none ht).1
  refine ⟨?_, ?_, ?_, h3⟩
  · rw [h1]
    exact findA_putA_self _ k v
  · rw [h1]
    exact keysOf_putA_mem _ k v hsorted hmem
  · intro j hj
    rw [h1]
    exact findA_putA_ne _ k j v hj

/-- Witness for C4: overwrite key 5 in a two-key tree. -/
theorem C4_duplicate_insert_witness :
    (treeWF (btree_insert (btree_insert (btree_init (V := Nat) 0) 5 50).1 2 20).1 ∧
     5 ∈ keysOf (toPairs (btree_insert (btree_insert (btree_init (V := Nat) 0)
       5 50).1 2 20).1.root)) ∧
    findA (toPairs (btree_insert (btree_insert (btree_insert (btree_init (V := Nat) 0)
        5 50).1 2 20).1 5 99).1.root) 5 = some (some 99) ∧
    keysOf (toPairs (btree_insert (btree_insert (btree_insert (btree_init (V := Nat) 0)
        5 50).1 2 20).1 5 99).1.root)
      = keysOf (toPairs (btree_insert (btree_insert (btree_init (V := Nat) 0)
        5 50).1 2 20).1.root) ∧
    (∀ j, j ≠ 5 → findA (toPairs (btree_insert (btree_insert (btree_insert
        (btree_init (V := Nat) 0) 5 50).1 2 20).1 5 99).1.root) j
      = findA (toPairs (btree_insert (btree_insert (btree_init (V := Nat) 0)
        5 50).1 2 20).1.root) j) ∧
    (btree_insert (btree_insert (btree_insert (btree_init (V := Nat) 0)
        5 50).1 2 20).1 5 99).1.count
      = ((btree_insert (btree_insert (btree_init (V := Nat) 0) 5 50).1 2 20).1.count + 1)
        % 2 ^ 64 := by
  have hwf : treeWF (btree_insert (btree_insert (btree_init (V := Nat) 0) 5 50).1 2 20).1 :=
    Reachable_treeWF (Reachable.insert 2 20 (Reachable.insert 5 50 (Reachable.init 0)))
  have hmem : 5 ∈ keysOf (toPairs (btree_insert (btree_insert (btree_init (V := Nat) 0)
      5 50).1 2 20).1.root) := by
    have h1 := (btree_insert_spec (btree_insert (btree_init (V := Nat) 0) 5 50).1 2 20
      (Reachable_treeWF (Reachable.insert 5 50 (Reachable.init 0)))).1
    have h2 := (btree_insert_spec (btree_init (V := Nat) 0) 5 50
      (treeWF_init 0)).1
    rw [keysOf, h1, h2]
    have h0 : toPairs (btree_init (V := Nat) 0).root = [] := by
      show toPairs (BNode.mk [] [] [] true 0 true) = []
      rw [toPairs_leaf]
      rfl
    rw [h0]
    show 5 ∈ (putA (putA [] 5 50) 2 20).map Prod.fst
    rw [putA]
    show 5 ∈ (putA [(5, some 50)] 2 20).map Prod.fst
    rw [putA, if_neg (by omega), if_pos (by omega)]
    simp
  exact ⟨⟨hwf, hmem⟩, C4_duplicate_insert _ 5 99 hwf hmem⟩


/-- **C5.** Splitting the full child `i` (63 keys, `ch`) of a non-full
parent: the median entry (index 31) is promoted into the parent at
position `i`, the original child keeps its lower 31 keys (and lower 32
children), the new sibling receives the upper 31 keys (and, when the
child is internal and well-formed, 32 children), and the parent, the
split child and the new sibling all have their dirty flag set.  And
`btree_insert` on a tree whose root is full first creates a new internal
(non-leaf) root holding exactly the old root's median key, with two
children, before descending. -/
theorem C5_split_median {V : Type} (t : Btree V) (k : Nat) (v : V)
    (p ch : BNode V) (i : Nat) (clo chi : Option Nat)
    (hplen : p.entries.length < 63) (hi : i < p.children.length)
    (hgetch : p.children.getD i (BNode.fresh true) = ch)
    (hch : ch.entries.length = 63)
    (ht : treeWF t) (hroot : t.root.entries.length = 63) :
    splitChild p i = BNode.mk
      (p.entries.take i ++ ch.entries.getD 31 noEnt :: p.entries.drop i)
      (p.children.take i ++
        (BNode.mk (ch.entries.take 31) (ch.children.take 32)
          (ch.childLbas.take 32) ch.isLeaf ch.diskLba true) ::
        (BNode.mk (ch.entries.drop 32)
          (if ch.isLeaf then [] else ch.children.drop 32)
          (if ch.isLeaf then [] else ch.childLbas.drop 32) ch.isLeaf 0 true) ::
        p.children.drop (i + 1))
      (p.childLbas.take (i + 1) ++ 0 :: p.childLbas.drop (i + 1))
      p.isLeaf p.diskLba true ∧
    (ch.entries.take 31).length = 31 ∧
    (ch.entries.drop 32).length = 31 ∧
    (ch.isLeaf = false → nodeWF clo chi ch →
      (ch.children.take 32).length = 32 ∧ (ch.children.drop 32).length = 32) ∧
    (btree_insert t k v).1.root.isLeaf = false ∧
    (btree_insert t k v).1.root.dirty = true ∧
    ((btree_insert t k v).1.root.entries.map (fun e => e.key))
      = [(t.root.entries.getD 31 noEnt).key] ∧
    (btree_insert t k v).1.root.children.length = 2 := by
  have hsplit : splitChild p i = BNode.mk
      (p.entries.take i ++ ch.entries.getD 31 noEnt :: p.entries.drop i)
      (p.children.take i ++
        (BNode.mk (ch.entries.take 31) (ch.children.take 32)
          (ch.childLbas.take 32) ch.isLeaf ch.diskLba true) ::
        (BNode.mk (ch.entries.drop 32)
          (if ch.isLeaf then [] else ch.children.drop 32)
          (if ch.isLeaf then [] else ch.childLbas.drop 32) ch.isLeaf 0 true) ::
        p.children.drop (i + 1))
      (p.childLbas.take (i + 1) ++ 0 :: p.childLbas.drop (i + 1))
      p.isLeaf p.diskLba true := by
    cases p with
    | mk es cs clbas lf d dt =>
      have hi2 : i < cs.length := hi
      have hce : cs[i] = ch := by
        rw [← getD_node_lt cs i hi2]
        exact hgetch
      have hplen2 : es.length < 63 := hplen
      rw [splitChild]
      rw [if_neg (by omega : ¬ 63 ≤ es.length), dif_pos hi2, hce]
      rw [if_pos (by omega : 32 ≤ ch.entries.length)]
      rfl
  refine ⟨hsplit, by rw [List.length_take]; omega, by rw [List.length_drop]; omega,
    ?_, ?_⟩
  · intro hlf hwf
    cases hcs : ch with
    | mk ces ccs cclbas clf cd cdt =>
      rw [hcs] at hwf hlf hch
      have hlf2 : clf = false := hlf
      subst hlf2
      rw [nodeWF] at hwf
      have hch2 : ces.length = 63 := hch
      have hlen := nodesWF_length ces ccs clo chi hwf.2
      constructor
      · show (ccs.take 32).length = 32
        rw [List.length_take]
        omega
      · show (ccs.drop 32).length = 32
        rw [List.length_drop]
        omega
  · have h32 : 32 ≤ t.root.entries.length := by omega
    have hrooteq : (btree_insert t k v).1.root =
        (if t.root.entries.length = 63 then (if k = ((splitChild (BNode.mk [] [t.root] [t.root.diskLba] false 0 true) 0).entries.getD 0 noEnt).key then BNode.mk ((splitChild (BNode.mk [] [t.root] [t.root.diskLba] false 0 true) 0).entries.set 0 ⟨((splitChild (BNode.mk [] [t.root] [t.root.diskLba] false 0 true) 0).entries.getD 0 noEnt).key, some v, ((splitChild (BNode.mk [] [t.root] [t.root.diskLba] false 0 true) 0).entries.getD 0 noEnt).vlba⟩) (splitChild (BNode.mk [] [t.root] [t.root.diskLba] false 0 true) 0).children (splitChild (BNode.mk [] [t.root] [t.root.diskLba] false 0 true) 0).childLbas (splitChild (BNode.mk [] [t.root] [t.root.diskLba] false 0 true) 0).isLeaf (splitChild (BNode.mk [] [t.root] [t.root.diskLba] false 0 true) 0).diskLba (splitChild (BNode.mk [] [t.root] [t.root.diskLba] false 0 true) 0).dirty else if h : (if ((splitChild (BNode.mk [] [t.root] [t.root.diskLba] false 0 true) 0).entries.getD 0 noEnt).key < k then 1 else 0) < (splitChild (BNode.mk [] [t.root] [t.root.diskLba] false 0 true) 0).children.length then BNode.mk (splitChild (BNode.mk [] [t.root] [t.root.diskLba] false 0 true) 0).entries ((splitChild (BNode.mk [] [t.root] [t.root.diskLba] false 0 true) 0).children.set (if ((splitChild (BNode.mk [] [t.root] [t.root.diskLba] false 0 true) 0).entries.getD 0 noEnt).key < k then 1 else 0) (insertNonfull ((splitChild (BNode.mk [] [t.root] [t.root.diskLba] false 0 true) 0).children[(if ((splitChild (BNode.mk [] [t.root] [t.root.diskLba] false 0 true) 0).entries.getD 0 noEnt).key < k then 1 else 0)]) k v)) (splitChild (BNode.mk [] [t.root] [t.root.diskLba] false 0 true) 0).childLbas (splitChild (BNode.mk [] [t.root] [t.root.diskLba] false 0 true) 0).isLeaf (splitChild (BNode.mk [] [t.root] [t.root.diskLba] false 0 true) 0).diskLba (splitChild (BNode.mk [] [t.root] [t.root.diskLba] false 0 true) 0).dirty else (splitChild (BNode.mk [] [t.root] [t.root.diskLba] false 0 true) 0)) else insertNonfull t.root k v) := rfl
    have hnr1 : (splitChild (BNode.mk [] [t.root] [t.root.diskLba] false 0 true) 0) = (BNode.mk [(t.root.entries.getD 31 noEnt)] [(BNode.mk (t.root.entries.take 31) (t.root.children.take 32) (t.root.childLbas.take 32) t.root.isLeaf t.root.diskLba true), (BNode.mk (t.root.entries.drop 32) (if t.root.isLeaf then [] else t.root.children.drop 32) (if t.root.isLeaf then [] else t.root.childLbas.drop 32) t.root.isLeaf 0 true)] [t.root.diskLba, 0] false 0 true) := by
      rw [splitChild]
      rw [if_neg (by simp : ¬ (63 ≤ ([] : List (BEntry V)).length))]
      rw [dif_pos (by simp : (0 : Nat) < ([t.root] : List (BNode V)).length)]
      simp only [List.getElem_cons_zero]
      rw [if_pos h32]
      rfl
    have haccE : ((BNode.mk [(t.root.entries.getD 31 noEnt)] [(BNode.mk (t.root.entries.take 31) (t.root.children.take 32) (t.root.childLbas.take 32) t.root.isLeaf t.root.diskLba true), (BNode.mk (t.root.entries.drop 32) (if t.root.isLeaf then [] else t.root.children.drop 32) (if t.root.isLeaf then [] else t.root.childLbas.drop 32) t.root.isLeaf 0 true)] [t.root.diskLba, 0] false 0 true)).entries = [(t.root.entries.getD 31 noEnt)] := rfl
    have haccC : ((BNode.mk [(t.root.entries.getD 31 noEnt)] [(BNode.mk (t.root.entries.take 31) (t.root.children.take 32) (t.root.childLbas.take 32) t.root.isLeaf t.root.diskLba true), (BNode.mk (t.root.entries.drop 32) (if t.root.isLeaf then [] else t.root.children.drop 32) (if t.root.isLeaf then [] else t.root.childLbas.drop 32) t.root.isLeaf 0 true)] [t.root.diskLba, 0] false 0 true)).children = [(BNode.mk (t.root.entries.take 31) (t.root.children.take 32) (t.root.childLbas.take 32) t.root.isLeaf t.root.diskLba true), (BNode.mk (t.root.entries.drop 32) (if t.root.isLeaf then [] else t.root.children.drop 32) (if t.root.isLeaf then [] else t.root.childLbas.drop 32) t.root.isLeaf 0 true)] := rfl
    have haccL : ((BNode.mk [(t.root.entries.getD 31 noEnt)] [(BNode.mk (t.root.entries.take 31) (t.root.children.take 32) (t.root.childLbas.take 32) t.root.isLeaf t.root.diskLba true), (BNode.mk (t.root.entries.drop 32) (if t.root.isLeaf then [] else t.root.children.drop 32) (if t.root.isLeaf then [] else t.root.childLbas.drop 32) t.root.isLeaf 0 true)] [t.root.diskLba, 0] false 0 true)).childLbas = [t.root.diskLba, 0] := rfl
    have haccF : ((BNode.mk [(t.root.entries.getD 31 noEnt)] [(BNode.mk (t.root.entries.take 31) (t.root.children.take 32) (t.root.childLbas.take 32) t.root.isLeaf t.root.diskLba true), (BNode.mk (t.root.entries.drop 32) (if t.root.isLeaf then [] else t.root.children.drop 32) (if t.root.isLeaf then [] else t.root.childLbas.drop 32) t.root.isLeaf 0 true)] [t.root.diskLba, 0] false 0 true)).isLeaf = false := rfl
    have haccD : ((BNode.mk [(t.root.entries.getD 31 noEnt)] [(BNode.mk (t.root.entries.take 31) (t.root.children.take 32) (t.root.childLbas.take 32) t.root.isLeaf t.root.diskLba true), (BNode.mk (t.root.entries.drop 32) (if t.root.isLeaf then [] else t.root.children.drop 32) (if t.root.isLeaf then [] else t.root.childLbas.drop 32) t.root.isLeaf 0 true)] [t.root.diskLba, 0] false 0 true)).diskLba = 0 := rfl
    have haccT : ((BNode.mk [(t.root.entries.getD 31 noEnt)] [(BNode.mk (t.root.entries.take 31) (t.root.children.take 32) (t.root.childLbas.take 32) t.root.isLeaf t.root.diskLba true), (BNode.mk (t.root.entries.drop 32) (if t.root.isLeaf then [] else t.root.children.drop 32) (if t.root.isLeaf then [] else t.root.childLbas.drop 32) t.root.isLeaf 0 true)] [t.root.diskLba, 0] false 0 true)).dirty = true := rfl
    by_cases hke : k = ((t.root.entries.getD 31 noEnt)).key
    · have hroot2 : (btree_insert t k v).1.root =
          BNode.mk [(⟨((t.root.entries.getD 31 noEnt)).key, some v, ((t.root.entries.getD 31 noEnt)).vlba⟩ : BEntry V)] [(BNode.mk (t.root.entries.take 31) (t.root.children.take 32) (t.root.childLbas.take 32) t.root.isLeaf t.root.diskLba true), (BNode.mk (t.root.entries.drop 32) (if t.root.isLeaf then [] else t.root.children.drop 32) (if t.root.isLeaf then [] else t.root.childLbas.drop 32) t.root.isLeaf 0 true)]
            [t.root.diskLba, 0] false 0 true := by
        rw [hrooteq, if_pos hroot, hnr1, haccE, haccC, haccL, haccF, haccD, haccT,
          List.getD_cons_zero, if_pos hke]
        rfl
      rw [hroot2]
      exact ⟨rfl, rfl, rfl, rfl⟩
    · by_cases hmk : ((t.root.entries.getD 31 noEnt)).key < k
      · have hroot2 : (btree_insert t k v).1.root =
            BNode.mk [(t.root.entries.getD 31 noEnt)] [(BNode.mk (t.root.entries.take 31) (t.root.children.take 32) (t.root.childLbas.take 32) t.root.isLeaf t.root.diskLba true), insertNonfull (BNode.mk (t.root.entries.drop 32) (if t.root.isLeaf then [] else t.root.children.drop 32) (if t.root.isLeaf then [] else t.root.childLbas.drop 32) t.root.isLeaf 0 true) k v] [t.root.diskLba, 0]
              false 0 true := by
          rw [hrooteq, if_pos hroot, hnr1, haccE, haccC, haccL, haccF, haccD, haccT,
            List.getD_cons_zero, if_neg hke, if_pos hmk,
            dif_pos (by simp : (1 : Nat) < ([(BNode.mk (t.root.entries.take 31) (t.root.children.take 32) (t.root.childLbas.take 32) t.root.isLeaf t.root.diskLba true), (BNode.mk (t.root.entries.drop 32) (if t.root.isLeaf then [] else t.root.children.drop 32) (if t.root.isLeaf then [] else t.root.childLbas.drop 32) t.root.isLeaf 0 true)] : List (BNode V)).length)]
          rfl
        rw [hroot2]
        exact ⟨rfl, rfl, rfl, rfl⟩
      · have hroot2 : (btree_insert t k v).1.root =
            BNode.mk [(t.root.entries.getD 31 noEnt)] [insertNonfull (BNode.mk (t.root.entries.take 31) (t.root.children.take 32) (t.root.childLbas.take 32) t.root.isLeaf t.root.diskLba true) k v, (BNode.mk (t.root.entries.drop 32) (if t.root.isLeaf then [] else t.root.children.drop 32) (if t.root.isLeaf then [] else t.root.childLbas.drop 32) t.root.isLeaf 0 true)] [t.root.diskLba, 0]
              false 0 true := by
          rw [hrooteq, if_pos hroot, hnr1, haccE, haccC, haccL, haccF, haccD, haccT,
            List.getD_cons_zero, if_neg hke, if_neg hmk,
            dif_pos (by simp : (0 : Nat) < ([(BNode.mk (t.root.entries.take 31) (t.root.children.take 32) (t.root.childLbas.take 32) t.root.isLeaf t.root.diskLba true), (BNode.mk (t.root.entries.drop 32) (if t.root.isLeaf then [] else t.root.children.drop 32) (if t.root.isLeaf then [] else t.root.childLbas.drop 32) t.root.isLeaf 0 true)] : List (BNode V)).length)]
          rfl
        rw [hroot2]
        exact ⟨rfl, rfl, rfl, rfl⟩

/-- Witness for C5: a 63-key leaf root/child, split at median index 31. -/
theorem C5_split_median_witness :
    (((BNode.mk ([] : List (BEntry Nat)) [(BNode.mk ((List.range 63).map (fun j => (⟨j + 1, some (10 * (j + 1)), 0⟩ : BEntry Nat))) [] [] true 0 true)] [0] false 0 true)).entries.length < 63 ∧ ((BNode.mk ((List.range 63).map (fun j => (⟨j + 1, some (10 * (j + 1)), 0⟩ : BEntry Nat))) [] [] true 0 true)).entries.length = 63 ∧
     (({ root := (BNode.mk ((List.range 63).map (fun j => (⟨j + 1, some (10 * (j + 1)), 0⟩ : BEntry Nat))) [] [] true 0 true), count := 63, tableId := 0 } : Btree Nat)).root.entries.length = 63) ∧
    ((btree_insert ({ root := (BNode.mk ((List.range 63).map (fun j => (⟨j + 1, some (10 * (j + 1)), 0⟩ : BEntry Nat))) [] [] true 0 true), count := 63, tableId := 0 } : Btree Nat) 100 0).1.root.entries.map (fun e => e.key))
      = [((({ root := (BNode.mk ((List.range 63).map (fun j => (⟨j + 1, some (10 * (j + 1)), 0⟩ : BEntry Nat))) [] [] true 0 true), count := 63, tableId := 0 } : Btree Nat)).root.entries.getD 31 noEnt).key] ∧
    (btree_insert ({ root := (BNode.mk ((List.range 63).map (fun j => (⟨j + 1, some (10 * (j + 1)), 0⟩ : BEntry Nat))) [] [] true 0 true), count := 63, tableId := 0 } : Btree Nat) 100 0).1.root.children.length = 2 := by
  have ht : treeWF ({ root := (BNode.mk ((List.range 63).map (fun j => (⟨j + 1, some (10 * (j + 1)), 0⟩ : BEntry Nat))) [] [] true 0 true), count := 63, tableId := 0 } : Btree Nat) := by
    show nodeWF none none (BNode.mk ((List.range 63).map (fun j => (⟨j + 1, some (10 * (j + 1)), 0⟩ : BEntry Nat))) [] [] true 0 true)
    rw [nodeWF]
    refine ⟨rfl, rfl, by decide, by rw [List.chain'_iff_pairwise]; decide, ?_⟩
    intro e _
    exact ⟨trivial, trivial⟩
  have hmain := C5_split_median ({ root := (BNode.mk ((List.range 63).map (fun j => (⟨j + 1, some (10 * (j + 1)), 0⟩ : BEntry Nat))) [] [] true 0 true), count := 63, tableId := 0 } : Btree Nat) 100 0 (BNode.mk ([] : List (BEntry Nat)) [(BNode.mk ((List.range 63).map (fun j => (⟨j + 1, some (10 * (j + 1)), 0⟩ : BEntry Nat))) [] [] true 0 true)] [0] false 0 true) (BNode.mk ((List.range 63).map (fun j => (⟨j + 1, some (10 * (j + 1)), 0⟩ : BEntry Nat))) [] [] true 0 true) 0 none none
    (by decide) (by decide) rfl (by decide) ht (by decide)
  exact ⟨⟨by decide, by decide, by decide⟩, hmain.2.2.2.2.2.2.1, hmain.2.2.2.2.2.2.2⟩

/-- **C10.** `btree_delete` returns 0 and decrements the count exactly
when the key occurs structurally in the tree — whether or not its value
slot is null; in particular when the key survives a first delete (the
internal-node tombstone), a second delete of the same key returns 0 and
decrements the count again. -/
theorem C10_delete_count {V : Type} (t : Btree V) (k : Nat) (ht : treeWF t) :
    ((btree_delete t k).2 = 0 ↔ k ∈ keysOf (toPairs t.root)) ∧
    ((btree_delete t k).2 = 0 →
      (btree_delete t k).1.count = (t.count + (2 ^ 64 - 1)) % 2 ^ 64) ∧
    (¬ k ∈ keysOf (toPairs t.root) →
      (btree_delete t k).2 = -1 ∧ (btree_delete t k).1.count = t.count) ∧
    (k ∈ keysOf (toPairs (btree_delete t k).1.root) →
      (btree_delete (btree_delete t k).1 k).2 = 0 ∧
      (btree_delete (btree_delete t k).1 k).1.count
        = ((btree_delete t k).1.count + (2 ^ 64 - 1)) % 2 ^ 64) := by
  obtain ⟨hWF1, hiff1, hcnt1, hmiss1⟩ := btree_delete_spec t k ht
  obtain ⟨_, hiff2, hcnt2, _⟩ := btree_delete_spec (btree_delete t k).1 k hWF1
  exact ⟨hiff1, hcnt1, hmiss1,
    fun hm => ⟨hiff2.mpr hm, hcnt2 (hiff2.mpr hm)⟩⟩

/-- Witness for C10: key 5 sits in an internal node; the first delete
tombstones it (count 3 → 2), the second still finds the key (count
2 → 1). -/
theorem C10_delete_count_witness :
    treeWF ({ root := BNode.mk [⟨5, some 50, 0⟩] [BNode.mk [(⟨2, some 20, 0⟩ : BEntry Nat)] [] [] true 0 true, BNode.mk [(⟨9, some 90, 0⟩ : BEntry Nat)] [] [] true 0 true] [0, 0] false 0 true, count := 3, tableId := 0 } : Btree Nat) ∧
    (btree_delete ({ root := BNode.mk [⟨5, some 50, 0⟩] [BNode.mk [(⟨2, some 20, 0⟩ : BEntry Nat)] [] [] true 0 true, BNode.mk [(⟨9, some 90, 0⟩ : BEntry Nat)] [] [] true 0 true] [0, 0] false 0 true, count := 3, tableId := 0 } : Btree Nat) 5).2 = 0 ∧
    (btree_delete ({ root := BNode.mk [⟨5, some 50, 0⟩] [BNode.mk [(⟨2, some 20, 0⟩ : BEntry Nat)] [] [] true 0 true, BNode.mk [(⟨9, some 90, 0⟩ : BEntry Nat)] [] [] true 0 true] [0, 0] false 0 true, count := 3, tableId := 0 } : Btree Nat) 5).1.count = 2 ∧
    5 ∈ keysOf (toPairs (btree_delete ({ root := BNode.mk [⟨5, some 50, 0⟩] [BNode.mk [(⟨2, some 20, 0⟩ : BEntry Nat)] [] [] true 0 true, BNode.mk [(⟨9, some 90, 0⟩ : BEntry Nat)] [] [] true 0 true] [0, 0] false 0 true, count := 3, tableId := 0 } : Btree Nat) 5).1.root) ∧
    (btree_delete (btree_delete ({ root := BNode.mk [⟨5, some 50, 0⟩] [BNode.mk [(⟨2, some 20, 0⟩ : BEntry Nat)] [] [] true 0 true, BNode.mk [(⟨9, some 90, 0⟩ : BEntry Nat)] [] [] true 0 true] [0, 0] false 0 true, count := 3, tableId := 0 } : Btree Nat) 5).1 5).2 = 0 ∧
    (btree_delete (btree_delete ({ root := BNode.mk [⟨5, some 50, 0⟩] [BNode.mk [(⟨2, some 20, 0⟩ : BEntry Nat)] [] [] true 0 true, BNode.mk [(⟨9, some 90, 0⟩ : BEntry Nat)] [] [] true 0 true] [0, 0] false 0 true, count := 3, tableId := 0 } : Btree Nat) 5).1 5).1.count = 1 := by
  have ht : treeWF ({ root := BNode.mk [⟨5, some 50, 0⟩] [BNode.mk [(⟨2, some 20, 0⟩ : BEntry Nat)] [] [] true 0 true, BNode.mk [(⟨9, some 90, 0⟩ : BEntry Nat)] [] [] true 0 true] [0, 0] false 0 true, count := 3, tableId := 0 } : Btree Nat) := by
    show nodeWF none none (BNode.mk [⟨5, some 50, 0⟩]
      [BNode.mk [(⟨2, some 20, 0⟩ : BEntry Nat)] [] [] true 0 true,
       BNode.mk [(⟨9, some 90, 0⟩ : BEntry Nat)] [] [] true 0 true] [0, 0] false 0 true)
    rw [nodeWF]
    refine ⟨by decide, ?_⟩
    rw [nodesWF]
    refine ⟨trivial, trivial, ?_, ?_⟩
    · rw [nodeWF]
      refine ⟨rfl, rfl, by decide, by rw [List.chain'_iff_pairwise]; decide, ?_⟩
      intro e he
      rw [List.mem_singleton] at he
      subst he
      exact ⟨trivial, by show (2 : Nat) < 5; omega⟩
    · rw [nodesWF, nodeWF]
      refine ⟨rfl, rfl, by decide, by rw [List.chain'_iff_pairwise]; decide, ?_⟩
      intro e he
      rw [List.mem_singleton] at he
      subst he
      exact ⟨by show (5 : Nat) < 9; omega, trivial⟩
  have hdel1 : btree_delete ({ root := BNode.mk [⟨5, some 50, 0⟩] [BNode.mk [(⟨2, some 20, 0⟩ : BEntry Nat)] [] [] true 0 true, BNode.mk [(⟨9, some 90, 0⟩ : BEntry Nat)] [] [] true 0 true] [0, 0] false 0 true, count := 3, tableId := 0 } : Btree Nat) 5
      = (({ root := BNode.mk [(⟨5, none, 0⟩ : BEntry Nat)] [BNode.mk [(⟨2, some 20, 0⟩ : BEntry Nat)] [] [] true 0 true, BNode.mk [(⟨9, some 90, 0⟩ : BEntry Nat)] [] [] true 0 true] [0, 0] false 0 true, count := 2, tableId := 0 } : Btree Nat), 0) := by
    rw [btree_delete]
    rw [show deleteNode (({ root := BNode.mk [⟨5, some 50, 0⟩] [BNode.mk [(⟨2, some 20, 0⟩ : BEntry Nat)] [] [] true 0 true, BNode.mk [(⟨9, some 90, 0⟩ : BEntry Nat)] [] [] true 0 true] [0, 0] false 0 true, count := 3, tableId := 0 } : Btree Nat)).root 5
        = (BNode.mk [(⟨5, none, 0⟩ : BEntry Nat)] [BNode.mk [(⟨2, some 20, 0⟩ : BEntry Nat)] [] [] true 0 true, BNode.mk [(⟨9, some 90, 0⟩ : BEntry Nat)] [] [] true 0 true] [0, 0] false 0 true, true) from by
      rw [deleteNode]
      norm_num [entIdx, List.findIdx, List.findIdx.go, noEnt]]
    norm_num
  have hmem : 5 ∈ keysOf (toPairs (btree_delete ({ root := BNode.mk [⟨5, some 50, 0⟩] [BNode.mk [(⟨2, some 20, 0⟩ : BEntry Nat)] [] [] true 0 true, BNode.mk [(⟨9, some 90, 0⟩ : BEntry Nat)] [] [] true 0 true] [0, 0] false 0 true, count := 3, tableId := 0 } : Btree Nat) 5).1.root) := by
    rw [hdel1]
    show 5 ∈ keysOf (toPairs (BNode.mk [(⟨5, none, 0⟩ : BEntry Nat)] [BNode.mk [(⟨2, some 20, 0⟩ : BEntry Nat)] [] [] true 0 true, BNode.mk [(⟨9, some 90, 0⟩ : BEntry Nat)] [] [] true 0 true] [0, 0] false 0 true))
    rw [toPairs_internal, List.map_cons, List.map_cons, List.map_nil,
      toPairs_leaf, toPairs_leaf]
    norm_num [weave, keysOf]
  have hmain := C10_delete_count ({ root := BNode.mk [⟨5, some 50, 0⟩] [BNode.mk [(⟨2, some 20, 0⟩ : BEntry Nat)] [] [] true 0 true, BNode.mk [(⟨9, some 90, 0⟩ : BEntry Nat)] [] [] true 0 true] [0, 0] false 0 true, count := 3, tableId := 0 } : Btree Nat) 5 ht
  refine ⟨ht, ?_, ?_, hmem, ?_, ?_⟩
  · rw [hdel1]
  · rw [hdel1]
  · exact (hmain.2.2.2 hmem).1
  · have := (hmain.2.2.2 hmem).2
    rw [this, hdel1]
    norm_num


/-- The byte-shift construction of the key-derivation domain equals the
little-endian encoding. -/
theorem shift_byte_eq (t i : Nat) : (t >>> (8 * i)) &&& 0xFF = t / 256 ^ i % 256 := by
  rw [Nat.shiftRight_eq_div_pow]
  have h1 := Nat.and_pow_two_sub_one_eq_mod (t / 2 ^ (8 * i)) 8
  norm_num at h1
  rw [h1]
  have h2 : (2 : Nat) ^ (8 * i) = 256 ^ i := by
    rw [Nat.pow_mul]
  rw [h2]

/-- **C7.** `derive_table_key` sets the AES key to the first 16 bytes of
`HMAC(K, "AES" || t_le32)` and the MAC key to the full
`HMAC(K, "MAC" || t_le32)`, with `t_le32` the 4-byte little-endian
encoding of the table id, and leaves the 32-byte derivation buffer
zeroed. -/
theorem C7_derive_table_key (Hm : List Nat → List Nat → List Nat)
    (masterKey : List Nat) (tableId : Nat) :
    (derive_table_key Hm masterKey tableId).aesKey
      = (Hm masterKey (bytesOf "AES" ++ leBytes 4 tableId)).take 16 ∧
    (derive_table_key Hm masterKey tableId).macKey
      = Hm masterKey (bytesOf "MAC" ++ leBytes 4 tableId) ∧
    (derive_table_key Hm masterKey tableId).scratch = List.replicate 32 0 := by
  have hAES : bytesOf "AES" = [65, 69, 83] := by decide
  have hMAC : bytesOf "MAC" = [77, 65, 67] := by decide
  have htid : [(tableId >>> 0) &&& 0xFF, (tableId >>> 8) &&& 0xFF,
      (tableId >>> 16) &&& 0xFF, (tableId >>> 24) &&& 0xFF] = leBytes 4 tableId := by
    have h0 : (tableId >>> 0) &&& 0xFF = tableId / 256 ^ 0 % 256 := by
      simpa using shift_byte_eq tableId 0
    have h1 : (tableId >>> 8) &&& 0xFF = tableId / 256 ^ 1 % 256 := by
      simpa using shift_byte_eq tableId 1
    have h2 : (tableId >>> 16) &&& 0xFF = tableId / 256 ^ 2 % 256 := by
      simpa using shift_byte_eq tableId 2
    have h3 : (tableId >>> 24) &&& 0xFF = tableId / 256 ^ 3 % 256 := by
      simpa using shift_byte_eq tableId 3
    rw [h0, h1, h2, h3]
    rfl
  refine ⟨?_, ?_, rfl⟩
  · rw [hAES, ← htid]
    rfl
  · rw [hMAC, ← htid]
    rfl

/-- **C2.** When the stored MAC differs from
`HMAC(mac_key[t], iv || ciphertext)`, `db_decrypt_record` returns no
record and its computed-MAC scratch is returned zeroed. -/
theorem C2_mac_reject (Dc Hm : List Nat → List Nat → List Nat)
    (st : DbState) (tableId : Nat) (enc : EncRec) (macKey : List Nat)
    (hmk : st.macKeys[tableId]? = some macKey)
    (hbad : enc.mac ≠ Hm macKey (enc.iv ++ enc.ciphertext.take enc.ciphertext_len)) :
    (db_decrypt_record Dc Hm st tableId (some enc)).1 = none ∧
    (db_decrypt_record Dc Hm st tableId (some enc)).2 = List.replicate 32 0 := by
  rw [db_decrypt_record]
  by_cases htc : st.tableCount ≤ tableId
  · rw [if_pos htc]
    exact ⟨rfl, rfl⟩
  · rw [if_neg htc, hmk]
    dsimp only
    rw [if_pos (by simp only [hmac_verify, beq_iff_eq]; exact hbad)]
    exact ⟨rfl, rfl⟩

/-- Witness for C2: a one-table state whose stored MAC disagrees with the
recomputed one. -/
theorem C2_mac_reject_witness :
    (({ tableCount := 1, schemas := [], trees := [], aesKeys := [[1]], macKeys := [[2]],
        globalRowId := 0, masterKey := [], rng := [], ticks := 0 } : DbState).macKeys[0]?
      = some [2] ∧
     ([0] : List Nat) ≠ List.replicate 32 1) ∧
    (db_decrypt_record (fun _ b => b) (fun _ _ => List.replicate 32 1)
      ({ tableCount := 1, schemas := [], trees := [], aesKeys := [[1]], macKeys := [[2]],
         globalRowId := 0, masterKey := [], rng := [], ticks := 0 } : DbState) 0
      (some { row_id := 1, table_id := 0, iv := List.replicate 16 0, mac := [0],
              ciphertext := List.replicate 16 3, ciphertext_len := 16 })).1 = none ∧
    (db_decrypt_record (fun _ b => b) (fun _ _ => List.replicate 32 1)
      ({ tableCount := 1, schemas := [], trees := [], aesKeys := [[1]], macKeys := [[2]],
         globalRowId := 0, masterKey := [], rng := [], ticks := 0 } : DbState) 0
      (some { row_id := 1, table_id := 0, iv := List.replicate 16 0, mac := [0],
              ciphertext := List.replicate 16 3, ciphertext_len := 16 })).2
      = List.replicate 32 0 :=
  ⟨⟨rfl, by decide⟩,
   C2_mac_reject (fun _ b => b) (fun _ _ => List.replicate 32 1) _ 0 _ [2] rfl (by decide)⟩


theorem getD_replicate {α : Type} (d : α) :
    ∀ (n i : Nat), (List.replicate n d).getD i d = d := by
  intro n
  induction n with
  | zero => intro i; simp
  | succ n ih =>
    intro i
    cases i with
    | zero => simp [List.replicate_succ]
    | succ i => simp only [List.replicate_succ, List.getD_cons_succ, ih]

/-- **C1.** On a registered table, after a successful `db_insert_record`
of a well-formed record, `db_get_record` at the record's row id returns a
record equal to it: the serialise → pad → AES-CBC-encrypt → HMAC pipeline
composes with verify → decrypt → unpad → deserialise to the identity. -/
theorem C1_insert_get_roundtrip (Ec Dc Hm : List Nat → List Nat → List Nat)
    (st : DbState) (tableId : Nat) (r : Record) (plain : List Nat)
    (aesKey macKey : List Nat) (tree : Btree EncRec)
    (hInv : ∀ b, b.length = 16 → Dc aesKey (Ec aesKey b) = b)
    (hElen : ∀ b, b.length = 16 → (Ec aesKey b).length = 16)
    (htid : tableId < st.tableCount)
    (hvalid : r.Valid)
    (hser : record_serialize r = some plain)
    (hsz : aes_padded_size plain.length ≤ MAX_RECORD_SIZE + 16)
    (haes : st.aesKeys[tableId]? = some aesKey)
    (hmac : st.macKeys[tableId]? = some macKey)
    (htree : st.trees[tableId]? = some tree)
    (htw : treeWF tree)
    (hiv : (st.rng.headD (List.replicate 16 0)).length = 16) :
    (db_insert_record Ec Hm st tableId r).1 = VOS_OK ∧
    db_get_record Dc Hm (db_insert_record Ec Hm st tableId r).2 tableId r.row_id
      = some r :=
  db_insert_get Ec Dc Hm st tableId r plain aesKey macKey tree hInv hElen htid hvalid
    hser hsz haes hmac htree htw hiv

/-- Witness for C1, with the identity block permutation and a constant
HMAC on a fresh one-table state. -/
theorem C1_insert_get_roundtrip_witness :
    (0 < (({ tableCount := 1, schemas := [], trees := [btree_init 0], aesKeys := [[1]], macKeys := [[2]], globalRowId := 0, masterKey := [], rng := [], ticks := 0 } : DbState)).tableCount ∧
     record_serialize ({ row_id := 1, table_id := 0, field_count := 0, fields := List.replicate 16 none } : Record) = some [1, 0, 0, 0, 0, 0, 0, 0, 0, 0, 0, 0, 0, 0, 0, 0] ∧
     treeWF (btree_init (V := EncRec) 0)) ∧
    (db_insert_record (fun _ b => b) (fun _ _ => List.replicate 32 9) ({ tableCount := 1, schemas := [], trees := [btree_init 0], aesKeys := [[1]], macKeys := [[2]], globalRowId := 0, masterKey := [], rng := [], ticks := 0 } : DbState) 0 ({ row_id := 1, table_id := 0, field_count := 0, fields := List.replicate 16 none } : Record)).1
      = VOS_OK ∧
    db_get_record (fun _ b => b) (fun _ _ => List.replicate 32 9)
      (db_insert_record (fun _ b => b) (fun _ _ => List.replicate 32 9) ({ tableCount := 1, schemas := [], trees := [btree_init 0], aesKeys := [[1]], macKeys := [[2]], globalRowId := 0, masterKey := [], rng := [], ticks := 0 } : DbState) 0 ({ row_id := 1, table_id := 0, field_count := 0, fields := List.replicate 16 none } : Record)).2
      0 (({ row_id := 1, table_id := 0, field_count := 0, fields := List.replicate 16 none } : Record)).row_id = some ({ row_id := 1, table_id := 0, field_count := 0, fields := List.replicate 16 none } : Record) := by
  have hvalid : (({ row_id := 1, table_id := 0, field_count := 0, fields := List.replicate 16 none } : Record)).Valid := by
    refine ⟨by norm_num, by norm_num, by norm_num, rfl, by norm_num [MAX_COLUMNS], ?_, ?_⟩
    · intro i hi
      have hi2 : i < 0 := hi
      exact absurd hi2 (by omega)
    · intro i _
      exact getD_replicate none 16 i
  refine ⟨⟨by decide, by decide, treeWF_init 0⟩, ?_⟩
  exact C1_insert_get_roundtrip (fun _ b => b) (fun _ b => b)
    (fun _ _ => List.replicate 32 9) ({ tableCount := 1, schemas := [], trees := [btree_init 0], aesKeys := [[1]], macKeys := [[2]], globalRowId := 0, masterKey := [], rng := [], ticks := 0 } : DbState) 0 ({ row_id := 1, table_id := 0, field_count := 0, fields := List.replicate 16 none } : Record) [1, 0, 0, 0, 0, 0, 0, 0, 0, 0, 0, 0, 0, 0, 0, 0] [1] [2] (btree_init 0)
    (fun _ _ => rfl) (fun _ h => h) (by decide) hvalid (by decide) (by decide)
    rfl rfl rfl (treeWF_init 0) (by decide)

set_option maxHeartbeats 2000000 in
/-- Frame lemma for `exec_grant`: on every path the engine state is
returned unchanged, the result has no rows, and a successful result
carries a `grantMsg`. -/
theorem exec_grant_frame (p : PState) (st : DbState) :
    (exec_grant p st).2 = st ∧ (exec_grant p st).1.rows = [] ∧
    ((exec_grant p st).1.errorCode = VOS_OK →
      ∃ a b c, (exec_grant p st).1.errorMsg = grantMsg a b c) := by
  rw [exec_grant]
  dsimp only
  split
  · exact ⟨rfl, rfl, fun h => absurd h (by norm_num [db_result_error, VOS_ERR_SYNTAX, VOS_OK])⟩
  · split
    · exact ⟨rfl, rfl, fun h => absurd h (by norm_num [db_result_error, VOS_ERR_SYNTAX, VOS_OK])⟩
    · split
      · exact ⟨rfl, rfl, fun h => absurd h (by norm_num [db_result_error, VOS_ERR_SYNTAX, VOS_OK])⟩
      · split
        · exact ⟨rfl, rfl, fun h => absurd h (by norm_num [db_result_error, VOS_ERR_SYNTAX, VOS_OK])⟩
        · exact ⟨rfl, rfl, fun _ => ⟨_, _, _, rfl⟩⟩

/-- Frame lemma for `exec_revoke`: on every path the engine state is
returned unchanged, the result has no rows, and a successful result
carries a `revokeMsg`. -/
theorem exec_revoke_frame (p : PState) (st : DbState) :
    (exec_revoke p st).2 = st ∧ (exec_revoke p st).1.rows = [] ∧
    ((exec_revoke p st).1.errorCode = VOS_OK →
      ∃ c, (exec_revoke p st).1.errorMsg = revokeMsg c) := by
  rw [exec_revoke]
  dsimp only
  split
  · exact ⟨rfl, rfl, fun h => absurd h (by norm_num [db_result_error, VOS_ERR_SYNTAX, VOS_OK])⟩
  · exact ⟨rfl, rfl, fun _ => ⟨_, rfl⟩⟩

/-- Claim C8: a GRANT or REVOKE statement executed through
`query_execute` leaves the whole engine state (schema registry, every
tree, key material, row-id counter) unchanged, returns no rows, and on
success carries the formatted `grantMsg` / `revokeMsg` status
message. -/
theorem C8_grant_revoke_frame (Ec Dc Hm : List Nat → List Nat → List Nat)
    (st : DbState) (input : List Nat) (pid : Nat)
    (h : (pInit input).cur.ttype = TokenType.Grant ∨
         (pInit input).cur.ttype = TokenType.Revoke) :
    (query_execute Ec Dc Hm st input pid).2 = st ∧
    (query_execute Ec Dc Hm st input pid).1.rows = [] ∧
    ((query_execute Ec Dc Hm st input pid).1.errorCode = VOS_OK →
      (∃ a b c, (query_execute Ec Dc Hm st input pid).1.errorMsg = grantMsg a b c) ∨
      (∃ c, (query_execute Ec Dc Hm st input pid).1.errorMsg = revokeMsg c)) := by
  rcases h with h | h
  · have hq : query_execute Ec Dc Hm st input pid = exec_grant (pAdv (pInit input)) st := by
      simp only [query_execute]
      rw [h]
    rw [hq]
    obtain ⟨h1, h2, h3⟩ := exec_grant_frame (pAdv (pInit input)) st
    exact ⟨h1, h2, fun hc => Or.inl (h3 hc)⟩
  · have hq : query_execute Ec Dc Hm st input pid = exec_revoke (pAdv (pInit input)) st := by
      simp only [query_execute]
      rw [h]
    rw [hq]
    obtain ⟨h1, h2, h3⟩ := exec_revoke_frame (pAdv (pInit input)) st
    exact ⟨h1, h2, fun hc => Or.inr (h3 hc)⟩

/-- Witness for C8 on the concrete statement `GRANT READ ON 1 TO 2`
against an empty engine state. -/
theorem C8_grant_revoke_frame_witness :
    ((pInit (bytesOf "GRANT READ ON 1 TO 2")).cur.ttype = TokenType.Grant ∨
     (pInit (bytesOf "GRANT READ ON 1 TO 2")).cur.ttype = TokenType.Revoke) ∧
    ((query_execute (fun _ b => b) (fun _ b => b) (fun _ _ => []) (⟨0, [], [], [], [], 0, [], [], 0⟩ : DbState) (bytesOf "GRANT READ ON 1 TO 2") 7).2 = (⟨0, [], [], [], [], 0, [], [], 0⟩ : DbState) ∧
     (query_execute (fun _ b => b) (fun _ b => b) (fun _ _ => []) (⟨0, [], [], [], [], 0, [], [], 0⟩ : DbState) (bytesOf "GRANT READ ON 1 TO 2") 7).1.rows = [] ∧
     ((query_execute (fun _ b => b) (fun _ b => b) (fun _ _ => []) (⟨0, [], [], [], [], 0, [], [], 0⟩ : DbState) (bytesOf "GRANT READ ON 1 TO 2") 7).1.errorCode = VOS_OK →
      (∃ a b c, (query_execute (fun _ b => b) (fun _ b => b) (fun _ _ => []) (⟨0, [], [], [], [], 0, [], [], 0⟩ : DbState) (bytesOf "GRANT READ ON 1 TO 2") 7).1.errorMsg = grantMsg a b c) ∨
      (∃ c, (query_execute (fun _ b => b) (fun _ b => b) (fun _ _ => []) (⟨0, [], [], [], [], 0, [], [], 0⟩ : DbState) (bytesOf "GRANT READ ON 1 TO 2") 7).1.errorMsg = revokeMsg c))) :=
  ⟨Or.inl (by decide),
   C8_grant_revoke_frame (fun _ b => b) (fun _ b => b) (fun _ _ => [])
     (⟨0, [], [], [], [], 0, [], [], 0⟩ : DbState) (bytesOf "GRANT READ ON 1 TO 2") 7
     (Or.inl (by decide))⟩

/-- Claim C9: a WHERE value token that is neither a string literal nor a
number makes `parse_where` stop silently with the conditions collected
so far — here none — and an empty condition list matches every record,
so `exec_delete` deletes every row the unfiltered scan collects. -/
theorem C9_bareword_where_delete_all (Dc Hm : List Nat → List Nat → List Nat)
    (p : PState) (st : DbState) (schema : TableSchema) (tree : Btree EncRec)
    (hfrom : p.cur.ttype = TokenType.From)
    (htab : (pAdv p).cur.ttype = TokenType.Ident)
    (hW : (pAdv (pAdv p)).cur.ttype = TokenType.Where)
    (hid : (pAdv (pAdv (pAdv p))).cur.ttype = TokenType.Ident)
    (hv1 : (parse_op (pAdv (pAdv (pAdv (pAdv p))))).2.cur.ttype ≠ TokenType.StringLit)
    (hv2 : (parse_op (pAdv (pAdv (pAdv (pAdv p))))).2.cur.ttype ≠ TokenType.Number)
    (hschema : db_get_schema_by_name st (pAdv p).cur.value = some schema)
    (hidx : db_get_index st schema.tableId = some tree) :
    (parse_where (pAdv (pAdv p))).1 = [] ∧
    (∀ (r : Record) (sch : TableSchema), record_matches r sch [] = true) ∧
    exec_delete Dc Hm p st =
      ({ db_result_create with errorMsg := countMsg (bytesOf "row(s) deleted: ") ((scan_collect Dc Hm st schema [] tree db_result_create).rows.map (fun r => r.row_id)).length },
       ((scan_collect Dc Hm st schema [] tree db_result_create).rows.map
           (fun r => r.row_id)).foldl
         (fun st2 rid => (db_delete_record st2 schema.tableId rid).2) st) := by
  have hgo : parse_where_go (7 + 1) (pAdv (pAdv (pAdv p))) [] =
      ([], (parse_op (pAdv (pAdv (pAdv (pAdv p))))).2) := by
    rw [parse_where_go]
    rw [if_neg (not_not_intro hid)]
    dsimp only
    rw [if_neg hv1, if_neg hv2]
  have hpw : parse_where (pAdv (pAdv p)) =
      ([], (parse_op (pAdv (pAdv (pAdv (pAdv p))))).2) := by
    rw [parse_where, if_neg (not_not_intro hW)]
    exact hgo
  have he1 : pExpect p TokenType.From = (true, pAdv p) := by
    rw [pExpect, if_pos hfrom]
  refine ⟨by rw [hpw], fun r sch => rfl, ?_⟩
  rw [exec_delete]
  dsimp only
  rw [he1]
  dsimp only
  rw [if_neg (not_not_intro rfl), if_neg (not_not_intro htab), hschema]
  dsimp only
  rw [hpw, hidx]

/-- Witness for C9 on the concrete tail `FROM t WHERE c = x` (a bareword
value) against a one-table state whose table `t` is empty. -/
theorem C9_bareword_where_delete_all_witness :
    ((pInit (bytesOf "FROM t WHERE c = x")).cur.ttype = TokenType.From ∧
     (pAdv (pInit (bytesOf "FROM t WHERE c = x"))).cur.ttype = TokenType.Ident ∧
     (pAdv (pAdv (pInit (bytesOf "FROM t WHERE c = x")))).cur.ttype = TokenType.Where ∧
     (pAdv (pAdv (pAdv (pInit (bytesOf "FROM t WHERE c = x"))))).cur.ttype = TokenType.Ident ∧
     (parse_op (pAdv (pAdv (pAdv (pAdv (pInit (bytesOf "FROM t WHERE c = x"))))))).2.cur.ttype ≠ TokenType.StringLit ∧
     (parse_op (pAdv (pAdv (pAdv (pAdv (pInit (bytesOf "FROM t WHERE c = x"))))))).2.cur.ttype ≠ TokenType.Number) ∧
    ((parse_where (pAdv (pAdv (pInit (bytesOf "FROM t WHERE c = x"))))).1 = [] ∧
     (∀ (r : Record) (sch : TableSchema), record_matches r sch [] = true) ∧
     exec_delete (fun _ b => b) (fun _ _ => []) (pInit (bytesOf "FROM t WHERE c = x")) (⟨1, [⟨bytesOf "t", 0, true, false, 0, []⟩], [btree_init 0], [], [], 0, [], [], 0⟩ : DbState) =
       ({ db_result_create with errorMsg := countMsg (bytesOf "row(s) deleted: ") ((scan_collect (fun _ b => b) (fun _ _ => []) (⟨1, [⟨bytesOf "t", 0, true, false, 0, []⟩], [btree_init 0], [], [], 0, [], [], 0⟩ : DbState) (⟨bytesOf "t", 0, true, false, 0, []⟩ : TableSchema) [] (btree_init 0) db_result_create).rows.map (fun r => r.row_id)).length },
        ((scan_collect (fun _ b => b) (fun _ _ => []) (⟨1, [⟨bytesOf "t", 0, true, false, 0, []⟩], [btree_init 0], [], [], 0, [], [], 0⟩ : DbState) (⟨bytesOf "t", 0, true, false, 0, []⟩ : TableSchema) [] (btree_init 0) db_result_create).rows.map (fun r => r.row_id)).foldl
          (fun st2 rid => (db_delete_record st2 (⟨bytesOf "t", 0, true, false, 0, []⟩ : TableSchema).tableId rid).2) (⟨1, [⟨bytesOf "t", 0, true, false, 0, []⟩], [btree_init 0], [], [], 0, [], [], 0⟩ : DbState))) :=
  ⟨⟨by decide, by decide, by decide, by decide, by decide, by decide⟩,
   C9_bareword_where_delete_all (fun _ b => b) (fun _ _ => [])
     (pInit (bytesOf "FROM t WHERE c = x"))
     (⟨1, [⟨bytesOf "t", 0, true, false, 0, []⟩], [btree_init 0], [], [], 0, [], [], 0⟩ : DbState)
     (⟨bytesOf "t", 0, true, false, 0, []⟩ : TableSchema) (btree_init 0)
     (by decide) (by decide) (by decide) (by decide) (by decide) (by decide) rfl rfl⟩

/-- Claim C6 is refuted by this counterexample: with allocator stream
`[5]` and a write failure on block 5, `page_write_record` of a minimal
record allocates block 5, fails the final page write, returns 0, and
leaves block 5 allocated — the already-allocated block is not freed
before returning failure. -/
theorem C6_failed_write_leaks :
    (page_write_record ⟨[5], [5], [], []⟩ ⟨1, 0, [], [], [], 0⟩).1 = 0 ∧
    5 ∈ (page_write_record ⟨[5], [5], [], []⟩ ⟨1, 0, [], [], [], 0⟩).2.live := by
  have e1 : page_write_record (⟨[5], [5], [], []⟩ : DiskSt) ⟨1, 0, [], [], [], 0⟩ =
      pwrGo ⟨[5], [5], [], []⟩ (1 :: List.replicate 63 0) 0 0 none := rfl
  have e2 : pwrGo (⟨[5], [5], [], []⟩ : DiskSt) (1 :: List.replicate 63 0) 0 0 none =
      pwrGo ⟨[], [5], [5], []⟩ [] 5 5 (some ⟨64, 0, 1 :: List.replicate 63 0⟩) := by
    conv_lhs => rw [pwrGo]
    rfl
  have e3 : pwrGo (⟨[], [5], [5], []⟩ : DiskSt) [] 5 5
      (some ⟨64, 0, 1 :: List.replicate 63 0⟩) = (0, ⟨[], [5], [5], []⟩) := by
    conv_lhs => rw [pwrGo]
    rfl
  rw [e1, e2, e3]
  exact ⟨rfl, by decide⟩

end VaultOS
